import Mathlib

/-!
# Sangfor AC client (`ac.go`): request signing and response normalisation

A shallow embedding of the core of `ac.go` (package `sangfor`): the signer
`setRandomKey`, the request builder and transport wrapper `send`, the textual
normalisation `acFixJson`, and the envelope decoding done by every endpoint
binding, followed by theorems about them.

Conventions.  A Go `string` / `[]byte` is a list of bytes, each byte a natural
number below 256 (`Bytes`).  String literals of the source are written
`bytes "..."`, their UTF-8 encoding.  Behaviour of the Go standard library that
the source relies on (`strings.Replacer`, `crypto/md5`, `encoding/json`,
`fmt`) is embedded from its documented behaviour; what the library leaves open
(the pseudo-random generator, the clock, map iteration order, the network) is an
explicit input of the functions below.
-/

set_option linter.unusedVariables false

namespace Sangfor

/-! ## Bytes and literals -/

/-- A Go `string` or `[]byte`: a sequence of bytes. -/
abbrev Bytes := List Nat

/-- UTF-8 encoding of one code point (`utf8.EncodeRune` for a valid rune). -/
def encodeRune (r : Nat) : Bytes :=
  if r < 0x80 then [r]
  else if r < 0x800 then [0xC0 + r / 64, 0x80 + r % 64]
  else if r < 0x10000 then [0xE0 + r / 4096, 0x80 + r / 64 % 64, 0x80 + r % 64]
  else [0xF0 + r / 262144, 0x80 + r / 4096 % 64, 0x80 + r / 64 % 64, 0x80 + r % 64]

/-- The bytes of a string literal of the source (Go source text is UTF-8). -/
def bytes (s : String) : Bytes := s.toList.flatMap (fun c => encodeRune c.toNat)

/-! ## `strings.Replacer` and `acFixJson` (ac.go 1496-1514) -/

/-- The lookup of `strings.Replacer` (generic algorithm): among the old strings
that are a prefix of `s`, the one given first in argument order. -/
def genericLookup (oldnew : List (Bytes × Bytes)) (s : Bytes) : Option (Bytes × Bytes) :=
  oldnew.find? (fun p => p.1.isPrefixOf s)

/-- The scan of `strings.Replacer.Replace`: replacements are performed in the
order they appear in the target string, without overlapping matches.  At a
position where an old string matches, its replacement is written and the scan
resumes after the match (`skip` counts the bytes of the match still to be passed
over); elsewhere the byte is copied.  All old strings used here are non-empty. -/
def genericReplace (oldnew : List (Bytes × Bytes)) : Nat → Bytes → Bytes
  | _, [] => []
  | skip + 1, _ :: cs => genericReplace oldnew skip cs
  | 0, c :: cs =>
    match genericLookup oldnew (c :: cs) with
    | some (old, new) => new ++ genericReplace oldnew (old.length - 1) cs
    | none => c :: genericReplace oldnew 0 cs

/-- The argument list of `strings.NewReplacer` in `acFixJson`, as (old, new) pairs. -/
def acFixPairs : List (Bytes × Bytes) := [
  (bytes "\"bind_cfg\":{}", bytes "\"bind_cfg\":[]"),
  (bytes "\"ipmac\":{}", bytes "\"ipmac\":[]"),
  (bytes "\"ou\":{}", bytes "\"ou\":[]"),
  (bytes "\"aduser\":{}", bytes "\"aduser\":[]"),
  (bytes "\"adgroup\":{}", bytes "\"adgroup\":[]"),
  (bytes "\"exc_aduser\":{}", bytes "\"exc_aduser\":[]"),
  (bytes "\"attribute\":{}", bytes "\"attribute\":[]"),
  (bytes "\"user_attr_grp\":{}", bytes "\"user_attr_grp\":[]"),
  (bytes "\"sourceip\":{}", bytes "\"sourceip\":[]"),
  (bytes "\"location\":{}", bytes "\"location\":[]"),
  (bytes "\"terminal\":{}", bytes "\"terminal\":[]"),
  (bytes "\"target_area\":{}", bytes "\"target_area\":[]"),
  (bytes "\"value\":{}", bytes "\"value\":[]")]

/-- The function `acFixJson`: `rplcer.Replace(string(data))`. -/
def acFixJson (data : Bytes) : Bytes := genericReplace acFixPairs 0 data

/-- The thirteen field names of the allow-list, in the order of the source. -/
def acFixNames : List String :=
  ["bind_cfg", "ipmac", "ou", "aduser", "adgroup", "exc_aduser", "attribute",
   "user_attr_grp", "sourceip", "location", "terminal", "target_area", "value"]

/-- The text `"k":{}` for a field name `k`. -/
def emptyObjectField (k : String) : Bytes := bytes "\"" ++ bytes k ++ bytes "\":{}"

/-- The text `"k":[]` for a field name `k`. -/
def emptyArrayField (k : String) : Bytes := bytes "\"" ++ bytes k ++ bytes "\":[]"

/-- Two byte strings differ at a position that both have. -/
def clash : Bytes → Bytes → Bool
  | a :: as, b :: bs => a != b || clash as bs
  | _, _ => false

/-- Equal length and equal bytes, except where the second string has `[` or `]`. -/
def sameUpToBrackets : Bytes → Bytes → Bool
  | [], [] => true
  | a :: as, b :: bs => (b == a || b == 91 || b == 93) && sameUpToBrackets as bs
  | _, _ => false

/-- An output byte: the input byte, or one of the brackets `[` (91), `]` (93). -/
def bracketed (a b : Nat) : Prop := b = a ∨ b = 91 ∨ b = 93


/-! ## `crypto/md5`, `fmt` and the signer `setRandomKey` (ac.go 1470-1481) -/

/-- Per-step left-rotation amounts of MD5 (RFC 1321). -/
def md5Shifts : List Nat :=
  [7, 12, 17, 22, 7, 12, 17, 22, 7, 12, 17, 22, 7, 12, 17, 22,
   5, 9, 14, 20, 5, 9, 14, 20, 5, 9, 14, 20, 5, 9, 14, 20,
   4, 11, 16, 23, 4, 11, 16, 23, 4, 11, 16, 23, 4, 11, 16, 23,
   6, 10, 15, 21, 6, 10, 15, 21, 6, 10, 15, 21, 6, 10, 15, 21]

/-- The sine-derived constants of MD5 (RFC 1321). -/
def md5Table : List Nat :=
  [0xd76aa478, 0xe8c7b756, 0x242070db, 0xc1bdceee, 0xf57c0faf, 0x4787c62a, 0xa8304613, 0xfd469501,
   0x698098d8, 0x8b44f7af, 0xffff5bb1, 0x895cd7be, 0x6b901122, 0xfd987193, 0xa679438e, 0x49b40821,
   0xf61e2562, 0xc040b340, 0x265e5a51, 0xe9b6c7aa, 0xd62f105d, 0x02441453, 0xd8a1e681, 0xe7d3fbc8,
   0x21e1cde6, 0xc33707d6, 0xf4d50d87, 0x455a14ed, 0xa9e3e905, 0xfcefa3f8, 0x676f02d9, 0x8d2a4c8a,
   0xfffa3942, 0x8771f681, 0x6d9d6122, 0xfde5380c, 0xa4beea44, 0x4bdecfa9, 0xf6bb4b60, 0xbebfbc70,
   0x289b7ec6, 0xeaa127fa, 0xd4ef3085, 0x04881d05, 0xd9d4d039, 0xe6db99e5, 0x1fa27cf8, 0xc4ac5665,
   0xf4292244, 0x432aff97, 0xab9423a7, 0xfc93a039, 0x655b59c3, 0x8f0ccc92, 0xffeff47d, 0x85845dd1,
   0x6fa87e4f, 0xfe2ce6e0, 0xa3014314, 0x4e0811a1, 0xf7537e82, 0xbd3af235, 0x2ad7d2bb, 0xeb86d391]

/-- Rotation of a 32-bit word to the left by `c` bits. -/
def rotateLeft32 (x c : Nat) : Nat := (x * 2 ^ c + x / 2 ^ (32 - c)) % 2 ^ 32

/-- Bitwise complement of a 32-bit word. -/
def not32 (x : Nat) : Nat := 0xffffffff - x % 2 ^ 32

/-- The little-endian 32-bit word made of the first four bytes. -/
def le32 (b : Bytes) : Nat :=
  b.getD 0 0 % 256 + 256 * (b.getD 1 0 % 256) + 65536 * (b.getD 2 0 % 256) +
    16777216 * (b.getD 3 0 % 256)

/-- The four bytes of a 32-bit word, least significant first. -/
def putLe32 (x : Nat) : Bytes := [x % 256, x / 256 % 256, x / 65536 % 256, x / 16777216 % 256]

/-- The four chaining words of MD5. -/
structure Md5State where
  a : Nat
  b : Nat
  c : Nat
  d : Nat

/-- Step `i` (0..63) of the MD5 compression function on one 64-byte block. -/
def md5Step (block : Bytes) (s : Md5State) (i : Nat) : Md5State :=
  let f := if i < 16 then (s.b &&& s.c) ||| (not32 s.b &&& s.d)
    else if i < 32 then (s.d &&& s.b) ||| (not32 s.d &&& s.c)
    else if i < 48 then s.b ^^^ s.c ^^^ s.d
    else s.c ^^^ (s.b ||| not32 s.d)
  let g := if i < 16 then i
    else if i < 32 then (5 * i + 1) % 16
    else if i < 48 then (3 * i + 5) % 16
    else (7 * i) % 16
  let x := (f + s.a + md5Table.getD i 0 + le32 (block.drop (4 * g))) % 2 ^ 32
  { a := s.d, b := (s.b + rotateLeft32 x (md5Shifts.getD i 0)) % 2 ^ 32, c := s.b, d := s.c }

/-- The MD5 compression function. -/
def md5Block (s : Md5State) (block : Bytes) : Md5State :=
  let t := (List.range 64).foldl (md5Step block) s
  { a := (s.a + t.a) % 2 ^ 32, b := (s.b + t.b) % 2 ^ 32,
    c := (s.c + t.c) % 2 ^ 32, d := (s.d + t.d) % 2 ^ 32 }

/-- MD5 padding: a `0x80` byte, zero bytes up to 56 modulo 64, the bit length
as a little-endian 64-bit number. -/
def md5Pad (msg : Bytes) : Bytes :=
  let n := msg.length
  let bits := (8 * n) % 2 ^ 64
  msg ++ [0x80] ++ List.replicate ((119 - n % 64) % 64) 0 ++
    putLe32 (bits % 2 ^ 32) ++ putLe32 (bits / 2 ^ 32)

/-- The 16-byte MD5 digest of `msg`: what `md5.New()`, a write of `msg` and
`Sum(nil)` return. -/
def md5Sum (msg : Bytes) : Bytes :=
  let p := md5Pad msg
  let s := (List.range (p.length / 64)).foldl
    (fun s i => md5Block s ((p.drop (64 * i)).take 64))
    { a := 0x67452301, b := 0xefcdab89, c := 0x98badcfe, d := 0x10325476 }
  putLe32 s.a ++ putLe32 s.b ++ putLe32 s.c ++ putLe32 s.d

/-- The character for a hexadecimal digit, lower case. -/
def hexDigit (n : Nat) : Nat := if n < 10 then 48 + n else 87 + n

/-- The verb `%x` of `fmt.Sprintf` on a byte slice: two lower-case hexadecimal
digits per byte. -/
def hexLower (b : Bytes) : Bytes := b.flatMap (fun x => [hexDigit (x / 16 % 16), hexDigit (x % 16)])

/-- A character of a lower-case hexadecimal rendering: `0`-`9` or `a`-`f`. -/
def isLowerHex (c : Nat) : Prop := (48 ≤ c ∧ c ≤ 57) ∨ (97 ≤ c ∧ c ≤ 102)

/-- Decimal digits of `n`, most significant first; `fuel` bounds the number of digits. -/
def decimalDigits : Nat → Nat → Bytes
  | 0, _ => []
  | fuel + 1, n => if n < 10 then [48 + n] else decimalDigits fuel (n / 10) ++ [48 + n % 10]

/-- The result of `fmt.Sprint` on an unsigned integer: its decimal rendering. -/
def formatUint (n : Nat) : Bytes := decimalDigits (n + 1) n

/-- The process-wide source of `math/rand`.  `seed t` is the state of the source
after `rand.Seed(t)`, which depends on `t` only; `uint64 s` is the value returned
by `rand.Uint64()` in state `s` (taken modulo `2^64`) and the state after it.  The
generator itself belongs to the Go library and is left open. -/
structure RandSource (σ : Type) where
  seed : Int → σ
  uint64 : σ → Nat × σ

/-- The client object `AC`. -/
structure AC where
  baseUrl : Bytes
  secret : Bytes
  ErrLangCN : Bool

/-- The method `setRandomKey`, given the state `g` of the random source before
the call and the reading `now` of `time.Now().Unix()`.  Returns the pair
`(rd, digest)` and the state of the random source after the call. -/
def setRandomKey {σ : Type} (R : RandSource σ) (ac : AC) (g : σ) (now : Int) :
    (Bytes × Bytes) × σ :=
  -- rand.Seed(time.Now().Unix()): the previous state `g` is overwritten
  let g1 := R.seed now
  let (x, g2) := R.uint64 g1
  let rd := formatUint (x % 2 ^ 64)
  let sec := ac.secret ++ rd
  ((rd, hexLower (md5Sum sec)), g2)


/-! ## Go values, `utf8` and `json.Marshal` -/

/-- A Go value as far as `encoding/json` distinguishes values: what an
`interface{}` of a request body holds and what a response is decoded into.
`nil` is the nil interface, pointer, slice or map; `float` is a `float64`, kept as
a decimal text that denotes it; `slice` and `map` are non-nil; a non-nil pointer
is identified with the value it points to; the entries of a `map` have distinct
keys and no order; the fields of a `struct` are in declaration order under their
JSON names. -/
inductive GoVal where
  | nil
  | bool (b : Bool)
  | int (n : Int)
  | float (lit : Bytes)
  | str (s : Bytes)
  | slice (xs : List GoVal)
  | map (ms : List (Bytes × GoVal))
  | struct (fs : List (Bytes × GoVal))

/-- A continuation byte of UTF-8. -/
def isCont (b : Nat) : Bool := 0x80 ≤ b && b ≤ 0xBF

/-- The function `utf8.DecodeRune` on an input that starts with a byte `≥ 0x80`:
the rune and the number of bytes of its encoding, or `none` where Go returns
`(RuneError, 1)` for an invalid encoding. -/
def decodeRune : Bytes → Option (Nat × Nat)
  | b0 :: b1 :: rest =>
    if 0xC2 ≤ b0 ∧ b0 ≤ 0xDF then
      if isCont b1 then some ((b0 - 0xC0) * 64 + (b1 - 0x80), 2) else none
    else if 0xE0 ≤ b0 ∧ b0 ≤ 0xEF then
      match rest with
      | b2 :: _ =>
        if (if b0 = 0xE0 then 0xA0 else 0x80) ≤ b1 ∧ b1 ≤ (if b0 = 0xED then 0x9F else 0xBF) ∧
            isCont b2 then
          some ((b0 - 0xE0) * 4096 + (b1 - 0x80) * 64 + (b2 - 0x80), 3)
        else none
      | [] => none
    else if 0xF0 ≤ b0 ∧ b0 ≤ 0xF4 then
      match rest with
      | b2 :: b3 :: _ =>
        if (if b0 = 0xF0 then 0x90 else 0x80) ≤ b1 ∧ b1 ≤ (if b0 = 0xF4 then 0x8F else 0xBF) ∧
            isCont b2 ∧ isCont b3 then
          some ((b0 - 0xF0) * 262144 + (b1 - 0x80) * 4096 + (b2 - 0x80) * 64 + (b3 - 0x80), 4)
        else none
      | _ => none
    else none
  | _ => none

/-- The table `htmlSafeSet` of `encoding/json`: the ASCII bytes written to a
JSON string as they are (all from the space on, except `"`, `\`, `<`, `>`, `&`). -/
def htmlSafe (b : Nat) : Bool :=
  0x20 ≤ b && b < 0x80 && b != 34 && b != 92 && b != 60 && b != 62 && b != 38

/-- The body of `encodeState.string` with HTML escaping, as `json.Marshal` uses
it (Go 1.16, the release of the time of the source): the escaped text between
the quotes.  `fuel` bounds the number of steps; the length of the input is enough. -/
def escapeString : Nat → Bytes → Bytes
  | 0, _ => []
  | _ + 1, [] => []
  | fuel + 1, b :: rest =>
    if b < 0x80 then
      if htmlSafe b then b :: escapeString fuel rest
      else if b = 92 ∨ b = 34 then 92 :: b :: escapeString fuel rest
      else if b = 10 then 92 :: 110 :: escapeString fuel rest
      else if b = 13 then 92 :: 114 :: escapeString fuel rest
      else if b = 9 then 92 :: 116 :: escapeString fuel rest
      else bytes "\\u00" ++ [hexDigit (b / 16 % 16), hexDigit (b % 16)] ++ escapeString fuel rest
    else
      match decodeRune (b :: rest) with
      | none => bytes "\\ufffd" ++ escapeString fuel rest
      | some (r, size) =>
        if r = 0x2028 ∨ r = 0x2029 then
          bytes "\\u202" ++ [hexDigit (r % 16)] ++ escapeString fuel ((b :: rest).drop size)
        else (b :: rest).take size ++ escapeString fuel ((b :: rest).drop size)

/-- A string as `json.Marshal` writes it: quoted and escaped. -/
def encodeString (s : Bytes) : Bytes := 34 :: escapeString s.length s ++ [34]

/-- The order of Go strings: byte-wise lexicographic. -/
def bytesLt : Bytes → Bytes → Bool
  | [], [] => false
  | [], _ :: _ => true
  | _ :: _, [] => false
  | a :: as, b :: bs => a < b || (a == b && bytesLt as bs)

/-- Insertion of an entry into a list sorted by key. -/
def insertByKey (e : Bytes × Bytes) : List (Bytes × Bytes) → List (Bytes × Bytes)
  | [] => [e]
  | x :: xs => if bytesLt x.1 e.1 then x :: insertByKey e xs else e :: x :: xs

/-- The entries sorted by key, as `json.Marshal` orders the keys of a map. -/
def sortByKey (l : List (Bytes × Bytes)) : List (Bytes × Bytes) :=
  l.foldr insertByKey []

/-- The function `strings.Join`. -/
def join (sep : Bytes) : List Bytes → Bytes
  | [] => []
  | [a] => a
  | a :: b :: rest => a ++ sep ++ join sep (b :: rest)

/-- Decimal rendering of a signed integer. -/
def formatInt (n : Int) : Bytes :=
  if n < 0 then 45 :: formatUint n.natAbs else formatUint n.natAbs

/-- One `key:value` member of a JSON object as `json.Marshal` writes it. -/
def encodeMember (kv : Bytes × Bytes) : Bytes := encodeString kv.1 ++ [58] ++ kv.2

mutual
/-- The function `json.Marshal` on one value.  `fmtFloat` is the text that
`strconv` produces for the `float64` denoted by a decimal text (left open).  Every
`GoVal` can be marshalled, so no error arises. -/
def marshalVal (fmtFloat : Bytes → Bytes) : GoVal → Bytes
  | .nil => bytes "null"
  | .bool b => if b then bytes "true" else bytes "false"
  | .int n => formatInt n
  | .float lit => fmtFloat lit
  | .str s => encodeString s
  | .slice xs => [91] ++ join [44] (marshalElems fmtFloat xs) ++ [93]
  | .map ms => [123] ++ join [44] ((sortByKey (marshalFields fmtFloat ms)).map encodeMember) ++ [125]
  | .struct fs => [123] ++ join [44] ((marshalFields fmtFloat fs).map encodeMember) ++ [125]
/-- The elements of a slice, each marshalled. -/
def marshalElems (fmtFloat : Bytes → Bytes) : List GoVal → List Bytes
  | [] => []
  | v :: vs => marshalVal fmtFloat v :: marshalElems fmtFloat vs
/-- The entries of a map or the fields of a struct, each value marshalled. -/
def marshalFields (fmtFloat : Bytes → Bytes) : List (Bytes × GoVal) → List (Bytes × Bytes)
  | [] => []
  | (k, v) :: rest => (k, marshalVal fmtFloat v) :: marshalFields fmtFloat rest
end

/-- The value stored under key `k` in a Go map. -/
def mapGet {α : Type} (m : List (Bytes × α)) (k : Bytes) : Option α :=
  (m.find? (fun e => e.1 == k)).map (fun e => e.2)

/-- The assignment `m[k] = v` on a Go map: the entry for `k` is replaced or added. -/
def mapSet {α : Type} (m : List (Bytes × α)) (k : Bytes) (v : α) : List (Bytes × α) :=
  (k, v) :: m.filter (fun e => e.1 != k)

/-! ## The request builder and transport wrapper `send` (ac.go 1389-1468) -/

/-- An error value.  `new t` is `errors.New(t)`; `transport t` is an error of
`net/http` or of reading the response body, with its text; `invalidJSON` is the
`SyntaxError` of `json.Unmarshal` for a text that is not JSON; `unmarshalType` is
its `UnmarshalTypeError`, with the fields `Value`, `Struct`, `Field` and the text
of `Type`. -/
inductive Error where
  | new (text : Bytes)
  | transport (text : Bytes)
  | invalidJSON
  | unmarshalType (value : Bytes) (struct : Bytes) (field : Bytes) (type : Bytes)
  deriving DecidableEq

/-- The method `Error()` of an error value.  The text of a `SyntaxError` names
the offending character and is not reproduced here; a fixed text stands for it. -/
def Error.text : Error → Bytes
  | .new t => t
  | .transport t => t
  | .invalidJSON => bytes "invalid character or unexpected end of JSON input"
  | .unmarshalType v s f t =>
    if s ≠ [] ∨ f ≠ [] then
      bytes "json: cannot unmarshal " ++ v ++ bytes " into Go struct field " ++ s ++ [46] ++ f ++
        bytes " of type " ++ t
    else bytes "json: cannot unmarshal " ++ v ++ bytes " into Go value of type " ++ t

/-- The struct `acReq`.  `Query` is a Go map (distinct keys; the nil map is the
empty list); `Data` is `none` for the nil map. -/
structure acReq where
  uri : Bytes
  method : Bytes
  Query : List (Bytes × Bytes)
  Data : Option (List (Bytes × GoVal))

/-- What `send` hands to `net/http`: the arguments of `http.NewRequest` and the
headers set on the request. -/
structure HttpRequest where
  method : Bytes
  url : Bytes
  body : Bytes
  header : List (Bytes × Bytes)
  deriving DecidableEq

/-- Everything outside the program that one call of `send` depends on. -/
structure Env where
  /-- The reading of `time.Now().Unix()`. -/
  now : Int
  /-- The order in which `range` visits the entries of a map: some permutation,
  not specified by Go and not the same from one run to the next. -/
  range : List (Bytes × Bytes) → List (Bytes × Bytes)
  range_perm : ∀ m, (range m).Perm m
  /-- The error of `http.NewRequest` for a method and a URL, if any. -/
  newRequest : Bytes → Bytes → Option Error
  /-- The calls `client.Do` and `ioutil.ReadAll`: the response body or an error. -/
  roundTrip : HttpRequest → Except Error Bytes
  /-- The text `strconv` produces for a `float64`. -/
  fmtFloat : Bytes → Bytes
  /-- The conversion `int(f)` of a `float64`. -/
  floatToInt : Bytes → Int

/-- The function `strings.ToUpper` as far as it decides a comparison with an
ASCII word: ASCII letters are mapped to upper case, as are the two other
runes whose upper case is an ASCII letter (U+017F to `S`, U+0131 to `I`); the
remaining bytes are kept (Go maps them to runes that are not ASCII). -/
def toUpper : Bytes → Bytes
  | [] => []
  | 0xC5 :: 0xBF :: rest => 83 :: toUpper rest
  | 0xC4 :: 0xB1 :: rest => 73 :: toUpper rest
  | c :: rest => (if 97 ≤ c ∧ c ≤ 122 then c - 32 else c) :: toUpper rest

/-- The separator `send` appends before further query text: `?` when the URI
has none yet (`strings.Index(req.uri, "?") == -1`), `&` otherwise. -/
def querySep (uri : Bytes) : Bytes := if 63 ∈ uri then bytes "&" else bytes "?"

/-- The entry `fmt.Sprintf("%s=%s", k, v)`. -/
def queryPair (kv : Bytes × Bytes) : Bytes := kv.1 ++ bytes "=" ++ kv.2

/-- The first step of `send`: the URI after the entries of `Query` are appended. -/
def sendQueryUri (env : Env) (req : acReq) : Bytes :=
  if req.Query.length > 0 then
    req.uri ++ querySep req.uri ++ join (bytes "&") ((env.range req.Query).map queryPair)
  else req.uri

/-- The second step of `send`: for a GET the signature is appended to the URI. -/
def sendSignedUri (env : Env) (req : acReq) (random key : Bytes) : Bytes :=
  let uri := sendQueryUri env req
  if toUpper req.method = bytes "GET" then
    uri ++ querySep uri ++
      join (bytes "&") [queryPair (bytes "random", random), queryPair (bytes "md5", key)]
  else uri

/-- The third step of `send`: for a POST, `req.Data` with `random` and `md5` set
(the map is made first when it is nil). -/
def sendData (req : acReq) (random key : Bytes) : Option (List (Bytes × GoVal)) :=
  if toUpper req.method = bytes "POST" then
    some (mapSet (mapSet (req.Data.getD []) (bytes "random") (.str random)) (bytes "md5") (.str key))
  else req.Data

/-- The bytes `dataBytes` given to `http.NewRequest` as the body. -/
def sendBody (env : Env) (req : acReq) (random key : Bytes) : Bytes :=
  if toUpper req.method = bytes "POST" then
    marshalVal env.fmtFloat (.map ((sendData req random key).getD []))
  else []

/-- The headers `send` sets on the request. -/
def sendHeader (ac : AC) : List (Bytes × Bytes) :=
  (if ac.ErrLangCN then [(bytes "Accept-Language", bytes "zh-CN")] else []) ++
    [(bytes "Content-Type", bytes "application/json")]

/-- What a call of `send` does and returns: the request handed to the HTTP
client (`none` when `http.NewRequest` fails), the returned bytes or error, and
the state of the random source after the call. -/
structure SendResult (σ : Type) where
  sent : Option HttpRequest
  result : Except Error Bytes
  rng : σ

/-- The method `send`. -/
def send {σ : Type} (R : RandSource σ) (env : Env) (ac : AC) (g : σ) (req : acReq) :
    SendResult σ :=
  let signed := setRandomKey R ac g env.now
  let random := signed.1.1
  let key := signed.1.2
  let g' := signed.2
  let uri := sendSignedUri env req random key
  let dataBytes := sendBody env req random key
  match env.newRequest req.method uri with
  | some err => { sent := none, result := .error err, rng := g' }
  | none =>
    let httpReq : HttpRequest :=
      { method := req.method, url := uri, body := dataBytes, header := sendHeader ac }
    match env.roundTrip httpReq with
    | .error err => { sent := some httpReq, result := .error err, rng := g' }
    | .ok body =>
      if body.length = 0 then
        { sent := some httpReq, result := .error (.new (bytes "response nil")), rng := g' }
      else { sent := some httpReq, result := .ok body, rng := g' }

/-- The nonce of a call of `send`. -/
def sendNonce {σ : Type} (R : RandSource σ) (env : Env) (ac : AC) (g : σ) : Bytes :=
  (setRandomKey R ac g env.now).1.1

/-- The digest of a call of `send`. -/
def sendDigest {σ : Type} (R : RandSource σ) (env : Env) (ac : AC) (g : σ) : Bytes :=
  (setRandomKey R ac g env.now).1.2


/-! ## The JSON scanner of `encoding/json` -/

/-- A value of the JSON grammar, as `encoding/json` reads it: strings and object
keys are unquoted, a number is kept as its literal, the members of an object
are in the order of the text, duplicates included. -/
inductive JSON where
  | null
  | bool (b : Bool)
  | num (lit : Bytes)
  | str (s : Bytes)
  | arr (xs : List JSON)
  | obj (ms : List (Bytes × JSON))

/-- The white space of the JSON scanner: space, tab, carriage return, line feed. -/
def isSpace (c : Nat) : Bool := c == 32 || c == 9 || c == 13 || c == 10

/-- The input after leading white space. -/
def skipSpace : Bytes → Bytes
  | [] => []
  | c :: rest => if isSpace c then skipSpace rest else c :: rest

/-- The value of a hexadecimal digit. -/
def hexVal (c : Nat) : Option Nat :=
  if 48 ≤ c ∧ c ≤ 57 then some (c - 48)
  else if 97 ≤ c ∧ c ≤ 102 then some (c - 87)
  else if 65 ≤ c ∧ c ≤ 70 then some (c - 55)
  else none

/-- The number written by the four hexadecimal digits that start the input. -/
def hex4 : Bytes → Option Nat
  | a :: b :: c :: d :: _ =>
    match hexVal a, hexVal b, hexVal c, hexVal d with
    | some a, some b, some c, some d => some (a * 4096 + b * 256 + c * 16 + d)
    | _, _, _, _ => none
  | _ => none

/-- The byte denoted by a one-letter escape of a JSON string. -/
def simpleEscape (c : Nat) : Option Nat :=
  if c = 34 ∨ c = 92 ∨ c = 47 then some c
  else if c = 98 then some 8
  else if c = 102 then some 12
  else if c = 110 then some 10
  else if c = 114 then some 13
  else if c = 116 then some 9
  else none

/-- The UTF-8 encoding of U+FFFD, the replacement character. -/
def replacementChar : Bytes := [0xEF, 0xBF, 0xBD]

/-- A JSON string from just after its opening quote: the unquoted string (as
`unquoteBytes` produces it: escapes decoded, surrogate pairs combined, invalid
UTF-8 and lone surrogates replaced by U+FFFD) and the input after the closing
quote; `none` where the scanner reports a syntax error. -/
def parseString : Nat → Bytes → Option (Bytes × Bytes)
  | 0, _ => none
  | _ + 1, [] => none
  | fuel + 1, c :: rest =>
    if c = 34 then some ([], rest)
    else if c = 92 then
      match rest with
      | [] => none
      | e :: rest1 =>
        if e = 117 then
          match hex4 rest1 with
          | none => none
          | some r =>
            let rest2 := rest1.drop 4
            if 0xD800 ≤ r ∧ r < 0xE000 then
              match rest2 with
              | 92 :: 117 :: rest3 =>
                match hex4 rest3 with
                | some r2 =>
                  if r < 0xDC00 ∧ 0xDC00 ≤ r2 ∧ r2 < 0xE000 then
                    (parseString fuel (rest3.drop 4)).map fun p =>
                      (encodeRune ((r - 0xD800) * 1024 + (r2 - 0xDC00) + 0x10000) ++ p.1, p.2)
                  else (parseString fuel rest2).map fun p => (replacementChar ++ p.1, p.2)
                | none => (parseString fuel rest2).map fun p => (replacementChar ++ p.1, p.2)
              | _ => (parseString fuel rest2).map fun p => (replacementChar ++ p.1, p.2)
            else (parseString fuel rest2).map fun p => (encodeRune r ++ p.1, p.2)
        else
          match simpleEscape e with
          | none => none
          | some b => (parseString fuel rest1).map fun p => (b :: p.1, p.2)
    else if c < 0x20 then none
    else if c < 0x80 then (parseString fuel rest).map fun p => (c :: p.1, p.2)
    else
      match decodeRune (c :: rest) with
      | none => (parseString fuel rest).map fun p => (replacementChar ++ p.1, p.2)
      | some (_, size) =>
        (parseString fuel ((c :: rest).drop size)).map fun p => ((c :: rest).take size ++ p.1, p.2)

/-- A decimal digit. -/
def isDigit (c : Nat) : Bool := 48 ≤ c && c ≤ 57

/-- The leading digits of the input and what follows them. -/
def takeDigits : Bytes → Bytes × Bytes
  | [] => ([], [])
  | c :: rest =>
    if isDigit c then ((takeDigits rest).1.cons c, (takeDigits rest).2) else ([], c :: rest)

/-- A JSON number at the start of the input: its literal and the input after
it.  The grammar is `-? (0 | [1-9][0-9]*) (. [0-9]+)? ([eE] [+-]? [0-9]+)?`. -/
def parseNumber (s : Bytes) : Option (Bytes × Bytes) :=
  let sign : Bytes := if s.head? = some 45 then [45] else []
  let s1 := s.drop sign.length
  if (takeDigits s1).1 = [] then none
  else
    -- after a leading `0` the integer part is over
    let intPart : Bytes := if s1.head? = some 48 then [48] else (takeDigits s1).1
    let s2 := s1.drop intPart.length
    let frac : Option Bytes :=
      if s2.head? = some 46 then
        if (takeDigits (s2.drop 1)).1 = [] then none else some (46 :: (takeDigits (s2.drop 1)).1)
      else some []
    match frac with
    | none => none
    | some fracPart =>
      let s3 := s2.drop fracPart.length
      if s3.head? = some 101 ∨ s3.head? = some 69 then
        let s4 := s3.drop 1
        let expSign : Bytes := if s4.head? = some 43 ∨ s4.head? = some 45 then s4.take 1 else []
        let expDigits := (takeDigits (s4.drop expSign.length)).1
        if expDigits = [] then none
        else
          let lit := sign ++ intPart ++ fracPart ++ s3.take 1 ++ expSign ++ expDigits
          some (lit, s.drop lit.length)
      else some (sign ++ intPart ++ fracPart, s3)

/-- The deepest nesting of arrays and objects the scanner accepts. -/
def maxNestingDepth : Nat := 10000

mutual
/-- A JSON value at the start of the input (no leading white space): the value
and the rest of the input. `depth` counts the enclosing arrays and objects. -/
def parseValue : Nat → Nat → Bytes → Option (JSON × Bytes)
  | 0, _, _ => none
  | _ + 1, _, [] => none
  | fuel + 1, depth, c :: rest =>
    if c = 123 then
      if depth ≥ maxNestingDepth then none
      else
        match skipSpace rest with
        | 125 :: rest1 => some (.obj [], rest1)
        | s => (parseMembers fuel (depth + 1) s).map fun p => (.obj p.1, p.2)
    else if c = 91 then
      if depth ≥ maxNestingDepth then none
      else
        match skipSpace rest with
        | 93 :: rest1 => some (.arr [], rest1)
        | s => (parseElements fuel (depth + 1) s).map fun p => (.arr p.1, p.2)
    else if c = 34 then (parseString (rest.length + 1) rest).map fun p => (.str p.1, p.2)
    else if c = 116 then
      if rest.take 3 = [114, 117, 101] then some (.bool true, rest.drop 3) else none
    else if c = 102 then
      if rest.take 4 = [97, 108, 115, 101] then some (.bool false, rest.drop 4) else none
    else if c = 110 then
      if rest.take 3 = [117, 108, 108] then some (.null, rest.drop 3) else none
    else (parseNumber (c :: rest)).map fun p => (.num p.1, p.2)
/-- The elements of a non-empty array, from the first element to the closing bracket. -/
def parseElements : Nat → Nat → Bytes → Option (List JSON × Bytes)
  | 0, _, _ => none
  | fuel + 1, depth, s =>
    match parseValue fuel depth s with
    | none => none
    | some (v, rest) =>
      match skipSpace rest with
      | 93 :: rest1 => some ([v], rest1)
      | 44 :: rest1 =>
        (parseElements fuel depth (skipSpace rest1)).map fun p => (v :: p.1, p.2)
      | _ => none
/-- The members of a non-empty object, from the first key to the closing brace. -/
def parseMembers : Nat → Nat → Bytes → Option (List (Bytes × JSON) × Bytes)
  | 0, _, _ => none
  | fuel + 1, depth, s =>
    match s with
    | 34 :: s1 =>
      match parseString (s1.length + 1) s1 with
      | none => none
      | some (k, rest) =>
        match skipSpace rest with
        | 58 :: rest1 =>
          match parseValue fuel depth (skipSpace rest1) with
          | none => none
          | some (v, rest2) =>
            match skipSpace rest2 with
            | 125 :: rest3 => some ([(k, v)], rest3)
            | 44 :: rest3 =>
              (parseMembers fuel depth (skipSpace rest3)).map fun p => ((k, v) :: p.1, p.2)
            | _ => none
        | _ => none
    | _ => none
end

/-- The JSON value that a text is, by the rules of `encoding/json`; `none` where
`json.Unmarshal` reports a syntax error. -/
def parseJSON (data : Bytes) : Option JSON :=
  match parseValue (2 * data.length + 2) 0 (skipSpace data) with
  | some (v, rest) => if skipSpace rest = [] then some v else none
  | none => none


/-! ## `json.Unmarshal`: decoding into Go values -/

/-- A Go type of a response payload.  A struct type carries its name (empty
for an unnamed struct type), the text of `reflect.Type.String()`, and its fields
under their JSON names, in declaration order. -/
inductive GoType where
  | bool
  | int
  | string
  | slice (elem : GoType)
  | ptr (elem : GoType)
  | map (elem : GoType)
  | struct (name : Bytes) (text : Bytes) (fields : List (Bytes × GoType))

mutual
/-- The zero value of a type. -/
def zeroVal : GoType → GoVal
  | .bool => .bool false
  | .int => .int 0
  | .string => .str []
  | .slice _ => .nil
  | .ptr _ => .nil
  | .map _ => .nil
  | .struct _ _ fields => .struct (zeroFields fields)
/-- The zero values of the fields of a struct type. -/
def zeroFields : List (Bytes × GoType) → List (Bytes × GoVal)
  | [] => []
  | (k, t) :: rest => (k, zeroVal t) :: zeroFields rest
end

/-- The text of `reflect.Type.String()`. -/
def GoType.text : GoType → Bytes
  | .bool => bytes "bool"
  | .int => bytes "int"
  | .string => bytes "string"
  | .slice t => bytes "[]" ++ t.text
  | .ptr t => bytes "*" ++ t.text
  | .map t => bytes "map[string]" ++ t.text
  | .struct _ text _ => text

/-- The type reached from a type by following pointers, as `indirect` does. -/
def GoType.indirect : GoType → GoType
  | .ptr t => t.indirect
  | t => t

/-- The number a run of decimal digits denotes. -/
def digitsValue (ds : Bytes) : Nat := ds.foldl (fun acc c => 10 * acc + (c - 48)) 0

/-- The function `strconv.ParseInt(s, 10, 64)` on a JSON number literal: the
integer, or `none` for a literal with a fraction or an exponent or a value
outside the range of `int64`. -/
def parseInt64 (lit : Bytes) : Option Int :=
  let neg := lit.head? = some 45
  let ds := if neg then lit.drop 1 else lit
  if ds = [] ∨ ¬ ds.all isDigit then none
  else if neg then
    if digitsValue ds ≤ 2 ^ 63 then some (-(digitsValue ds : Int)) else none
  else if digitsValue ds < 2 ^ 63 then some (digitsValue ds : Int) else none

/-- Whether `strconv.ParseFloat(s, 64)` fails on a JSON number literal: the
value is so large that it rounds to infinity, which is the case from
`2^1024 - 2^970` on. -/
def floatOverflows (lit : Bytes) : Bool :=
  let unsigned := if lit.head? = some 45 then lit.drop 1 else lit
  let intPart := (takeDigits unsigned).1
  let s2 := unsigned.drop intPart.length
  let fracPart := if s2.head? = some 46 then (takeDigits (s2.drop 1)).1 else []
  let s3 := if s2.head? = some 46 then s2.drop (fracPart.length + 1) else s2
  let s4 := s3.drop 1
  let expNeg := s4.head? = some 45
  let expDigits := (takeDigits (if s4.head? = some 43 ∨ s4.head? = some 45 then s4.drop 1 else s4)).1
  let mant := digitsValue (intPart ++ fracPart)
  let exp : Int := (if expNeg then -(digitsValue expDigits : Int) else (digitsValue expDigits : Int))
    - (fracPart.length : Int)
  if exp ≥ 0 then decide (mant * 10 ^ exp.toNat ≥ 2 ^ 1024 - 2 ^ 970)
  else decide (mant ≥ (2 ^ 1024 - 2 ^ 970) * 10 ^ (-exp).toNat)

/-- Where in the target an error of `json.Unmarshal` arose: the name of the
innermost struct type and the stack of JSON field names. -/
structure ErrorContext where
  struct : Bytes
  fieldStack : List Bytes

/-- The error `UnmarshalTypeError` for a JSON value of kind `value` and a target
of type `t`, with the error context added. -/
def typeError (ctx : ErrorContext) (value : Bytes) (t : Bytes) : Error :=
  .unmarshalType value ctx.struct (join (bytes ".") ctx.fieldStack) t

mutual
/-- Decoding of a JSON value into an empty `interface{}` (`valueInterface`):
`nil`, `bool`, `float64`, `string`, `[]interface{}` or `map[string]interface{}`. -/
def valueInterface (ctx : ErrorContext) : JSON → Except Error GoVal
  | .null => .ok .nil
  | .bool b => .ok (.bool b)
  | .num lit =>
    if floatOverflows lit then .error (typeError ctx (bytes "number " ++ lit) (bytes "float64"))
    else .ok (.float lit)
  | .str s => .ok (.str s)
  | .arr xs => (arrayInterface ctx xs).map .slice
  | .obj ms => (objectInterface ctx ms []).map .map
/-- The elements of an array, decoded into `[]interface{}`. -/
def arrayInterface (ctx : ErrorContext) : List JSON → Except Error (List GoVal)
  | [] => .ok []
  | x :: xs =>
    match valueInterface ctx x with
    | .error e => .error e
    | .ok v => (arrayInterface ctx xs).map (v :: ·)
/-- The members of an object, stored one after the other into a
`map[string]interface{}`. -/
def objectInterface (ctx : ErrorContext) :
    List (Bytes × JSON) → List (Bytes × GoVal) → Except Error (List (Bytes × GoVal))
  | [], acc => .ok acc
  | (k, x) :: ms, acc =>
    match valueInterface ctx x with
    | .error e => .error e
    | .ok v => objectInterface ctx ms (mapSet acc k v)
end

/-- ASCII case folding of a key for the match with an ASCII field name
(`bytes.EqualFold`): upper-case letters become lower case, as do the two other
runes that fold to ASCII letters, U+212A (Kelvin sign) to `k` and U+017F to `s`. -/
def foldKey : Bytes → Bytes
  | [] => []
  | 0xE2 :: 0x84 :: 0xAA :: rest => 107 :: foldKey rest
  | 0xC5 :: 0xBF :: rest => 115 :: foldKey rest
  | c :: rest => (if 65 ≤ c ∧ c ≤ 90 then c + 32 else c) :: foldKey rest

/-- The field of a struct that a JSON key selects: the field of exactly that
name, or else the first whose name equals the key under case folding. -/
def findField {α : Type} (fields : List (Bytes × α)) (key : Bytes) : Option Bytes :=
  match fields.find? (fun f => f.1 == key) with
  | some f => some f.1
  | none => (fields.find? (fun f => foldKey f.1 == foldKey key)).map (·.1)

/-- The value of field `name` in a list of fields. -/
def fieldGet {α : Type} (fields : List (Bytes × α)) (name : Bytes) : Option α :=
  (fields.find? (fun f => f.1 == name)).map (·.2)

/-- The fields with the value of field `name` replaced. -/
def fieldSet (fields : List (Bytes × GoVal)) (name : Bytes) (v : GoVal) : List (Bytes × GoVal) :=
  fields.map (fun f => if f.1 == name then (f.1, v) else f)

/-- The current elements of a slice value. -/
def GoVal.elems : GoVal → List GoVal
  | .slice xs => xs
  | _ => []

/-- The current entries of a map value. -/
def GoVal.entries : GoVal → List (Bytes × GoVal)
  | .map ms => ms
  | _ => []

/-- The current fields of a struct value (those of the zero value behind a nil pointer). -/
def GoVal.fieldsOr (zero : List (Bytes × GoVal)) : GoVal → List (Bytes × GoVal)
  | .struct fs => fs
  | _ => zero

mutual
/-- Decoding of a JSON value into a target of type `t` whose current value is
`cur` (`decodeState.value`): the new value of the target, or the first error. -/
def decodeValue (ctx : ErrorContext) (t : GoType) (cur : GoVal) : JSON → Except Error GoVal
  | .null =>
    match t with
    | .slice _ => .ok .nil
    | .ptr _ => .ok .nil
    | .map _ => .ok .nil
    | _ => .ok cur
  | .bool b =>
    match t.indirect with
    | .bool => .ok (.bool b)
    | u => .error (typeError ctx (bytes "bool") u.text)
  | .str s =>
    match t.indirect with
    | .string => .ok (.str s)
    | u => .error (typeError ctx (bytes "string") u.text)
  | .num lit =>
    match t.indirect with
    | .int =>
      match parseInt64 lit with
      | some n => .ok (.int n)
      | none => .error (typeError ctx (bytes "number " ++ lit) (bytes "int"))
    | u => .error (typeError ctx (bytes "number") u.text)
  | .arr xs =>
    match t.indirect with
    | .slice elem => (decodeElems ctx elem cur.elems xs).map .slice
    | u => .error (typeError ctx (bytes "array") u.text)
  | .obj ms =>
    match t.indirect with
    | .map elem => decodeEntries ctx elem ms cur.entries |>.map .map
    | .struct name text fields =>
      decodeMembers ctx.fieldStack name fields ms (cur.fieldsOr (zeroFields fields)) |>.map .struct
    | u => .error (typeError ctx (bytes "object") u.text)
/-- The elements of a JSON array decoded into a slice with element type `elem`:
element `i` is decoded into the current element `i` when there is one, into a
zero value otherwise. -/
def decodeElems (ctx : ErrorContext) (elem : GoType) (cur : List GoVal) :
    List JSON → Except Error (List GoVal)
  | [] => .ok []
  | x :: xs =>
    match decodeValue ctx elem (cur.headD (zeroVal elem)) x with
    | .error e => .error e
    | .ok v => (decodeElems ctx elem cur.tail xs).map (v :: ·)
/-- The members of a JSON object decoded into a map with string keys: every
value is decoded into a zero value and stored under its key. -/
def decodeEntries (ctx : ErrorContext) (elem : GoType) :
    List (Bytes × JSON) → List (Bytes × GoVal) → Except Error (List (Bytes × GoVal))
  | [], acc => .ok acc
  | (k, x) :: ms, acc =>
    match decodeValue ctx elem (zeroVal elem) x with
    | .error e => .error e
    | .ok v => decodeEntries ctx elem ms (mapSet acc k v)
/-- The members of a JSON object decoded into a struct: a member whose key
selects a field is decoded into that field, any other member is skipped. -/
def decodeMembers (stack : List Bytes) (name : Bytes) (fields : List (Bytes × GoType)) :
    List (Bytes × JSON) → List (Bytes × GoVal) → Except Error (List (Bytes × GoVal))
  | [], acc => .ok acc
  | (k, x) :: ms, acc =>
    match findField fields k with
    | none => decodeMembers stack name fields ms acc
    | some f =>
      match decodeValue { struct := name, fieldStack := stack ++ [f] }
          ((fieldGet fields f).getD .bool) ((fieldGet acc f).getD .nil) x with
      | .error e => .error e
      | .ok v => decodeMembers stack name fields ms (fieldSet acc f v)
end

/-! ## The response envelope `acResp` and the endpoint bindings -/

/-- The string written by `strconv.Quote` for an ASCII text without control
characters: quotes and backslashes are escaped. -/
def goQuote (s : Bytes) : Bytes :=
  [34] ++ s.flatMap (fun c => if c = 34 ∨ c = 92 then [92, c] else [c]) ++ [34]

/-- An unnamed struct type, from its field declarations (Go name, struct tag,
JSON name, type), with the text `reflect.Type.String()` gives it. -/
def anonStruct (decls : List (String × String × String × GoType)) : GoType :=
  .struct []
    (bytes "struct \x7b " ++
      join (bytes "; ") (decls.map fun d =>
        bytes d.1 ++ bytes " " ++ d.2.2.2.text ++ bytes " " ++ goQuote (bytes d.2.1)) ++
      bytes " \x7d")
    (decls.map fun d => (bytes d.2.2.1, d.2.2.2))

/-- A struct type declared in package `sangfor`, from its name and its fields
(JSON name, type). -/
def namedStruct (name : String) (fields : List (String × GoType)) : GoType :=
  .struct (bytes name) (bytes "sangfor." ++ bytes name) (fields.map fun f => (bytes f.1, f.2))

/-- The type `InsideLib`. -/
def InsideLib : GoType := namedStruct "InsideLib"
  [("name", .string), ("type", .string), ("current", .string), ("new", .string),
   ("expire", .string), ("enable", .bool), ("is_expired", .int)]

/-- The type `LogNum`. -/
def LogNum : GoType := namedStruct "LogNum" [("block", .int), ("record", .int)]

/-- The type `Throughput`. -/
def Throughput : GoType := namedStruct "Throughput"
  [("recv", .int), ("send", .int), ("unit", .string)]

/-- The type `UserRank`. -/
def UserRank : GoType := namedStruct "UserRank"
  [("id", .int), ("name", .string), ("group", .string), ("ip", .string), ("up", .int),
   ("down", .int), ("total", .int), ("session", .int), ("status", .bool),
   ("detail", .ptr (anonStruct
      [("Data", "json:\"data,omitempty\"", "data", .slice (anonStruct
        [("Id", "json:\"id\"", "id", .int), ("App", "json:\"app\"", "app", .string),
         ("Up", "json:\"up\"", "up", .int), ("Down", "json:\"down\"", "down", .int),
         ("Total", "json:\"total\"", "total", .int),
         ("Percent", "json:\"percent\"", "percent", .int)]))]))]

/-- The type `AppRank`. -/
def AppRank : GoType := namedStruct "AppRank"
  [("app", .string), ("line", .int), ("line_name", .string), ("up", .int), ("down", .int),
   ("total", .int), ("rate", .int), ("session", .int),
   ("user_data", .ptr (anonStruct
      [("Data", "json:\"data\"", "data", .slice (anonStruct
        [("User", "json:\"user\"", "user", .string), ("Grp", "json:\"grp\"", "grp", .string),
         ("Ip", "json:\"ip\"", "ip", .string), ("Up", "json:\"up\"", "up", .int),
         ("Down", "json:\"down\"", "down", .int), ("Total", "json:\"total\"", "total", .int)])),
       ("Count", "json:\"count\"", "count", .int)]))]

/-- The type `NetPolicyInfo`. -/
def NetPolicyInfo : GoType := namedStruct "NetPolicyInfo"
  [("name", .string), ("type", .string), ("founder", .string), ("expire", .string),
   ("status", .bool), ("depict", .string)]

/-- The type `UserDetail`.  The field `LimitIpmac` has no struct tag, so its JSON
name is its Go name. -/
def UserDetail : GoType := namedStruct "UserDetail"
  [("name", .string), ("show_name", .string), ("desc", .string), ("father_path", .string),
   ("create", .string), ("create_flag", .bool), ("enable", .bool), ("logout", .bool),
   ("bind_cfg", .slice .string), ("custom_cfg", .map .string), ("policy", .slice NetPolicyInfo),
   ("self_pass", anonStruct
      [("Enable", "json:\"enable\"", "enable", .bool),
       ("ModifyOnce", "json:\"modify_once\"", "modify_once", .bool)]),
   ("LimitIpmac", anonStruct
      [("Enable", "json:\"enable\"", "enable", .bool),
       ("Ipmac", "json:\"ipmac\"", "ipmac", .slice .string)]),
   ("common_user", anonStruct
      [("Enable", "json:\"enable\"", "enable", .bool),
       ("AllowChange", "json:\"allow_change\"", "allow_change", .bool)]),
   ("expire_time", anonStruct
      [("Enable", "json:\"enable\"", "enable", .bool),
       ("Date", "json:\"date,omitempty\"", "date", .string)])]

/-- The type `NetPolicyUserInfo`. -/
def NetPolicyUserInfo : GoType := namedStruct "NetPolicyUserInfo"
  [("ou", .slice .string), ("aduser", .slice .string), ("adgroup", .slice .string),
   ("exc_aduser", .slice .string), ("attribute", .slice .string),
   ("user_attr_grp", .slice .string), ("sourceip", .slice .string),
   ("location", .slice .string), ("terminal", .slice .string),
   ("target_area", .slice .string), ("local", .string)]

/-- The type `NetPolicy`. -/
def NetPolicy : GoType := namedStruct "NetPolicy"
  [("policy_info", NetPolicyInfo), ("user_info", NetPolicyUserInfo)]

/-- The type `FluxPolicy`. -/
def FluxPolicy : GoType := namedStruct "FluxPolicy"
  [("id", .string), ("name", .string), ("father_id", .string), ("di", .string),
   ("object", .string), ("service", .string), ("time", .string), ("status", .bool),
   ("assured", .slice .string), ("max", .slice .string), ("single", .slice .string)]

/-- The type `BindIpMac`. -/
def BindIpMac : GoType := namedStruct "BindIpMac"
  [("ip", .string), ("mac", .string), ("desc", .string)]

/-- The type `OnlineUser`. -/
def OnlineUser : GoType := namedStruct "OnlineUser"
  [("name", .string), ("show_name", .string), ("father_path", .string), ("group", .string),
   ("ip", .string), ("mac", .string), ("terminal", .int), ("authway", .int),
   ("login_time", .int), ("online_time", .int)]

/-- The type `OnlineUsers`. -/
def OnlineUsers : GoType := namedStruct "OnlineUsers"
  [("count", .int), ("users", .slice OnlineUser)]

/-- What the field `Data` of an `acResp` holds: a value decoded into the empty
interface (`nil` at first in `&acResp{}`), or the address of the variable `r` of
the binding, of the given type (`&acResp{Data: &r}`). -/
inductive DataField where
  | value (v : GoVal)
  | addr (t : GoType)

/-- The struct `acResp` during and after `json.Unmarshal`, together with the
variable `r` that `Data` may point to. -/
structure acResp where
  Code : Int
  Message : Bytes
  Data : DataField
  r : GoVal

/-- The payload holder of a binding: `none` for `&acResp{}`, the type of `r`
for `var r T` and `&acResp{Data: &r}`. -/
abbrev Holder := Option GoType

/-- The `acResp` a binding hands to `json.Unmarshal`. -/
def acResp.init : Holder → acResp
  | none => { Code := 0, Message := [], Data := .value .nil, r := .nil }
  | some t => { Code := 0, Message := [], Data := .addr t, r := zeroVal t }

/-- The JSON names of the fields of `acResp`. -/
def acRespFields : List (Bytes × Unit) :=
  [(bytes "code", ()), (bytes "message", ()), (bytes "data", ())]

/-- The error context inside field `f` of `acResp`. -/
def acRespContext (f : Bytes) : ErrorContext := { struct := bytes "acResp", fieldStack := [f] }

/-- Decoding of the member `data` of the envelope.  A `null` empties the
interface, or, when `r` is itself a pointer, sets `r` to nil; any other value is
decoded into `r` while `Data` holds its address, into the empty interface
otherwise. -/
def decodeData (resp : acResp) (x : JSON) : Except Error acResp :=
  match resp.Data, x with
  | .addr (.ptr _), .null => .ok { resp with r := .nil }
  | .addr _, .null => .ok { resp with Data := .value .nil }
  | .addr t, x => (decodeValue (acRespContext (bytes "data")) t resp.r x).map
      fun v => { resp with r := v }
  | .value _, x => (valueInterface (acRespContext (bytes "data")) x).map
      fun v => { resp with Data := .value v }

/-- Decoding of one member of the envelope into `acResp`. -/
def decodeAcRespMember (resp : acResp) (k : Bytes) (x : JSON) : Except Error acResp :=
  match findField acRespFields k with
  | none => .ok resp
  | some f =>
    if f = bytes "code" then
      (decodeValue (acRespContext f) .int (.int resp.Code) x).map fun v =>
        match v with
        | .int n => { resp with Code := n }
        | _ => resp
    else if f = bytes "message" then
      (decodeValue (acRespContext f) .string (.str resp.Message) x).map fun v =>
        match v with
        | .str s => { resp with Message := s }
        | _ => resp
    else decodeData resp x

/-- Decoding of the members of the envelope, in the order of the text. -/
def decodeAcRespMembers : List (Bytes × JSON) → acResp → Except Error acResp
  | [], resp => .ok resp
  | (k, x) :: ms, resp =>
    match decodeAcRespMember resp k x with
    | .error e => .error e
    | .ok resp1 => decodeAcRespMembers ms resp1

/-- The error for a JSON text that is not an object, decoded into `acResp`. -/
def acRespTypeError (value : String) : Error :=
  .unmarshalType (bytes value) [] [] (bytes "sangfor.acResp")

/-- The call `json.Unmarshal(dataBytes, resp)` of the bindings. -/
def unmarshalAcResp (holder : Holder) (dataBytes : Bytes) : Except Error acResp :=
  match parseJSON dataBytes with
  | none => .error .invalidJSON
  | some (.obj ms) => decodeAcRespMembers ms (acResp.init holder)
  | some .null => .ok (acResp.init holder)
  | some (.bool _) => .error (acRespTypeError "bool")
  | some (.num _) => .error (acRespTypeError "number")
  | some (.str _) => .error (acRespTypeError "string")
  | some (.arr _) => .error (acRespTypeError "array")

/-- The endpoint bindings of `ac.go`. -/
inductive Endpoint where
  | GetVersion | GetOnlineUserCount | GetSessionNum | GetInsideLib | GetLogNum | GetCpuUsage
  | GetMemUsage | GetDiskUsage | GetSysTime | GetThroughput | GetUserRank | GetAppRank
  | GetBandwidthUsage | UserAdd | UserDel | UserSearch | UserGet | UserNetPolicySet
  | UserNetPolicyGet | UserFluxPolicySet | UserFluxPolicyGet | UserVerifyPassword | GroupAdd
  | GroupDelete | GroupPut | GroupNetPolicySet | GroupNetPolicyGet | PolicyNetGet
  | PolicyFluxGet | BindUserSearch | BindUserAdd | BindUserDel | BindIpmacSearch | BindIpmacAdd
  | BindIpmacDel | OnlineUserGet | OnlineUserKick | OnlineUserUp
  deriving DecidableEq

/-- Whether the binding tests `len(dataBytes) == 0` after `send`. -/
def Endpoint.checksEmpty : Endpoint → Bool
  | .GetVersion | .GetOnlineUserCount | .GetSessionNum | .GetInsideLib | .GetLogNum
  | .GetCpuUsage | .GetMemUsage | .GetDiskUsage | .GetSysTime | .GetBandwidthUsage
  | .UserDel => false
  | _ => true

/-- Whether the binding applies `acFixJson` to the body before decoding it. -/
def Endpoint.normalises : Endpoint → Bool
  | .UserSearch | .UserGet | .PolicyNetGet | .PolicyFluxGet | .BindUserSearch
  | .BindIpmacSearch => true
  | _ => false

/-- The type of the variable `r` whose address the binding puts into `Data`, if any. -/
def Endpoint.holder : Endpoint → Holder
  | .GetInsideLib => some (.slice InsideLib)
  | .GetLogNum => some LogNum
  | .GetThroughput => some Throughput
  | .GetUserRank => some (.slice UserRank)
  | .GetAppRank => some (.slice AppRank)
  | .UserSearch => some (.slice UserDetail)
  | .UserGet => some (.ptr UserDetail)
  | .UserNetPolicyGet | .UserFluxPolicyGet | .UserVerifyPassword | .GroupNetPolicyGet =>
    some (.slice .string)
  | .PolicyNetGet => some (.slice NetPolicy)
  | .PolicyFluxGet | .BindUserSearch => some (.slice FluxPolicy)
  | .BindIpmacSearch => some BindIpMac
  | .OnlineUserGet => some OnlineUsers
  | _ => none

/-- What a binding returns beside the error. -/
inductive ResultKind where
  /-- The value `resp.Data.(string)`. -/
  | assertString
  /-- The value `int(resp.Data.(float64))`. -/
  | assertFloat
  /-- The variable `r` or its address. -/
  | payload
  /-- Nothing. -/
  | nothing

/-- What the binding returns on success. -/
def Endpoint.resultKind : Endpoint → ResultKind
  | .GetVersion | .GetSysTime | .UserAdd | .UserDel | .UserNetPolicySet | .UserFluxPolicySet
  | .GroupAdd | .GroupDelete | .GroupPut | .GroupNetPolicySet | .BindUserAdd
  | .BindUserDel => .assertString
  | .GetOnlineUserCount | .GetSessionNum | .GetCpuUsage | .GetMemUsage | .GetDiskUsage
  | .GetBandwidthUsage => .assertFloat
  | .GetInsideLib | .GetLogNum | .GetThroughput | .GetUserRank | .GetAppRank | .UserSearch
  | .UserGet | .UserNetPolicyGet | .UserFluxPolicyGet | .GroupNetPolicyGet | .PolicyNetGet
  | .PolicyFluxGet | .BindIpmacSearch | .OnlineUserGet => .payload
  | .UserVerifyPassword | .BindUserSearch | .BindIpmacAdd | .BindIpmacDel | .OnlineUserKick
  | .OnlineUserUp => .nothing

/-- How a call of a binding ends: with a value and a nil error, with an error,
or with a run-time panic. -/
inductive Outcome where
  | ok (v : GoVal)
  | error (e : Error)
  | panic

/-- The constant `acErrNoData`. -/
def acErrNoData : Bytes := bytes "No data in body "

/-- The bytes a binding hands to `json.Unmarshal`. -/
def Endpoint.prepare (e : Endpoint) (dataBytes : Bytes) : Bytes :=
  if e.normalises then acFixJson dataBytes else dataBytes

/-- The part of a binding that follows a successful `ac.send(req)`: the checks
and the decoding of the response body `dataBytes`. -/
def handleResponse (env : Env) (e : Endpoint) (dataBytes : Bytes) : Outcome :=
  if e.checksEmpty ∧ dataBytes.length = 0 then .error (.new acErrNoData)
  else
    match unmarshalAcResp e.holder (e.prepare dataBytes) with
    | .error err => .error err
    | .ok resp =>
      if resp.Code ≠ 0 then .error (.new resp.Message)
      else
        match e.resultKind with
        | .assertString =>
          match resp.Data with
          | .value (.str s) => .ok (.str s)
          | _ => .panic
        | .assertFloat =>
          match resp.Data with
          | .value (.float lit) => .ok (.int (env.floatToInt lit))
          | _ => .panic
        | .payload => .ok resp.r
        | .nothing => .ok .nil

/-- A binding from the result of its call of `send` on. -/
def respond (env : Env) (e : Endpoint) : Except Error Bytes → Outcome
  | .error err => .error err
  | .ok dataBytes => handleResponse env e dataBytes

/-- The constant `acStatusVersion`. -/
def acStatusVersion : Bytes := bytes "status/version"

/-- The constant `acGet`. -/
def acGet : Bytes := bytes "GET"

/-- The constant `acPost`. -/
def acPost : Bytes := bytes "POST"

/-- The method `GetVersion`. -/
def GetVersion {σ : Type} (R : RandSource σ) (env : Env) (ac : AC) (g : σ) : Outcome :=
  respond env .GetVersion
    (send R env ac g
      { uri := ac.baseUrl ++ acStatusVersion, method := acGet, Query := [], Data := none }).result

/-! ## Example inputs -/

/-- The random source used in examples: a linear congruential generator. -/
def exampleRand : RandSource Nat where
  seed := fun t => t.toNat
  uint64 := fun s => ((s * 6364136223846793005 + 1442695040888963407) % 2 ^ 64, s + 1)

/-- The client used in examples (the values of the comment on `NewAC`). -/
def exampleAC : AC where
  baseUrl := bytes "http://192.168.1.1:9999/v1/"
  secret := bytes "YR9nQngmvhX&9BE83K"
  ErrLangCN := true


/-- The environment used in examples: the map entries are visited in the
order they are listed, every request is accepted and answered with an empty
object. -/
def exampleEnv : Env where
  now := 1621908000
  range := fun m => m
  range_perm := fun m => List.Perm.refl m
  newRequest := fun _ _ => none
  roundTrip := fun _ => .ok (bytes "\x7b\x7d")
  fmtFloat := fun lit => lit
  floatToInt := fun _ => 0

/-- The environment of `exampleEnv` with the map entries visited in the
opposite order. -/
def exampleEnvReversed : Env where
  now := 1621908000
  range := fun m => m.reverse
  range_perm := fun m => List.reverse_perm m
  newRequest := fun _ _ => none
  roundTrip := fun _ => .ok (bytes "\x7b\x7d")
  fmtFloat := fun lit => lit
  floatToInt := fun _ => 0


/-- The request built by `UserGet("admin")` on the example client. -/
def exampleUserGet : acReq :=
  { uri := exampleAC.baseUrl ++ bytes "user", method := bytes "GET",
    Query := [(bytes "name", bytes "admin")], Data := none }

/-- The URI that `send` builds for `exampleUserGet` in the example environment. -/
def exampleGetUrl : Bytes :=
  bytes "http://192.168.1.1:9999/v1/user?name=admin&random=" ++
    sendNonce exampleRand exampleEnv exampleAC 0 ++ bytes "&md5=" ++
    sendDigest exampleRand exampleEnv exampleAC 0

/-- The request that `send` hands to the HTTP client for `exampleUserGet`. -/
def exampleGetRequest : HttpRequest :=
  { method := bytes "GET", url := exampleGetUrl, body := [], header := sendHeader exampleAC }


/-- The request built by `UserVerifyPassword("admin", "pw")` on the example client. -/
def exampleVerify : acReq :=
  { uri := exampleAC.baseUrl ++ bytes "user", method := bytes "GET",
    Query := [(bytes "_method", bytes "verify"), (bytes "name", bytes "admin"),
      (bytes "password", bytes "pw")],
    Data := none }

/-- The request that `send` hands to the HTTP client for `exampleVerify` when
the entries of `Query` are visited in the order listed. -/
def exampleVerifyRequest : HttpRequest :=
  { method := bytes "GET",
    url := bytes "http://192.168.1.1:9999/v1/user?_method=verify&name=admin&password=pw&random=" ++
      sendNonce exampleRand exampleEnv exampleAC 0 ++ bytes "&md5=" ++
      sendDigest exampleRand exampleEnv exampleAC 0,
    body := [], header := sendHeader exampleAC }


/-- The environment of `exampleEnv` one minute later, with the map entries
visited in the opposite order. -/
def exampleEnvLater : Env where
  now := 1621908060
  range := fun m => m.reverse
  range_perm := fun m => List.reverse_perm m
  newRequest := fun _ _ => none
  roundTrip := fun _ => .ok (bytes "\x7b\x7d")
  fmtFloat := fun lit => lit
  floatToInt := fun _ => 0

/-- The request that `send` hands to the HTTP client for `exampleUserGet` in
the environment `exampleEnvLater`. -/
def exampleGetRequestLater : HttpRequest :=
  { method := bytes "GET",
    url := bytes "http://192.168.1.1:9999/v1/user?name=admin&random=" ++
      sendNonce exampleRand exampleEnvLater exampleAC 7 ++ bytes "&md5=" ++
      sendDigest exampleRand exampleEnvLater exampleAC 7,
    body := [], header := sendHeader exampleAC }


/-- Decoding of a JSON value as the member `data` of an envelope into the
payload holder of a binding, starting from a fresh `acResp`: into the variable `r`
when the binding supplies one, into the empty interface otherwise. -/
def decodeIntoHolder (holder : Holder) (d : JSON) : Except Error GoVal :=
  match holder with
  | none => valueInterface (acRespContext (bytes "data")) d
  | some t => decodeValue (acRespContext (bytes "data")) t (zeroVal t) d


mutual
/-- Whether every number of a JSON value is within the range of `float64`. -/
def floatsInRange : JSON → Bool
  | .num lit => !floatOverflows lit
  | .arr xs => elementsInRange xs
  | .obj ms => membersInRange ms
  | _ => true
/-- The same for the elements of an array. -/
def elementsInRange : List JSON → Bool
  | [] => true
  | x :: xs => floatsInRange x && elementsInRange xs
/-- The same for the members of an object. -/
def membersInRange : List (Bytes × JSON) → Bool
  | [] => true
  | (_, x) :: ms => floatsInRange x && membersInRange ms
end

/-- The envelope with the three members `code`, `message`, `data`, in this order. -/
def envelope (code : Bytes) (message : Bytes) (data : JSON) : JSON :=
  .obj [(bytes "code", .num code), (bytes "message", .str message), (bytes "data", data)]

/-- The environment of `exampleEnv` with a transport that answers every request
with the given body. -/
def exampleEnvAnswering (body : Bytes) : Env where
  now := 1621908000
  range := fun m => m
  range_perm := fun m => List.Perm.refl m
  newRequest := fun _ _ => none
  roundTrip := fun _ => .ok body
  fmtFloat := fun lit => lit
  floatToInt := fun _ => 0

/-- The response body `{"code":0,"message":"","data":"v1.2.3"}`. -/
def exampleVersionBody : Bytes :=
  bytes "\x7b\"code\":0,\"message\":\"\",\"data\":\"v1.2.3\"\x7d"

/-- The response body `{"code":1,"message":"No data in body","data":null}`. -/
def exampleErrorBody : Bytes :=
  bytes "\x7b\"code\":1,\"message\":\"No data in body\",\"data\":null\x7d"

/-- The response body `{"code":1,"message":"No data in body","data":"x"}`. -/
def exampleErrorBodyString : Bytes :=
  bytes "\x7b\"code\":1,\"message\":\"No data in body\",\"data\":\"x\"\x7d"

/-! ## The requests of the endpoint bindings -/

/-- The constant `acErrArgCheck`. -/
def acErrArgCheck : Bytes := bytes "Arguments check failed "

/-- The constant `acStatusOnlineUser`. -/
def acStatusOnlineUser : Bytes := bytes "status/online-user"

/-- The constant `acStatusSessionNum`. -/
def acStatusSessionNum : Bytes := bytes "status/session-num"

/-- The constant `acStatusInsideLib`. -/
def acStatusInsideLib : Bytes := bytes "status/insidelib"

/-- The constant `acStatusLogNum`. -/
def acStatusLogNum : Bytes := bytes "status/log"

/-- The constant `acStatusCpuUsage`. -/
def acStatusCpuUsage : Bytes := bytes "status/cpu-usage"

/-- The constant `acStatusMemUsage`. -/
def acStatusMemUsage : Bytes := bytes "status/mem-usage"

/-- The constant `acStatusDiskUsage`. -/
def acStatusDiskUsage : Bytes := bytes "status/disk-usage"

/-- The constant `acStatusSysTime`. -/
def acStatusSysTime : Bytes := bytes "status/sys-time"

/-- The constant `acStatusThroughput`. -/
def acStatusThroughput : Bytes := bytes "status/throughput"

/-- The constant `acStatusUserRank`. -/
def acStatusUserRank : Bytes := bytes "status/user-rank"

/-- The constant `acStatusAppRank`. -/
def acStatusAppRank : Bytes := bytes "status/app-rank"

/-- The constant `acStatusBandwidthUsage`. -/
def acStatusBandwidthUsage : Bytes := bytes "status/bandwidth-usage"

/-- The constant `acUser`. -/
def acUser : Bytes := bytes "user"

/-- The constant `acUserNetPolicy`. -/
def acUserNetPolicy : Bytes := bytes "user/netpolicy"

/-- The constant `acUserFluxPolicy`. -/
def acUserFluxPolicy : Bytes := bytes "user/fluxpolicy"

/-- The constant `acGroup`. -/
def acGroup : Bytes := bytes "group"

/-- The constant `acGroupNetPolicy`. -/
def acGroupNetPolicy : Bytes := bytes "group/netpolicy"

/-- The constant `acNetPolicy`. -/
def acNetPolicy : Bytes := bytes "policy/netpolicy"

/-- The constant `acFluxPolicy`. -/
def acFluxPolicy : Bytes := bytes "policy/fluxpolicy"

/-- The constant `acBindInfoUser`. -/
def acBindInfoUser : Bytes := bytes "bindinfo/user-bindinfo"

/-- The constant `acBindInfoIpMac`. -/
def acBindInfoIpMac : Bytes := bytes "ipmac-bindinfo"

/-- The constant `acBindInfoIpMacOp`. -/
def acBindInfoIpMacOp : Bytes := bytes "bindinfo/ipmac-bindinfo"

/-- The constant `acOnlineUsers`. -/
def acOnlineUsers : Bytes := bytes "online-users"

/-- The function `NewAC`: the base URL is `fmt.Sprintf("http://%s/v1/", target)`. -/
def NewAC (target secret : Bytes) : AC :=
  { secret := secret, baseUrl := bytes "http://" ++ target ++ bytes "/v1/", ErrLangCN := true }

/-- The result of converting a struct argument to a `map[string]interface{}` by
`json.Marshal` followed by `json.Unmarshal` (as `acTransJsonMap` and several
bindings do): the map, or the error of the conversion. -/
abbrev Converted := Except Error (List (Bytes × GoVal))

/-- A call of an endpoint binding with its arguments.  A struct argument is
given by the result of its conversion to a map, together with the fields that
the binding tests before the conversion.  A variadic argument is given by its
first element, if there is one. -/
inductive Call where
  | GetVersion
  | GetOnlineUserCount
  | GetSessionNum
  | GetInsideLib
  | GetLogNum
  | GetCpuUsage
  | GetMemUsage
  | GetDiskUsage
  | GetSysTime
  | GetThroughput (filter : Option GoVal)
  | GetUserRank (filter : Option GoVal)
  | GetAppRank (filter : Option GoVal)
  | GetBandwidthUsage
  | UserAdd (name : Bytes) (data : Converted)
  | UserDel (username : Bytes)
  | UserSearch (data : Converted)
  | UserGet (name : Bytes)
  | UserNetPolicySet (set : Converted)
  | UserNetPolicyGet (username : Bytes)
  | UserFluxPolicySet (set : Converted)
  | UserFluxPolicyGet (username : Bytes)
  | UserVerifyPassword (username password : Bytes)
  | GroupAdd (path : Bytes) (desc : Option Bytes)
  | GroupDelete (path : Bytes)
  | GroupPut (path desc : Bytes)
  | GroupNetPolicySet (plc : Converted)
  | GroupNetPolicyGet (path : Bytes)
  | PolicyNetGet
  | PolicyFluxGet
  | BindUserSearch (val : Bytes)
  | BindUserAdd (data : Converted)
  | BindUserDel (addr : Bytes)
  | BindIpmacSearch (val : Bytes)
  | BindIpmacAdd (ip mac : Bytes) (bind : Converted)
  | BindIpmacDel (ip : Bytes)
  | OnlineUserGet (filter : Converted)
  | OnlineUserKick (ip : Bytes)
  | OnlineUserUp (user : Converted)

/-- The binding that a call invokes. -/
def Call.endpoint : Call → Endpoint
  | .GetVersion => .GetVersion
  | .GetOnlineUserCount => .GetOnlineUserCount
  | .GetSessionNum => .GetSessionNum
  | .GetInsideLib => .GetInsideLib
  | .GetLogNum => .GetLogNum
  | .GetCpuUsage => .GetCpuUsage
  | .GetMemUsage => .GetMemUsage
  | .GetDiskUsage => .GetDiskUsage
  | .GetSysTime => .GetSysTime
  | .GetThroughput _ => .GetThroughput
  | .GetUserRank _ => .GetUserRank
  | .GetAppRank _ => .GetAppRank
  | .GetBandwidthUsage => .GetBandwidthUsage
  | .UserAdd _ _ => .UserAdd
  | .UserDel _ => .UserDel
  | .UserSearch _ => .UserSearch
  | .UserGet _ => .UserGet
  | .UserNetPolicySet _ => .UserNetPolicySet
  | .UserNetPolicyGet _ => .UserNetPolicyGet
  | .UserFluxPolicySet _ => .UserFluxPolicySet
  | .UserFluxPolicyGet _ => .UserFluxPolicyGet
  | .UserVerifyPassword _ _ => .UserVerifyPassword
  | .GroupAdd _ _ => .GroupAdd
  | .GroupDelete _ => .GroupDelete
  | .GroupPut _ _ => .GroupPut
  | .GroupNetPolicySet _ => .GroupNetPolicySet
  | .GroupNetPolicyGet _ => .GroupNetPolicyGet
  | .PolicyNetGet => .PolicyNetGet
  | .PolicyFluxGet => .PolicyFluxGet
  | .BindUserSearch _ => .BindUserSearch
  | .BindUserAdd _ => .BindUserAdd
  | .BindUserDel _ => .BindUserDel
  | .BindIpmacSearch _ => .BindIpmacSearch
  | .BindIpmacAdd _ _ _ => .BindIpmacAdd
  | .BindIpmacDel _ => .BindIpmacDel
  | .OnlineUserGet _ => .OnlineUserGet
  | .OnlineUserKick _ => .OnlineUserKick
  | .OnlineUserUp _ => .OnlineUserUp

/-- A request without query parameters and body fields. -/
def plainReq (uri method : Bytes) : acReq :=
  { uri := uri, method := method, Query := [], Data := none }

/-- A request whose body fields are the result of a conversion, or the error
of the conversion. -/
def convertedReq (uri method : Bytes) (query : List (Bytes × Bytes)) (data : Converted) :
    Except Error acReq :=
  match data with
  | .error err => .error err
  | .ok m => .ok { uri := uri, method := method, Query := query, Data := some m }

/-- The body fields `{"filter": filter[0]}` of the ranking bindings. -/
def filterData (filter : Option GoVal) : Option (List (Bytes × GoVal)) :=
  filter.map fun v => [(bytes "filter", v)]

/-- What a binding does before it calls `send`: the `acReq` it builds, or the
error it returns without calling `send`. -/
def Call.request (ac : AC) : Call → Except Error acReq
  | .GetVersion => .ok (plainReq (ac.baseUrl ++ acStatusVersion) acGet)
  | .GetOnlineUserCount => .ok (plainReq (ac.baseUrl ++ acStatusOnlineUser) acGet)
  | .GetSessionNum => .ok (plainReq (ac.baseUrl ++ acStatusSessionNum) acGet)
  | .GetInsideLib => .ok (plainReq (ac.baseUrl ++ acStatusInsideLib) acGet)
  | .GetLogNum => .ok (plainReq (ac.baseUrl ++ acStatusLogNum) acGet)
  | .GetCpuUsage => .ok (plainReq (ac.baseUrl ++ acStatusCpuUsage) acGet)
  | .GetMemUsage => .ok (plainReq (ac.baseUrl ++ acStatusMemUsage) acGet)
  | .GetDiskUsage => .ok (plainReq (ac.baseUrl ++ acStatusDiskUsage) acGet)
  | .GetSysTime => .ok (plainReq (ac.baseUrl ++ acStatusSysTime) acGet)
  | .GetThroughput filter =>
    .ok { uri := ac.baseUrl ++ acStatusThroughput, method := acPost,
          Query := [(bytes "_method", bytes "GET")], Data := filterData filter }
  | .GetUserRank filter =>
    .ok { uri := ac.baseUrl ++ acStatusUserRank, method := acPost,
          Query := [(bytes "_method", bytes "GET")], Data := filterData filter }
  | .GetAppRank filter =>
    .ok { uri := ac.baseUrl ++ acStatusAppRank, method := acPost,
          Query := [(bytes "_method", bytes "GET")], Data := filterData filter }
  | .GetBandwidthUsage => .ok (plainReq (ac.baseUrl ++ acStatusBandwidthUsage) acGet)
  | .UserAdd name data =>
    if name = [] then .error (.new (bytes "cannot add user without username"))
    else convertedReq (ac.baseUrl ++ acUser) acPost [] data
  | .UserDel username =>
    .ok { uri := ac.baseUrl ++ acUser, method := acPost,
          Query := [(bytes "_method", bytes "DELETE")],
          Data := some [(bytes "name", .str username)] }
  | .UserSearch data =>
    convertedReq (ac.baseUrl ++ acUser) acPost [(bytes "_method", bytes "GET")] data
  | .UserGet name =>
    .ok { uri := ac.baseUrl ++ acUser, method := acGet, Query := [(bytes "name", name)],
          Data := none }
  | .UserNetPolicySet set => convertedReq (ac.baseUrl ++ acUserNetPolicy) acPost [] set
  | .UserNetPolicyGet username =>
    .ok { uri := ac.baseUrl ++ acUserNetPolicy, method := acGet,
          Query := [(bytes "user", username)], Data := none }
  | .UserFluxPolicySet set => convertedReq (ac.baseUrl ++ acUserFluxPolicy) acPost [] set
  | .UserFluxPolicyGet username =>
    .ok { uri := ac.baseUrl ++ acUserFluxPolicy, method := acGet,
          Query := [(bytes "user", username)], Data := none }
  | .UserVerifyPassword username password =>
    .ok { uri := ac.baseUrl ++ acUser, method := acGet,
          Query := [(bytes "_method", bytes "verify"), (bytes "name", username),
            (bytes "password", password)],
          Data := none }
  | .GroupAdd path desc =>
    .ok { uri := ac.baseUrl ++ acGroup, method := acPost, Query := [],
          Data := some (match desc with
            | none => [(bytes "path", .str path)]
            | some d => mapSet [(bytes "path", .str path)] (bytes "desc") (.str d)) }
  | .GroupDelete path =>
    .ok { uri := ac.baseUrl ++ acGroup, method := acPost,
          Query := [(bytes "_method", bytes "DELETE")],
          Data := some [(bytes "path", .str path)] }
  | .GroupPut path desc =>
    .ok { uri := ac.baseUrl ++ acGroup, method := acPost,
          Query := [(bytes "_method", bytes "PUT")],
          Data := some [(bytes "path", .str path), (bytes "desc", .str desc)] }
  | .GroupNetPolicySet plc => convertedReq (ac.baseUrl ++ acGroupNetPolicy) acPost [] plc
  | .GroupNetPolicyGet path =>
    .ok { uri := ac.baseUrl ++ acGroupNetPolicy, method := acGet,
          Query := [(bytes "path", path)], Data := none }
  | .PolicyNetGet => .ok (plainReq (ac.baseUrl ++ acNetPolicy) acGet)
  | .PolicyFluxGet => .ok (plainReq (ac.baseUrl ++ acFluxPolicy) acGet)
  | .BindUserSearch val =>
    .ok { uri := ac.baseUrl ++ acBindInfoUser, method := acGet,
          Query := [(bytes "search", val)], Data := none }
  | .BindUserAdd data => convertedReq (ac.baseUrl ++ acBindInfoUser) acPost [] data
  | .BindUserDel addr =>
    .ok { uri := ac.baseUrl ++ acBindInfoUser, method := acPost,
          Query := [(bytes "_method", bytes "DELETE")],
          Data := some [(bytes "addr", .str addr)] }
  | .BindIpmacSearch val =>
    .ok { uri := ac.baseUrl ++ acBindInfoIpMac, method := acGet,
          Query := [(bytes "search", val)], Data := none }
  | .BindIpmacAdd ip mac bind =>
    if ip = [] ∨ mac = [] then .error (.new acErrArgCheck)
    else convertedReq (ac.baseUrl ++ acBindInfoIpMacOp) acPost [] bind
  | .BindIpmacDel ip =>
    .ok { uri := ac.baseUrl ++ acBindInfoIpMacOp, method := acPost,
          Query := [(bytes "_method", bytes "DELETE")],
          Data := some [(bytes "ip", .str ip)] }
  | .OnlineUserGet filter =>
    convertedReq (ac.baseUrl ++ acOnlineUsers) acPost [(bytes "_method", bytes "GET")] filter
  | .OnlineUserKick ip =>
    .ok { uri := ac.baseUrl ++ acOnlineUsers, method := acPost,
          Query := [(bytes "_method", bytes "DELETE")],
          Data := some [(bytes "ip", .str ip)] }
  | .OnlineUserUp user => convertedReq (ac.baseUrl ++ acOnlineUsers) acPost [] user

/-- The endpoint suffix of a binding: the constant it appends to the base URL. -/
def Endpoint.suffix : Endpoint → Bytes
  | .GetVersion => acStatusVersion
  | .GetOnlineUserCount => acStatusOnlineUser
  | .GetSessionNum => acStatusSessionNum
  | .GetInsideLib => acStatusInsideLib
  | .GetLogNum => acStatusLogNum
  | .GetCpuUsage => acStatusCpuUsage
  | .GetMemUsage => acStatusMemUsage
  | .GetDiskUsage => acStatusDiskUsage
  | .GetSysTime => acStatusSysTime
  | .GetThroughput => acStatusThroughput
  | .GetUserRank => acStatusUserRank
  | .GetAppRank => acStatusAppRank
  | .GetBandwidthUsage => acStatusBandwidthUsage
  | .UserAdd | .UserDel | .UserSearch | .UserGet | .UserVerifyPassword => acUser
  | .UserNetPolicySet | .UserNetPolicyGet => acUserNetPolicy
  | .UserFluxPolicySet | .UserFluxPolicyGet => acUserFluxPolicy
  | .GroupAdd | .GroupDelete | .GroupPut => acGroup
  | .GroupNetPolicySet | .GroupNetPolicyGet => acGroupNetPolicy
  | .PolicyNetGet => acNetPolicy
  | .PolicyFluxGet => acFluxPolicy
  | .BindUserSearch | .BindUserAdd | .BindUserDel => acBindInfoUser
  | .BindIpmacSearch => acBindInfoIpMac
  | .BindIpmacAdd | .BindIpmacDel => acBindInfoIpMacOp
  | .OnlineUserGet | .OnlineUserKick | .OnlineUserUp => acOnlineUsers

/-- What a call of a binding does and returns: how it ends, and what its call of
`send` did (`none` when the binding returns without calling `send`). -/
structure CallResult (σ : Type) where
  outcome : Outcome
  sendResult : Option (SendResult σ)

/-- A call of an endpoint binding: the request is built, `send` is called, the
response is handled. -/
def invoke {σ : Type} (R : RandSource σ) (env : Env) (ac : AC) (g : σ) (c : Call) :
    CallResult σ :=
  match c.request ac with
  | .error err => { outcome := .error err, sendResult := none }
  | .ok req =>
    { outcome := respond env c.endpoint (send R env ac g req).result,
      sendResult := some (send R env ac g req) }

/-- The method `UserAdd`; `name` is `data.Name` and `converted` the map made of `data`. -/
def UserAdd {σ : Type} (R : RandSource σ) (env : Env) (ac : AC) (g : σ) (name : Bytes)
    (converted : Converted) : CallResult σ :=
  invoke R env ac g (.UserAdd name converted)

/-- The method `UserGet`. -/
def UserGet {σ : Type} (R : RandSource σ) (env : Env) (ac : AC) (g : σ) (name : Bytes) :
    CallResult σ :=
  invoke R env ac g (.UserGet name)

/-- The method `GroupDelete`. -/
def GroupDelete {σ : Type} (R : RandSource σ) (env : Env) (ac : AC) (g : σ) (path : Bytes) :
    CallResult σ :=
  invoke R env ac g (.GroupDelete path)

/-- The part of a binding that follows the test `len(dataBytes) == 0`: the
decoding of the response body. -/
def decodeResponse (env : Env) (e : Endpoint) (dataBytes : Bytes) : Outcome :=
  match unmarshalAcResp e.holder (e.prepare dataBytes) with
  | .error err => .error err
  | .ok resp =>
    if resp.Code ≠ 0 then .error (.new resp.Message)
    else
      match e.resultKind with
      | .assertString =>
        match resp.Data with
        | .value (.str s) => .ok (.str s)
        | _ => .panic
      | .assertFloat =>
        match resp.Data with
        | .value (.float lit) => .ok (.int (env.floatToInt lit))
        | _ => .panic
      | .payload => .ok resp.r
      | .nothing => .ok .nil

/-- The response body `{"code":2,"message":"No data in body","data":null}`. -/
def exampleErrorBodyTwo : Bytes :=
  bytes "\x7b\"code\":2,\"message\":\"No data in body\",\"data\":null\x7d"

/-- The bindings whose logical verb is DELETE or PUT. -/
def tunnelledEndpoints : List Endpoint :=
  [.UserDel, .GroupDelete, .GroupPut, .BindUserDel, .BindIpmacDel, .OnlineUserKick]

/-- The logical verb that a binding of `tunnelledEndpoints` puts into `_method`. -/
def tunnelledVerb (e : Endpoint) : Bytes :=
  if e = .GroupPut then bytes "PUT" else bytes "DELETE"

/-- The request that `send` hands to the HTTP client, if it does. -/
def CallResult.sent {σ : Type} (r : CallResult σ) : Option HttpRequest :=
  r.sendResult.bind fun s => s.sent

/-- The request that `send` hands to the HTTP client for `GroupDelete("/g")` on
the example client. -/
def exampleGroupDeleteRequest : HttpRequest :=
  { method := bytes "POST", url := bytes "http://192.168.1.1:9999/v1/group?_method=DELETE",
    body := bytes "\x7b\"md5\":\"" ++ sendDigest exampleRand exampleEnv exampleAC 0 ++
      bytes "\",\"path\":\"/g\",\"random\":\"" ++ sendNonce exampleRand exampleEnv exampleAC 0 ++
      bytes "\"\x7d",
    header := sendHeader exampleAC }

/-- The response body `{"code":0,"message":"","data":1e999}`. -/
def exampleHugeNumberBody : Bytes :=
  bytes "\x7b\"code\":0,\"message\":\"\",\"data\":1e999\x7d"

/-- The response body `{"code":0,"message":"","data":null}`. -/
def exampleNullBody : Bytes :=
  bytes "\x7b\"code\":0,\"message\":\"\",\"data\":null\x7d"

/-- An occurrence of the text `"k":{}`, for an allow-listed field name `k`, ends
just before position `j` of `x`: it occupies the positions `j - n, ..., j - 1`,
where `n` is its length. -/
def occurrenceEndsAt (x : Bytes) (j : Nat) : Bool :=
  acFixNames.any fun k =>
    decide ((emptyObjectField k).length ≤ j) &&
      (emptyObjectField k).isPrefixOf (x.drop (j - (emptyObjectField k).length))

/-- The byte the textual rewrite prescribes at position `i` of `x`: `]` (93) on the
last byte of an occurrence, `[` (91) on the byte before it, and the input byte
elsewhere. -/
def rewrittenByte (x : Bytes) (i : Nat) : Option Nat :=
  if occurrenceEndsAt x (i + 1) then some 93
  else if occurrenceEndsAt x (i + 2) then some 91
  else x[i]?

/-- Whether a text stands between the quotes of a JSON string as it is and is
read back as it is by `unquoteBytes`: it consists of ASCII characters from the
space on, other than `"` and `\`, and of well-formed UTF-8 encodings of other
runes.  `fuel` bounds the number of runes; the length of the text is enough. -/
def isPlainText : Nat → Bytes → Bool
  | _, [] => true
  | 0, _ :: _ => false
  | fuel + 1, c :: rest =>
    if c < 0x80 then decide (0x20 ≤ c ∧ c ≠ 34 ∧ c ≠ 92) && isPlainText fuel rest
    else
      match decodeRune (c :: rest) with
      | none => false
      | some (_, size) => isPlainText fuel ((c :: rest).drop size)

/-- A plain JSON string: a text without escapes, control characters or
ill-formed UTF-8. -/
def plainString (s : Bytes) : Bool := isPlainText s.length s
/-- The response body `{"code":0,"message":"","data":{"bind_cfg":{},"name":"<name>"}}`. -/
def userGetBody (name : Bytes) : Bytes :=
  bytes "\x7b\"code\":0,\"message\":\"\",\"data\":\x7b\"bind_cfg\":\x7b\x7d,\"name\":\"" ++ name ++
    bytes "\"\x7d\x7d"

/-- The same document with `"bind_cfg":[]`. -/
def userGetBodyFixed (name : Bytes) : Bytes :=
  bytes "\x7b\"code\":0,\"message\":\"\",\"data\":\x7b\"bind_cfg\":[],\"name\":\"" ++ name ++
    bytes "\"\x7d\x7d"

/-- The JSON value of `userGetBodyFixed name`. -/
def userGetDocument (name : Bytes) : JSON :=
  envelope (bytes "0") [] (.obj [(bytes "bind_cfg", .arr []), (bytes "name", .str name)])
/-- The record `UserDetail` whose `Name` is the given name, whose `BindCfg` is an
empty, non-nil sequence, and whose other fields have their zero values. -/
def userDetailNamed (name : Bytes) : GoVal :=
  .struct [
    (bytes "name", .str name), (bytes "show_name", .str []), (bytes "desc", .str []),
    (bytes "father_path", .str []), (bytes "create", .str []), (bytes "create_flag", .bool false),
    (bytes "enable", .bool false), (bytes "logout", .bool false), (bytes "bind_cfg", .slice []),
    (bytes "custom_cfg", .nil), (bytes "policy", .nil),
    (bytes "self_pass", .struct [(bytes "enable", .bool false), (bytes "modify_once", .bool false)]),
    (bytes "LimitIpmac", .struct [(bytes "enable", .bool false), (bytes "ipmac", .nil)]),
    (bytes "common_user",
      .struct [(bytes "enable", .bool false), (bytes "allow_change", .bool false)]),
    (bytes "expire_time", .struct [(bytes "enable", .bool false), (bytes "date", .str [])])]

/-- The response body `{"code":0,"message":"","data":{"bind_cfg":{},"name":"x"}}`. -/
def exampleUserBody : Bytes :=
  bytes "\x7b\"code\":0,\"message\":\"\",\"data\":\x7b\"bind_cfg\":\x7b\x7d,\"name\":\"x\"\x7d\x7d"

/-- The same document with `"bind_cfg":[]`. -/
def exampleUserBodyFixed : Bytes :=
  bytes "\x7b\"code\":0,\"message\":\"\",\"data\":\x7b\"bind_cfg\":[],\"name\":\"x\"\x7d\x7d"

/-- The pieces of a text between the occurrences of a separator byte, as
`strings.Split` gives them for a one-byte separator. -/
def splitOn (sep : Nat) : Bytes → List Bytes
  | [] => [[]]
  | c :: rest =>
    if c = sep then [] :: splitOn sep rest
    else (c :: (splitOn sep rest).headD []) :: (splitOn sep rest).tail

/-- The text before the first occurrence of a separator byte and the text after
it, as `strings.Cut` gives them: the whole text and nothing when there is none. -/
def cutAt (sep : Nat) : Bytes → Bytes × Bytes
  | [] => ([], [])
  | c :: rest =>
    if c = sep then ([], rest) else (c :: (cutAt sep rest).1, (cutAt sep rest).2)

/-- A query string split on `&` (38), and each piece on its first `=` (61) into a
key and a value. -/
def splitQuery (q : Bytes) : List (Bytes × Bytes) := (splitOn 38 q).map (cutAt 61)

/-- The query string of a URL: the text after the first `?` (63) of the part
before the fragment, which the first `#` (35) starts. -/
def urlQuery (url : Bytes) : Bytes := (cutAt 63 (cutAt 35 url).1).2

/-- The query text of a transmitted request: what follows the `uri` of the
`acReq` and the one-byte separator `send` puts after it. -/
def appendedQuery (req : acReq) (h : HttpRequest) : Bytes := h.url.drop (req.uri.length + 1)

/-- A text without `&`, `=`, `?` and `#`. -/
def cleanText (s : Bytes) : Bool := s.all fun c => c != 38 && c != 61 && c != 63 && c != 35
/-- The request that `send` hands to the HTTP client for `UserGet("a&b=c")` on the
example client. -/
def exampleAmpRequest : HttpRequest :=
  { method := bytes "GET",
    url := bytes "http://192.168.1.1:9999/v1/user?name=a&b=c&random=" ++
      sendNonce exampleRand exampleEnv exampleAC 0 ++ bytes "&md5=" ++
      sendDigest exampleRand exampleEnv exampleAC 0,
    body := [], header := sendHeader exampleAC }

/-- The members of a JSON object that `json.Unmarshal` stores into the field of
`acResp` with the JSON name `f`: those whose key is `f` or, when the key is the
name of no field, equals `f` under case folding. -/
def membersFor (f : Bytes) (ms : List (Bytes × JSON)) : List (Bytes × JSON) :=
  ms.filter fun kv => findField acRespFields kv.1 == some f

/-- The members of a JSON object read as a response envelope: exactly one member
is stored into `code`, and it is the number `c`; exactly one is stored into
`message`, and it is the string `m`; at most one is stored into `data`, and
`dvals` lists the values of these.  The members may stand in any order, with
members that are stored into no field among them. -/
def isEnvelope (ms : List (Bytes × JSON)) (c m : Bytes) (dvals : List JSON) : Prop :=
  (membersFor (bytes "code") ms).map Prod.snd = [.num c] ∧
  (membersFor (bytes "message") ms).map Prod.snd = [.str m] ∧
  (membersFor (bytes "data") ms).map Prod.snd = dvals ∧ dvals.length ≤ 1

/-- The value of `Code` after the members stored into `code` have been decoded,
one after the other. -/
def codeAfter : List (Bytes × JSON) → Int → Int
  | [], c0 => c0
  | (_, .num c) :: rest, c0 => codeAfter rest ((parseInt64 c).getD c0)
  | _ :: rest, c0 => codeAfter rest c0

/-- The value of `Message` after the members stored into `message` have been
decoded, one after the other. -/
def messageAfter : List (Bytes × JSON) → Bytes → Bytes
  | [], m0 => m0
  | (_, .str s) :: rest, _ => messageAfter rest s
  | _ :: rest, m0 => messageAfter rest m0

/-- The response body `{"message":"No data in body","trace":[7],"data":null,"code":1}`:
the envelope of `exampleErrorBody` with its members in another order and a
member that `acResp` has no field for. -/
def exampleErrorBodyReordered : Bytes :=
  bytes "\x7b\"message\":\"No data in body\",\"trace\":[7],\"data\":null,\"code\":1\x7d"

/-- The members of `exampleErrorBodyReordered`. -/
def exampleReorderedMembers : List (Bytes × JSON) :=
  [(bytes "message", .str (bytes "No data in body")), (bytes "trace", .arr [.num (bytes "7")]),
   (bytes "data", .null), (bytes "code", .num (bytes "1"))]

/-! # Theorems -/

/-! ## The replacement table -/

theorem acFixPairs_eq_map :
    acFixPairs = acFixNames.map (fun k => (emptyObjectField k, emptyArrayField k)) := by
  decide

theorem clash_ne : ∀ (a b r t : Bytes), clash a b = true → a ++ r ≠ b ++ t
  | [], _, _, _, h => by simp [clash] at h
  | _ :: _, [], _, _, h => by simp [clash] at h
  | x :: as, y :: bs, r, t, h => by
    intro he
    simp only [List.cons_append, List.cons.injEq] at he
    simp only [clash, Bool.or_eq_true, bne_iff_ne, ne_eq] at h
    rcases h with h | h
    · exact h he.1
    · exact clash_ne as bs r t h he.2

set_option maxRecDepth 100000 in
theorem table_suffix_clash :
    (acFixPairs.all fun p => acFixPairs.all fun q =>
      (List.range p.2.length).all fun j => clash q.1 (p.2.drop j)) = true := by
  decide

set_option maxRecDepth 100000 in
theorem table_overlap_clash :
    (acFixPairs.all fun p => acFixPairs.all fun q =>
      (List.range (p.1.length - 1)).all fun j => clash (p.1.drop (j + 1)) q.1) = true := by
  decide

set_option maxRecDepth 100000 in
theorem table_unique :
    (acFixPairs.all fun p => acFixPairs.all fun q => p == q || clash p.1 q.1) = true := by
  decide

set_option maxRecDepth 100000 in
theorem table_shape :
    (acFixPairs.all fun p => p.1.length == p.2.length && 0 < p.1.length &&
      p.1.all (fun c => c != 91 && c != 93) && sameUpToBrackets p.1 p.2) = true := by
  decide

theorem sameUpToBrackets_forall₂ : ∀ (a b : Bytes), sameUpToBrackets a b = true →
    List.Forall₂ bracketed a b
  | [], [], _ => List.Forall₂.nil
  | [], _ :: _, h => by simp [sameUpToBrackets] at h
  | _ :: _, [], h => by simp [sameUpToBrackets] at h
  | x :: as, y :: bs, h => by
    simp only [sameUpToBrackets, Bool.and_eq_true, Bool.or_eq_true, beq_iff_eq] at h
    exact List.Forall₂.cons (by unfold bracketed; tauto) (sameUpToBrackets_forall₂ as bs h.2)

theorem pair_shape {p : Bytes × Bytes} (hp : p ∈ acFixPairs) :
    p.1.length = p.2.length ∧ 0 < p.1.length ∧ (∀ c ∈ p.1, c ≠ 91 ∧ c ≠ 93) ∧
      List.Forall₂ bracketed p.1 p.2 := by
  have h := table_shape
  rw [List.all_eq_true] at h
  have := h p hp
  simp only [Bool.and_eq_true, beq_iff_eq, decide_eq_true_eq, List.all_eq_true, bne_iff_ne,
    ne_eq] at this
  obtain ⟨⟨⟨h1, h2⟩, h3⟩, h4⟩ := this
  exact ⟨h1, h2, h3, sameUpToBrackets_forall₂ _ _ h4⟩

/-! ## The scan of the replacer -/

theorem genericReplace_skip (ps : List (Bytes × Bytes)) :
    ∀ (s : Bytes) (n : Nat), genericReplace ps n s = genericReplace ps 0 (s.drop n)
  | [], n => by simp [genericReplace]
  | c :: cs, 0 => by simp
  | c :: cs, n + 1 => by
    simp only [genericReplace, List.drop_succ_cons]
    exact genericReplace_skip ps cs n

theorem lookup_some {ps : List (Bytes × Bytes)} {s : Bytes} {p : Bytes × Bytes}
    (h : genericLookup ps s = some p) : p ∈ ps ∧ s = p.1 ++ s.drop p.1.length := by
  unfold genericLookup at h
  refine ⟨List.mem_of_find?_eq_some h, ?_⟩
  have h2 := List.find?_some h
  simp only [List.isPrefixOf_iff_prefix] at h2
  obtain ⟨t, ht⟩ := h2
  rw [← ht]; simp

theorem lookup_none {ps : List (Bytes × Bytes)} {s : Bytes}
    (h : genericLookup ps s = none) : ∀ p ∈ ps, ¬ p.1 <+: s := by
  unfold genericLookup at h
  intro p hp hpre
  have := List.find?_eq_none.1 h p hp
  simp [List.isPrefixOf_iff_prefix] at this
  exact this hpre

theorem acFixJson_nil : acFixJson [] = [] := rfl

theorem acFixJson_cons_none {c : Nat} {cs : Bytes}
    (h : genericLookup acFixPairs (c :: cs) = none) :
    acFixJson (c :: cs) = c :: acFixJson cs := by
  simp [acFixJson, genericReplace, h]

theorem acFixJson_cons_some {s : Bytes} {p : Bytes × Bytes}
    (h : genericLookup acFixPairs s = some p) :
    acFixJson s = p.2 ++ acFixJson (s.drop p.1.length) := by
  obtain ⟨hp, hs⟩ := lookup_some h
  obtain ⟨-, hpos, -, -⟩ := pair_shape hp
  cases s with
  | nil =>
    have h0 : p.1 = [] := by simpa using hs.symm
    rw [h0] at hpos
    exact absurd hpos (by simp)
  | cons c cs =>
    obtain ⟨old, new⟩ := p
    simp only [acFixJson, genericReplace, h]
    rw [genericReplace_skip]
    congr 2
    simp only at hpos
    obtain ⟨n, hn⟩ : ∃ n, old.length = n + 1 := ⟨old.length - 1, by omega⟩
    simp [hn]

theorem acFixJson_append_of_lookup {p : Bytes × Bytes} {rest : Bytes}
    (h : genericLookup acFixPairs (p.1 ++ rest) = some p) :
    acFixJson (p.1 ++ rest) = p.2 ++ acFixJson rest := by
  rw [acFixJson_cons_some h]; simp

/-- Induction along the scan of `acFixJson`: the empty input, a position where no
old string matches, and a position where one does. -/
theorem acFixJson_induction {P : Bytes → Prop} (hnil : P [])
    (hnone : ∀ c cs, genericLookup acFixPairs (c :: cs) = none → P cs → P (c :: cs))
    (hsome : ∀ p rest, p ∈ acFixPairs →
      genericLookup acFixPairs (p.1 ++ rest) = some p → P rest → P (p.1 ++ rest)) :
    ∀ s, P s := by
  have key : ∀ n (s : Bytes), s.length ≤ n → P s := by
    intro n
    induction n with
    | zero =>
      intro s hs
      have : s = [] := List.length_eq_zero.1 (Nat.le_zero.1 hs)
      subst this
      exact hnil
    | succ n ih =>
      intro s hs
      cases s with
      | nil => exact hnil
      | cons c cs =>
        cases hl : genericLookup acFixPairs (c :: cs) with
        | none => exact hnone c cs hl (ih cs (by simpa using hs))
        | some p =>
          obtain ⟨hp, hs2⟩ := lookup_some hl
          obtain ⟨-, hpos, -, -⟩ := pair_shape hp
          rw [hs2] at hl ⊢
          refine hsome p _ hp hl (ih _ ?_)
          rw [List.length_drop]
          simp only [List.length_cons] at hs ⊢
          omega
  exact fun s => key s.length s (le_refl _)

/-- Every output byte is the input byte at the same position or a bracket. -/
theorem acFixJson_forall₂ : ∀ s, List.Forall₂ bracketed s (acFixJson s) := by
  apply acFixJson_induction
  · exact List.Forall₂.nil
  · intro c cs h ih
    rw [acFixJson_cons_none h]
    exact List.Forall₂.cons (Or.inl rfl) ih
  · intro p rest hp h ih
    rw [acFixJson_append_of_lookup h]
    exact List.rel_append (pair_shape hp).2.2.2 ih

theorem prefix_of_forall₂ : ∀ (k s t : Bytes), (∀ c ∈ k, c ≠ 91 ∧ c ≠ 93) →
    List.Forall₂ bracketed s t → k <+: t → k <+: s
  | [], s, t, _, _, _ => List.nil_prefix
  | x :: k, s, t, hk, hr, hpre => by
    obtain ⟨r, hr2⟩ := hpre
    subst hr2
    cases hr with
    | cons hab htl =>
      rename_i a l₁
      have hx := hk x (List.mem_cons_self _ _)
      have hax : x = a := by
        rcases hab with h | h | h
        · exact h
        · exact absurd h hx.1
        · exact absurd h hx.2
      subst hax
      have := prefix_of_forall₂ k l₁ (k ++ r) (fun c hc => hk c (List.mem_cons_of_mem _ hc)) htl
        (List.prefix_append _ _)
      exact (List.prefix_cons_inj x).2 this

theorem pair_suffix_clash {p q : Bytes × Bytes} (hp : p ∈ acFixPairs) (hq : q ∈ acFixPairs)
    {j : Nat} (hj : j < p.2.length) : clash q.1 (p.2.drop j) = true := by
  have h := table_suffix_clash
  simp only [List.all_eq_true, List.mem_range] at h
  exact h p hp q hq j hj

theorem pair_overlap_clash {p q : Bytes × Bytes} (hp : p ∈ acFixPairs) (hq : q ∈ acFixPairs)
    {j : Nat} (hj0 : 0 < j) (hj : j < p.1.length) : clash (p.1.drop j) q.1 = true := by
  have h := table_overlap_clash
  simp only [List.all_eq_true, List.mem_range] at h
  have := h p hp q hq (j - 1) (by omega)
  rwa [Nat.sub_add_cancel hj0] at this

theorem pair_unique {p q : Bytes × Bytes} (hp : p ∈ acFixPairs) (hq : q ∈ acFixPairs)
    {s : Bytes} (h1 : p.1 <+: s) (h2 : q.1 <+: s) : p = q := by
  have h := table_unique
  simp only [List.all_eq_true, Bool.or_eq_true, beq_iff_eq] at h
  rcases h p hp q hq with h | h
  · exact h
  · exfalso
    obtain ⟨r, hr⟩ := h1
    obtain ⟨t, ht⟩ := h2
    exact clash_ne _ _ r t h (hr.trans ht.symm)

theorem lookup_of_starts {p : Bytes × Bytes} {s : Bytes} (hp : p ∈ acFixPairs)
    (hpre : p.1 <+: s) : genericLookup acFixPairs s = some p := by
  cases h : genericLookup acFixPairs s with
  | none => exact absurd hpre (lookup_none h p hp)
  | some q =>
    obtain ⟨hq, hs⟩ := lookup_some h
    rw [pair_unique hq hp ⟨_, hs.symm⟩ hpre]

/-- No old string of the table starts at any position of the output. -/
theorem acFixJson_lookup_suffix :
    ∀ s u, u <:+ acFixJson s → genericLookup acFixPairs u = none := by
  apply acFixJson_induction
  · intro u hu
    rw [acFixJson_nil] at hu
    rw [List.suffix_nil.1 hu]
    rfl
  · intro c cs h ih u hu
    rw [acFixJson_cons_none h, List.suffix_cons_iff] at hu
    rcases hu with hu | hu
    · subst hu
      cases hl : genericLookup acFixPairs (c :: acFixJson cs) with
      | none => rfl
      | some q =>
        exfalso
        obtain ⟨hq, hs⟩ := lookup_some hl
        have hpre : q.1 <+: c :: acFixJson cs := ⟨_, hs.symm⟩
        have h1 : List.Forall₂ bracketed (c :: cs) (c :: acFixJson cs) :=
          List.Forall₂.cons (Or.inl rfl) (acFixJson_forall₂ cs)
        exact lookup_none h q hq (prefix_of_forall₂ _ _ _ (pair_shape hq).2.2.1 h1 hpre)
    · exact ih u hu
  · intro p rest hp h ih u hu
    rw [acFixJson_append_of_lookup h] at hu
    obtain ⟨w, hw⟩ := hu
    by_cases hlen : w.length < p.2.length
    · -- `u` starts inside the replacement text
      have hu2 : u = p.2.drop w.length ++ acFixJson rest := by
        have := congrArg (List.drop w.length) hw
        rw [List.drop_left, List.drop_append_of_le_length (le_of_lt hlen)] at this
        exact this
      cases hl : genericLookup acFixPairs u with
      | none => rfl
      | some q =>
        exfalso
        obtain ⟨hq, hs⟩ := lookup_some hl
        rw [hu2] at hs
        exact clash_ne _ _ _ _ (pair_suffix_clash hp hq hlen) hs.symm
    · apply ih
      have := congrArg (List.drop p.2.length) hw
      rw [List.drop_left, List.drop_append_eq_append_drop,
        Nat.sub_eq_zero_of_le (not_lt.1 hlen), List.drop_zero] at this
      exact ⟨_, this⟩

/-- An input in which no old string starts at any position is returned unchanged. -/
theorem acFixJson_eq_self_of_lookup : ∀ (s : Bytes),
    (∀ u, u <:+ s → genericLookup acFixPairs u = none) → acFixJson s = s
  | [], _ => rfl
  | c :: cs, h => by
    rw [acFixJson_cons_none (h _ (List.suffix_refl _)),
      acFixJson_eq_self_of_lookup cs (fun u hu => h u (hu.trans (List.suffix_cons c cs)))]

theorem mem_acFixPairs_of_name {k : String} (hk : k ∈ acFixNames) :
    (emptyObjectField k, emptyArrayField k) ∈ acFixPairs := by
  rw [acFixPairs_eq_map]
  exact List.mem_map.2 ⟨k, hk, rfl⟩

/-- Replacing is compositional around an occurrence of an old string. -/
theorem acFixJson_append_pair {p : Bytes × Bytes} (hp : p ∈ acFixPairs) (post : Bytes) :
    ∀ (n : Nat) (pre : Bytes), pre.length ≤ n →
      acFixJson (pre ++ (p.1 ++ post)) = acFixJson pre ++ (p.2 ++ acFixJson post) := by
  intro n
  induction n with
  | zero =>
    intro pre hpre
    have : pre = [] := List.length_eq_zero.1 (Nat.le_zero.1 hpre)
    subst this
    rw [List.nil_append, acFixJson_nil, List.nil_append]
    exact acFixJson_append_of_lookup (lookup_of_starts hp (List.prefix_append _ _))
  | succ n ih =>
    intro pre hpre
    cases pre with
    | nil =>
      rw [List.nil_append, acFixJson_nil, List.nil_append]
      exact acFixJson_append_of_lookup (lookup_of_starts hp (List.prefix_append _ _))
    | cons c cs =>
      cases hl : genericLookup acFixPairs ((c :: cs) ++ (p.1 ++ post)) with
      | none =>
        have hl2 : genericLookup acFixPairs (c :: cs) = none := by
          cases h2 : genericLookup acFixPairs (c :: cs) with
          | none => rfl
          | some q =>
            exfalso
            obtain ⟨hq, hs⟩ := lookup_some h2
            exact lookup_none hl q hq
              ((show q.1 <+: c :: cs from ⟨_, hs.symm⟩).trans (List.prefix_append _ _))
        rw [List.cons_append] at hl ⊢
        rw [acFixJson_cons_none hl, acFixJson_cons_none hl2, ih cs (by simpa using hpre)]
        rfl
      | some q =>
        obtain ⟨hq, hs⟩ := lookup_some hl
        have hqpre : q.1 <+: (c :: cs) ++ (p.1 ++ post) := ⟨_, hs.symm⟩
        by_cases hlen : q.1.length ≤ (c :: cs).length
        · -- the match lies inside `pre`
          have hq1 : q.1 <+: c :: cs :=
            List.prefix_of_prefix_length_le hqpre (List.prefix_append _ _) hlen
          obtain ⟨r, hr⟩ := hq1
          have hcs := lookup_of_starts hq (show q.1 <+: c :: cs from ⟨r, hr⟩)
          rw [acFixJson_cons_some hl, acFixJson_cons_some hcs, ← hr]
          simp only [List.append_assoc, List.drop_left]
          rw [ih r ?_]
          have := congrArg List.length hr
          have hpos := (pair_shape hq).2.1
          simp only [List.length_append, List.length_cons] at this hpre
          omega
        · -- the match would overlap the occurrence of `p.1`
          exfalso
          have hlen2 : (c :: cs).length < q.1.length := not_le.1 hlen
          obtain ⟨t, ht⟩ := hqpre
          have h3 := congrArg (List.drop (c :: cs).length) ht
          rw [List.drop_left, List.drop_append_of_le_length (le_of_lt hlen2)] at h3
          exact clash_ne _ _ _ _
            (pair_overlap_clash hq hp (by simp) hlen2) h3

/-! ## Claims about `acFixJson` -/

/-- C3: `acFixJson` is idempotent: applying the rewrite twice yields the same
bytes as applying it once, for every byte string. -/
theorem acFixJson_idempotent (x : Bytes) : acFixJson (acFixJson x) = acFixJson x :=
  acFixJson_eq_self_of_lookup _ (acFixJson_lookup_suffix x)

/-- C4: for every input and every allow-listed field name `k`, the output of
`acFixJson` contains no occurrence of `"k":{}`, and every occurrence of `"k":{}` in
the input has been rewritten to `"k":[]`: around an occurrence the output is the
rewritten text before it, then `"k":[]`, then the rewritten text after it. -/
theorem acFixJson_no_empty_object (x : Bytes) (k : String) (hk : k ∈ acFixNames) :
    ¬ emptyObjectField k <:+: acFixJson x ∧
    ∀ pre post, x = pre ++ emptyObjectField k ++ post →
      acFixJson x = acFixJson pre ++ emptyArrayField k ++ acFixJson post := by
  have hp := mem_acFixPairs_of_name hk
  constructor
  · rintro ⟨s, t, hst⟩
    have hsuf : emptyObjectField k ++ t <:+ acFixJson x := ⟨s, by rw [← hst]; simp⟩
    have hnone := acFixJson_lookup_suffix x _ hsuf
    exact lookup_none hnone _ hp (List.prefix_append _ _)
  · intro pre post hx
    subst hx
    rw [List.append_assoc, List.append_assoc]
    exact acFixJson_append_pair hp post pre.length pre (le_refl _)

/-- C4 at the input `{"ou":{},"x":{},"value":{}}` and the name `value`. -/
theorem acFixJson_no_empty_object_witness :
    "value" ∈ acFixNames ∧
    (¬ emptyObjectField "value" <:+: acFixJson (bytes "\x7b\"ou\":\x7b\x7d,\"x\":\x7b\x7d,\"value\":\x7b\x7d\x7d") ∧
    ∀ pre post, bytes "\x7b\"ou\":\x7b\x7d,\"x\":\x7b\x7d,\"value\":\x7b\x7d\x7d" = pre ++ emptyObjectField "value" ++ post →
      acFixJson (bytes "\x7b\"ou\":\x7b\x7d,\"x\":\x7b\x7d,\"value\":\x7b\x7d\x7d") =
        acFixJson pre ++ emptyArrayField "value" ++ acFixJson post) :=
  ⟨by decide, acFixJson_no_empty_object _ "value" (by decide)⟩

theorem acFixJson_example :
    acFixJson (bytes "\x7b\"ou\":\x7b\x7d,\"x\":\x7b\x7d,\"value\":\x7b\x7d\x7d") = bytes "\x7b\"ou\":[],\"x\":\x7b\x7d,\"value\":[]\x7d" := by
  decide

/-! ## The signer -/

theorem md5Sum_test_vector :
    hexLower (md5Sum (bytes "abc")) = bytes "900150983cd24fb0d6963f7d28e17f72" := by
  decide!

theorem md5Sum_length (msg : Bytes) : (md5Sum msg).length = 16 := by
  simp [md5Sum, putLe32]

theorem hexDigit_isLowerHex {n : Nat} (h : n < 16) : isLowerHex (hexDigit n) := by
  unfold isLowerHex hexDigit
  split <;> omega

theorem hexLower_length (b : Bytes) : (hexLower b).length = 2 * b.length := by
  induction b with
  | nil => rfl
  | cons x xs ih =>
    simp only [hexLower, List.flatMap_cons, List.length_append, List.length_cons,
      List.length_nil] at ih ⊢
    omega

theorem hexLower_isLowerHex (b : Bytes) : ∀ c ∈ hexLower b, isLowerHex c := by
  intro c hc
  simp only [hexLower, List.mem_flatMap, List.mem_cons, List.mem_singleton, List.not_mem_nil,
    or_false] at hc
  obtain ⟨x, -, rfl | rfl⟩ := hc
  · exact hexDigit_isLowerHex (Nat.mod_lt _ (by norm_num))
  · exact hexDigit_isLowerHex (Nat.mod_lt _ (by norm_num))

theorem decimalDigits_isDigit : ∀ (fuel n : Nat), ∀ c ∈ decimalDigits fuel n, 48 ≤ c ∧ c ≤ 57
  | 0, _, c, hc => by simp [decimalDigits] at hc
  | fuel + 1, n, c, hc => by
    unfold decimalDigits at hc
    split at hc
    · simp only [List.mem_singleton] at hc
      omega
    · rw [List.mem_append] at hc
      rcases hc with hc | hc
      · exact decimalDigits_isDigit fuel _ c hc
      · simp only [List.mem_singleton] at hc
        omega

theorem formatUint_isDigit (n : Nat) : ∀ c ∈ formatUint n, 48 ≤ c ∧ c ≤ 57 :=
  decimalDigits_isDigit _ _

theorem digitsValue_append (a : Bytes) (d : Nat) :
    digitsValue (a ++ [d]) = 10 * digitsValue a + (d - 48) := by
  simp [digitsValue, List.foldl_append]

/-- The decimal rendering denotes the number. -/
theorem digitsValue_decimalDigits : ∀ (fuel n : Nat), n < fuel →
    digitsValue (decimalDigits fuel n) = n
  | 0, n, h => by omega
  | fuel + 1, n, h => by
    unfold decimalDigits
    split
    · simp [digitsValue]
    · have ih := digitsValue_decimalDigits fuel (n / 10) (by omega)
      rw [digitsValue_append, ih]
      omega

theorem formatUint_injective {a b : Nat} (h : formatUint a = formatUint b) : a = b := by
  have := congrArg digitsValue h
  rwa [formatUint, formatUint, digitsValue_decimalDigits _ a (Nat.lt_succ_self a),
    digitsValue_decimalDigits _ b (Nat.lt_succ_self b)] at this

theorem setRandomKey_nonce {σ : Type} (R : RandSource σ) (ac : AC) (g : σ) (now : Int) :
    (setRandomKey R ac g now).1.1 = formatUint ((R.uint64 (R.seed now)).1 % 2 ^ 64) :=
  rfl

/-- C5: `setRandomKey` returns `(nonce, digest)` with `digest` the lower-case
hexadecimal rendering of MD5 of the bytes of `secret` followed by the bytes of
`nonce`; it has exactly 32 characters, each in `0-9a-f`; and it is a function of
(secret, nonce) only: any other call, with whatever client, random source and
clock, that has an equal secret and returns an equal nonce returns an equal digest.
The rendering of MD5 is that of RFC 1321: it gives the seven digests of the test
suite of the RFC; and with the secret `YR9nQngmvhX&9BE83K`, when the source
returns 17961325321228204271, the pair is that number in decimal and the digest
`0cd9e88dc4f6e9ac3a58a8f015bc6a53`. -/
theorem setRandomKey_digest {σ : Type} (R : RandSource σ) (ac : AC) (g : σ) (now : Int) :
    (setRandomKey R ac g now).1.2 =
        hexLower (md5Sum (ac.secret ++ (setRandomKey R ac g now).1.1)) ∧
    (setRandomKey R ac g now).1.2.length = 32 ∧
    (∀ c ∈ (setRandomKey R ac g now).1.2, isLowerHex c) ∧
    (∀ {τ : Type} (R' : RandSource τ) (ac' : AC) (g' : τ) (now' : Int),
      ac'.secret = ac.secret →
      (setRandomKey R' ac' g' now').1.1 = (setRandomKey R ac g now).1.1 →
      (setRandomKey R' ac' g' now').1.2 = (setRandomKey R ac g now).1.2) ∧
    hexLower (md5Sum (bytes "")) = bytes "d41d8cd98f00b204e9800998ecf8427e" ∧
    hexLower (md5Sum (bytes "a")) = bytes "0cc175b9c0f1b6a831c399e269772661" ∧
    hexLower (md5Sum (bytes "abc")) = bytes "900150983cd24fb0d6963f7d28e17f72" ∧
    hexLower (md5Sum (bytes "message digest")) = bytes "f96b697d7cb7938d525a2f31aaf161d0" ∧
    hexLower (md5Sum (bytes "abcdefghijklmnopqrstuvwxyz")) =
      bytes "c3fcd3d76192e4007dfb496cca67e13b" ∧
    hexLower (md5Sum
        (bytes "ABCDEFGHIJKLMNOPQRSTUVWXYZabcdefghijklmnopqrstuvwxyz0123456789")) =
      bytes "d174ab98d277d9f5a5611c2c9f419d9f" ∧
    hexLower (md5Sum (bytes
        "12345678901234567890123456789012345678901234567890123456789012345678901234567890")) =
      bytes "57edf4a22be3c955ac49da2e2107b67a" ∧
    (ac.secret = bytes "YR9nQngmvhX&9BE83K" →
      (R.uint64 (R.seed now)).1 = 17961325321228204271 →
      (setRandomKey R ac g now).1 =
        (bytes "17961325321228204271", bytes "0cd9e88dc4f6e9ac3a58a8f015bc6a53")) := by
  refine ⟨rfl, ?_, ?_, ?_, by decide!, by decide!, by decide!, by decide!, by decide!,
    by decide!, by decide!, ?_⟩
  · simp only [setRandomKey, hexLower_length, md5Sum_length]
  · exact hexLower_isLowerHex _
  · intro τ R' ac' g' now' hs hn
    simp only [setRandomKey] at hn ⊢
    rw [hs, hn]
  · intro hs hx
    have h1 : (setRandomKey R ac g now).1 =
        (formatUint ((R.uint64 (R.seed now)).1 % 2 ^ 64),
          hexLower (md5Sum (ac.secret ++ formatUint ((R.uint64 (R.seed now)).1 % 2 ^ 64)))) :=
      rfl
    rw [h1, hs, hx]
    decide!

/-- C5 at the example client, clock reading 1621908000: the nonce is
`17961325321228204271` and the digest `0cd9e88dc4f6e9ac3a58a8f015bc6a53`. -/
theorem setRandomKey_digest_witness :
    exampleAC.secret = bytes "YR9nQngmvhX&9BE83K" ∧
    (exampleRand.uint64 (exampleRand.seed 1621908000)).1 = 17961325321228204271 ∧
    (setRandomKey exampleRand exampleAC 0 1621908000).1 =
      (bytes "17961325321228204271", bytes "0cd9e88dc4f6e9ac3a58a8f015bc6a53") ∧
    (setRandomKey exampleRand exampleAC 0 1621908000).1.2 =
        hexLower (md5Sum (exampleAC.secret ++ (setRandomKey exampleRand exampleAC 0 1621908000).1.1)) ∧
    (setRandomKey exampleRand exampleAC 0 1621908000).1.2.length = 32 ∧
    (∀ c ∈ (setRandomKey exampleRand exampleAC 0 1621908000).1.2, isLowerHex c) ∧
    ∀ {τ : Type} (R' : RandSource τ) (ac' : AC) (g' : τ) (now' : Int),
      ac'.secret = exampleAC.secret →
      (setRandomKey R' ac' g' now').1.1 = (setRandomKey exampleRand exampleAC 0 1621908000).1.1 →
      (setRandomKey R' ac' g' now').1.2 = (setRandomKey exampleRand exampleAC 0 1621908000).1.2 :=
  ⟨rfl, by decide,
    (setRandomKey_digest exampleRand exampleAC 0 1621908000).2.2.2.2.2.2.2.2.2.2.2 rfl (by decide),
    (setRandomKey_digest exampleRand exampleAC 0 1621908000).1,
    (setRandomKey_digest exampleRand exampleAC 0 1621908000).2.1,
    (setRandomKey_digest exampleRand exampleAC 0 1621908000).2.2.1,
    (setRandomKey_digest exampleRand exampleAC 0 1621908000).2.2.2.1⟩

/-- C6 as stated fails: two calls of `setRandomKey` on the example client, the
second made in the state of the random source that the first left, with the
same clock reading 1621908000, return the same nonce `17961325321228204271`. -/
theorem setRandomKey_nonce_reused :
    (setRandomKey exampleRand exampleAC 0 1621908000).1.1 = bytes "17961325321228204271" ∧
    (setRandomKey exampleRand exampleAC 0 1621908000).2 = 1621908001 ∧
    (setRandomKey exampleRand exampleAC 1621908001 1621908000).1.1 =
      bytes "17961325321228204271" := by
  refine ⟨by decide!, by decide!, by decide!⟩

/-- C6, amended: the nonce is made anew at every call, yet it is not fresh:
`setRandomKey` seeds the process-wide source with the clock reading before it
draws (`rand.Seed` as it works up to Go 1.23, where the state after it depends on
the seed only), so the nonce is the decimal rendering of the first number of the
source seeded with the Unix second of the call and depends on nothing else.  Two
calls whose clock readings are the same second return the same nonce and the same
digest, whatever the state of the source before either call; two calls return
the same nonce exactly when the first numbers of the source for their two
seconds are equal. -/
theorem setRandomKey_same_second {σ : Type} (R : RandSource σ) (ac : AC) (g : σ) (now : Int) :
    (setRandomKey R ac (setRandomKey R ac g now).2 now).1 = (setRandomKey R ac g now).1 ∧
    (∀ g' : σ, (setRandomKey R ac g' now).1 = (setRandomKey R ac g now).1) ∧
    (setRandomKey R ac g now).1.1 = formatUint ((R.uint64 (R.seed now)).1 % 2 ^ 64) ∧
    (∀ (g' : σ) (now' : Int),
      (setRandomKey R ac g' now').1.1 = (setRandomKey R ac g now).1.1 ↔
        (R.uint64 (R.seed now')).1 % 2 ^ 64 = (R.uint64 (R.seed now)).1 % 2 ^ 64) := by
  refine ⟨rfl, fun _ => rfl, rfl, ?_⟩
  intro g' now'
  rw [setRandomKey_nonce, setRandomKey_nonce]
  exact ⟨formatUint_injective, fun h => by rw [h]⟩

/-- C6, amended, at the example client: the clock readings 1621908000 and
1621908001 give different nonces, two readings of 1621908000 the same. -/
theorem setRandomKey_same_second_witness :
    (setRandomKey exampleRand exampleAC 7 1621908000).1 =
      (setRandomKey exampleRand exampleAC 0 1621908000).1 ∧
    (exampleRand.uint64 (exampleRand.seed 1621908001)).1 % 2 ^ 64 ≠
      (exampleRand.uint64 (exampleRand.seed 1621908000)).1 % 2 ^ 64 ∧
    (setRandomKey exampleRand exampleAC 7 1621908001).1.1 ≠
      (setRandomKey exampleRand exampleAC 0 1621908000).1.1 :=
  ⟨(setRandomKey_same_second exampleRand exampleAC 0 1621908000).2.1 7, by decide,
    fun h => absurd (((setRandomKey_same_second exampleRand exampleAC 0 1621908000).2.2.2 7
      1621908001).1 h) (by decide)⟩

/-! ## The request builder -/

theorem send_sent {σ : Type} (R : RandSource σ) (env : Env) (ac : AC) (g : σ) (req : acReq)
    {h : HttpRequest} (hs : (send R env ac g req).sent = some h) :
    h = { method := req.method,
          url := sendSignedUri env req (sendNonce R env ac g) (sendDigest R env ac g),
          body := sendBody env req (sendNonce R env ac g) (sendDigest R env ac g),
          header := sendHeader ac } := by
  simp only [send] at hs
  simp only [sendNonce, sendDigest]
  split at hs
  · simp at hs
  · split at hs
    · simpa using hs.symm
    · split at hs <;> simpa using hs.symm

theorem mem_join {c : Nat} {sep : Bytes} : ∀ {l : List Bytes}, c ∈ join sep l →
    c ∈ sep ∨ ∃ x ∈ l, c ∈ x
  | [], h => by simp [join] at h
  | [a], h => Or.inr ⟨a, by simp, by simpa [join] using h⟩
  | a :: b :: rest, h => by
    simp only [join, List.mem_append] at h
    rcases h with (h | h) | h
    · exact Or.inr ⟨a, by simp, h⟩
    · exact Or.inl h
    · rcases mem_join h with h | ⟨x, hx, hc⟩
      · exact Or.inl h
      · exact Or.inr ⟨x, List.mem_cons_of_mem _ hx, hc⟩

theorem isLowerHex_ne_question {c : Nat} (h : isLowerHex c) : c ≠ 63 := by
  unfold isLowerHex at h
  omega

theorem sendNonce_isDigit {σ : Type} (R : RandSource σ) (env : Env) (ac : AC) (g : σ) :
    ∀ c ∈ sendNonce R env ac g, 48 ≤ c ∧ c ≤ 57 :=
  formatUint_isDigit _

theorem sendDigest_isLowerHex {σ : Type} (R : RandSource σ) (env : Env) (ac : AC) (g : σ) :
    ∀ c ∈ sendDigest R env ac g, isLowerHex c :=
  hexLower_isLowerHex _

theorem range_ne_nil (env : Env) {m : List (Bytes × Bytes)} (h : m ≠ []) : env.range m ≠ [] := by
  intro h0
  have := (env.range_perm m).length_eq
  rw [h0] at this
  exact h (List.length_eq_zero.1 this.symm)

theorem querySep_of_not_mem {uri : Bytes} (h : 63 ∉ uri) : querySep uri = bytes "?" := by
  simp [querySep, h]

theorem querySep_of_mem {uri : Bytes} (h : 63 ∈ uri) : querySep uri = bytes "&" := by
  simp [querySep, h]

theorem sendQueryUri_nil (env : Env) (req : acReq) (h : req.Query = []) :
    sendQueryUri env req = req.uri := by
  simp [sendQueryUri, h]

theorem sendQueryUri_cons (env : Env) (req : acReq) (h : req.Query ≠ []) (hq : 63 ∉ req.uri) :
    sendQueryUri env req =
      req.uri ++ bytes "?" ++ join (bytes "&") ((env.range req.Query).map queryPair) := by
  have : req.Query.length > 0 := List.length_pos.2 h
  simp [sendQueryUri, this, querySep_of_not_mem hq]

/-- C7 as stated fails: `UserGet("a?b")` builds a GET request whose `uri` has no
`?` and whose `Query` is not empty, and the URI handed to the HTTP client
contains two `?`. -/
theorem send_get_two_question_marks :
    (send exampleRand exampleEnv exampleAC 0
        { uri := exampleAC.baseUrl ++ bytes "user", method := bytes "GET",
          Query := [(bytes "name", bytes "a?b")], Data := none }).sent.map
      (fun h => h.url.count 63) = some 2 := by
  decide!

theorem lit_question : bytes "?" = [63] := by decide
theorem lit_amp : bytes "&" = [38] := by decide
theorem lit_equals : bytes "=" = [61] := by decide
theorem lit_random : bytes "random" = [114, 97, 110, 100, 111, 109] := by decide
theorem lit_md5 : bytes "md5" = [109, 100, 53] := by decide
theorem lit_question_random : bytes "?random=" = [63, 114, 97, 110, 100, 111, 109, 61] := by decide
theorem lit_amp_random : bytes "&random=" = [38, 114, 97, 110, 100, 111, 109, 61] := by decide
theorem lit_random_equals : bytes "random=" = [114, 97, 110, 100, 111, 109, 61] := by decide
theorem lit_amp_md5 : bytes "&md5=" = [38, 109, 100, 53, 61] := by decide
theorem toUpper_GET : toUpper (bytes "GET") = bytes "GET" := by decide
theorem toUpper_POST : toUpper (bytes "POST") = bytes "POST" := by decide
theorem lit_POST_ne_GET : bytes "POST" ≠ bytes "GET" := by decide

theorem question_not_mem_queryPair {kv : Bytes × Bytes} (h : 63 ∉ kv.1 ∧ 63 ∉ kv.2) :
    63 ∉ queryPair kv := by
  simp [queryPair, lit_equals, h.1, h.2]

theorem question_not_mem_nonce {σ : Type} (R : RandSource σ) (env : Env) (ac : AC) (g : σ) :
    63 ∉ sendNonce R env ac g := by
  intro h
  have := sendNonce_isDigit R env ac g 63 h
  omega

theorem question_not_mem_digest {σ : Type} (R : RandSource σ) (env : Env) (ac : AC) (g : σ) :
    63 ∉ sendDigest R env ac g := fun h =>
  isLowerHex_ne_question (sendDigest_isLowerHex R env ac g 63 h) rfl

theorem sendSignedUri_get_nil {σ : Type} (R : RandSource σ) (env : Env) (ac : AC) (g : σ)
    (req : acReq) (hget : toUpper req.method = bytes "GET") (hq : 63 ∉ req.uri)
    (h0 : req.Query = []) :
    sendSignedUri env req (sendNonce R env ac g) (sendDigest R env ac g) =
      req.uri ++ bytes "?random=" ++ sendNonce R env ac g ++ bytes "&md5=" ++
        sendDigest R env ac g := by
  simp only [sendSignedUri, hget, if_true, sendQueryUri_nil env req h0, querySep_of_not_mem hq,
    join, queryPair, lit_question, lit_amp, lit_equals, lit_random, lit_md5,
    lit_question_random, lit_amp_md5]
  simp

theorem sendSignedUri_get_cons {σ : Type} (R : RandSource σ) (env : Env) (ac : AC) (g : σ)
    (req : acReq) (hget : toUpper req.method = bytes "GET") (hq : 63 ∉ req.uri)
    (h0 : req.Query ≠ []) :
    sendSignedUri env req (sendNonce R env ac g) (sendDigest R env ac g) =
      req.uri ++ bytes "?" ++ join (bytes "&") ((env.range req.Query).map queryPair) ++
        bytes "&random=" ++ sendNonce R env ac g ++ bytes "&md5=" ++ sendDigest R env ac g := by
  have hmem : 63 ∈ sendQueryUri env req := by
    rw [sendQueryUri_cons env req h0 hq, lit_question]
    simp
  simp only [sendSignedUri, hget, if_true, querySep_of_mem hmem]
  simp only [sendQueryUri_cons env req h0 hq, join, queryPair, lit_question, lit_amp,
    lit_equals, lit_random, lit_md5, lit_amp_random, lit_amp_md5]
  simp

theorem sendSignedUri_not_get (env : Env) (req : acReq) (random key : Bytes)
    (hget : toUpper req.method ≠ bytes "GET") :
    sendSignedUri env req random key = sendQueryUri env req := by
  simp [sendSignedUri, hget]

/-- C7, amended: for a GET request whose `uri` has no `?`, with an empty `Query`
the URI handed to the HTTP client is `uri ++ "?random=" ++ nonce ++ "&md5=" ++
digest`; with a non-empty `Query` it is `uri`, a `?`, the query pairs joined by
`&`, and then `&random=<nonce>&md5=<digest>`, so it ends with the signature, and
it contains exactly one `?` when no key or value of `Query` contains one; in
both cases the request body is empty. -/
theorem send_get_uri {σ : Type} (R : RandSource σ) (env : Env) (ac : AC) (g : σ) (req : acReq)
    (h : HttpRequest) (hm : req.method = bytes "GET") (hq : 63 ∉ req.uri)
    (hs : (send R env ac g req).sent = some h) :
    (req.Query = [] →
      h.url = req.uri ++ bytes "?random=" ++ sendNonce R env ac g ++ bytes "&md5=" ++
        sendDigest R env ac g) ∧
    (req.Query ≠ [] →
      h.url = req.uri ++ bytes "?" ++ join (bytes "&") ((env.range req.Query).map queryPair) ++
          bytes "&random=" ++ sendNonce R env ac g ++ bytes "&md5=" ++ sendDigest R env ac g ∧
      ((∀ kv ∈ req.Query, 63 ∉ kv.1 ∧ 63 ∉ kv.2) → h.url.count 63 = 1)) ∧
    h.body = [] := by
  have hh := send_sent R env ac g req hs
  subst hh
  have hget : toUpper req.method = bytes "GET" := by rw [hm]; exact toUpper_GET
  have hpost : toUpper req.method ≠ bytes "POST" := by
    rw [hget]; exact fun h => lit_POST_ne_GET h.symm
  refine ⟨fun h0 => sendSignedUri_get_nil R env ac g req hget hq h0, ?_, ?_⟩
  · intro h0
    have hurl := sendSignedUri_get_cons R env ac g req hget hq h0
    refine ⟨hurl, ?_⟩
    intro hno
    show (sendSignedUri env req (sendNonce R env ac g) (sendDigest R env ac g)).count 63 = 1
    rw [hurl]
    have hj : 63 ∉ join (bytes "&") ((env.range req.Query).map queryPair) := by
      intro hc
      rcases mem_join hc with hc | ⟨x, hx, hc⟩
      · rw [lit_amp] at hc
        simp at hc
      · obtain ⟨kv, hkv, rfl⟩ := List.mem_map.1 hx
        exact question_not_mem_queryPair (hno kv ((env.range_perm req.Query).mem_iff.1 hkv)) hc
    simp only [List.count_append, List.count_eq_zero_of_not_mem hq,
      List.count_eq_zero_of_not_mem hj,
      List.count_eq_zero_of_not_mem (question_not_mem_nonce R env ac g),
      List.count_eq_zero_of_not_mem (question_not_mem_digest R env ac g),
      lit_question, lit_amp_random, lit_amp_md5]
    decide
  · simp [sendBody, hpost]

/-- C7, amended, at `UserGet("admin")` on the example client. -/
theorem send_get_uri_witness :
    exampleUserGet.method = bytes "GET" ∧ 63 ∉ exampleUserGet.uri ∧
    (send exampleRand exampleEnv exampleAC 0 exampleUserGet).sent = some exampleGetRequest ∧
    ((exampleUserGet.Query = [] →
      exampleGetRequest.url = exampleUserGet.uri ++ bytes "?random=" ++
        sendNonce exampleRand exampleEnv exampleAC 0 ++ bytes "&md5=" ++
        sendDigest exampleRand exampleEnv exampleAC 0) ∧
    (exampleUserGet.Query ≠ [] →
      exampleGetRequest.url = exampleUserGet.uri ++ bytes "?" ++
          join (bytes "&") ((exampleEnv.range exampleUserGet.Query).map queryPair) ++
          bytes "&random=" ++ sendNonce exampleRand exampleEnv exampleAC 0 ++ bytes "&md5=" ++
          sendDigest exampleRand exampleEnv exampleAC 0 ∧
      ((∀ kv ∈ exampleUserGet.Query, 63 ∉ kv.1 ∧ 63 ∉ kv.2) →
        exampleGetRequest.url.count 63 = 1)) ∧
    exampleGetRequest.body = []) :=
  ⟨rfl, by decide, by decide!,
    send_get_uri exampleRand exampleEnv exampleAC 0 exampleUserGet exampleGetRequest rfl
      (by decide) (by decide!)⟩

/-- C9: for a request with a non-empty `Query` and a `uri` without `?`, `send`
appends to the `uri` a `?` and the `&`-joined list of segments, one segment
`key=value` per entry of `Query` (the `_method` entry like any other), key and
value copied unmodified; for a GET the signature follows, after a `&`, and nothing
else is appended. -/
theorem send_query_pairs {σ : Type} (R : RandSource σ) (env : Env) (ac : AC) (g : σ)
    (req : acReq) (h : HttpRequest) (h0 : req.Query ≠ []) (hq : 63 ∉ req.uri)
    (hs : (send R env ac g req).sent = some h) :
    ∃ segs : List Bytes,
      segs.Perm (req.Query.map (fun kv => kv.1 ++ bytes "=" ++ kv.2)) ∧
      (toUpper req.method = bytes "GET" →
        h.url = req.uri ++ bytes "?" ++ join (bytes "&") segs ++ bytes "&random=" ++
          sendNonce R env ac g ++ bytes "&md5=" ++ sendDigest R env ac g) ∧
      (toUpper req.method ≠ bytes "GET" →
        h.url = req.uri ++ bytes "?" ++ join (bytes "&") segs) := by
  have hh := send_sent R env ac g req hs
  subst hh
  refine ⟨(env.range req.Query).map queryPair, (env.range_perm req.Query).map _, ?_, ?_⟩
  · intro hget
    exact sendSignedUri_get_cons R env ac g req hget hq h0
  · intro hget
    show sendSignedUri env req _ _ = _
    rw [sendSignedUri_not_get env req _ _ hget, sendQueryUri_cons env req h0 hq]

/-- C9 at `UserVerifyPassword("admin", "pw")` on the example client. -/
theorem send_query_pairs_witness :
    exampleVerify.Query ≠ [] ∧ 63 ∉ exampleVerify.uri ∧
    (send exampleRand exampleEnv exampleAC 0 exampleVerify).sent = some exampleVerifyRequest ∧
    ∃ segs : List Bytes,
      segs.Perm (exampleVerify.Query.map (fun kv => kv.1 ++ bytes "=" ++ kv.2)) ∧
      (toUpper exampleVerify.method = bytes "GET" →
        exampleVerifyRequest.url = exampleVerify.uri ++ bytes "?" ++ join (bytes "&") segs ++
          bytes "&random=" ++ sendNonce exampleRand exampleEnv exampleAC 0 ++ bytes "&md5=" ++
          sendDigest exampleRand exampleEnv exampleAC 0) ∧
      (toUpper exampleVerify.method ≠ bytes "GET" →
        exampleVerifyRequest.url = exampleVerify.uri ++ bytes "?" ++ join (bytes "&") segs) :=
  ⟨by decide, by decide, by decide!,
    send_query_pairs exampleRand exampleEnv exampleAC 0 exampleVerify exampleVerifyRequest
      (by decide) (by decide) (by decide!)⟩

/-! ## Go maps and the POST body -/

theorem escapeString_safe : ∀ (fuel : Nat) (s : Bytes), s.length ≤ fuel →
    (∀ b ∈ s, htmlSafe b = true) → escapeString fuel s = s
  | 0, s, hl, _ => by
    have : s = [] := List.length_eq_zero.1 (Nat.le_zero.1 hl)
    subst this
    rfl
  | fuel + 1, [], _, _ => rfl
  | fuel + 1, b :: rest, hl, hs => by
    have hb := hs b (List.mem_cons_self _ _)
    have hlt : b < 0x80 := by
      simp only [htmlSafe, Bool.and_eq_true, decide_eq_true_eq] at hb
      exact hb.1.1.1.1.1.2
    simp only [escapeString, hlt, if_true, hb]
    rw [escapeString_safe fuel rest (by simpa using hl)
      (fun c hc => hs c (List.mem_cons_of_mem _ hc))]

theorem encodeString_safe (s : Bytes) (hs : ∀ b ∈ s, htmlSafe b = true) :
    encodeString s = 34 :: s ++ [34] := by
  simp [encodeString, escapeString_safe s.length s (le_refl _) hs]

theorem htmlSafe_of_isDigit {c : Nat} (h : 48 ≤ c ∧ c ≤ 57) : htmlSafe c = true := by
  simp only [htmlSafe, Bool.and_eq_true, decide_eq_true_eq, bne_iff_ne, ne_eq]
  omega

theorem htmlSafe_of_isLowerHex {c : Nat} (h : isLowerHex c) : htmlSafe c = true := by
  unfold isLowerHex at h
  simp only [htmlSafe, Bool.and_eq_true, decide_eq_true_eq, bne_iff_ne, ne_eq]
  omega

/-- C10 as stated fails: two builds of the request of
`UserVerifyPassword("admin", "pw")` by the same client, with the same nonce and
digest, in which `range` visits the three entries of `Query` in opposite orders,
hand different URIs to the HTTP client: the query pairs appear in a different
order. -/
theorem send_query_order_differs :
    sendNonce exampleRand exampleEnv exampleAC 0 =
      sendNonce exampleRand exampleEnvReversed exampleAC 0 ∧
    sendDigest exampleRand exampleEnv exampleAC 0 =
      sendDigest exampleRand exampleEnvReversed exampleAC 0 ∧
    (send exampleRand exampleEnv exampleAC 0 exampleVerify).sent.map (fun h => h.url) =
      some (bytes "http://192.168.1.1:9999/v1/user?_method=verify&name=admin&password=pw&random=" ++
        sendNonce exampleRand exampleEnv exampleAC 0 ++ bytes "&md5=" ++
        sendDigest exampleRand exampleEnv exampleAC 0) ∧
    (send exampleRand exampleEnvReversed exampleAC 0 exampleVerify).sent.map (fun h => h.url) =
      some (bytes "http://192.168.1.1:9999/v1/user?password=pw&name=admin&_method=verify&random=" ++
        sendNonce exampleRand exampleEnv exampleAC 0 ++ bytes "&md5=" ++
        sendDigest exampleRand exampleEnv exampleAC 0) ∧
    (send exampleRand exampleEnv exampleAC 0 exampleVerify).sent.map (fun h => h.url) ≠
      (send exampleRand exampleEnvReversed exampleAC 0 exampleVerify).sent.map (fun h => h.url) := by
  decide!

theorem sendQueryUri_congr (env env' : Env) (req : acReq)
    (hr : req.Query.length ≤ 1 ∨ env.range req.Query = env'.range req.Query) :
    sendQueryUri env req = sendQueryUri env' req := by
  have h : env.range req.Query = env'.range req.Query := by
    rcases hr with hr | hr
    · have p := env.range_perm req.Query
      have p' := env'.range_perm req.Query
      match hq : req.Query with
      | [] =>
        rw [hq] at p p'
        rw [List.perm_nil.1 p, List.perm_nil.1 p']
      | [a] =>
        rw [hq] at p p'
        rw [List.perm_singleton.1 p, List.perm_singleton.1 p']
      | a :: b :: rest =>
        rw [hq] at hr
        simp at hr
    · exact hr
  simp [sendQueryUri, h]

/-- C10, amended: request building is deterministic apart from the nonce and
the order in which the entries of `Query` are visited.  For two builds of the
same logical request by the same client, with whatever clocks, random sources
and transports, in which `Query` has at most one entry or its entries are visited
in the same order: method and headers are identical; the URIs are identical for
a request that is not a GET, and for a GET they are one common text followed by
`random=<nonce>&md5=<digest>` of the respective build; the bodies are identical
for a request that is not a POST, and for a POST they serialise one common map
with `random` and `md5` set to the values of the respective build. -/
theorem send_deterministic {σ τ : Type} (R : RandSource σ) (R' : RandSource τ) (env env' : Env)
    (ac : AC) (g : σ) (g' : τ) (req : acReq) (h h' : HttpRequest)
    (hr : req.Query.length ≤ 1 ∨ env.range req.Query = env'.range req.Query)
    (hf : env.fmtFloat = env'.fmtFloat)
    (hs : (send R env ac g req).sent = some h)
    (hs' : (send R' env' ac g' req).sent = some h') :
    h.method = h'.method ∧ h.header = h'.header ∧
    (∃ p : Bytes,
      (toUpper req.method = bytes "GET" →
        h.url = p ++ bytes "random=" ++ sendNonce R env ac g ++ bytes "&md5=" ++
          sendDigest R env ac g ∧
        h'.url = p ++ bytes "random=" ++ sendNonce R' env' ac g' ++ bytes "&md5=" ++
          sendDigest R' env' ac g') ∧
      (toUpper req.method ≠ bytes "GET" → h.url = p ∧ h'.url = p)) ∧
    (∃ d : List (Bytes × GoVal),
      (toUpper req.method = bytes "POST" →
        h.body = marshalVal env.fmtFloat (.map (mapSet (mapSet d (bytes "random")
          (.str (sendNonce R env ac g))) (bytes "md5") (.str (sendDigest R env ac g)))) ∧
        h'.body = marshalVal env.fmtFloat (.map (mapSet (mapSet d (bytes "random")
          (.str (sendNonce R' env' ac g'))) (bytes "md5") (.str (sendDigest R' env' ac g'))))) ∧
      (toUpper req.method ≠ bytes "POST" → h.body = h'.body)) := by
  have hh := send_sent R env ac g req hs
  have hh' := send_sent R' env' ac g' req hs'
  subst hh hh'
  have hq := sendQueryUri_congr env env' req hr
  refine ⟨rfl, rfl, ?_, ?_⟩
  · by_cases hget : toUpper req.method = bytes "GET"
    · refine ⟨sendQueryUri env req ++ querySep (sendQueryUri env req), ?_, fun hn => absurd hget hn⟩
      intro _
      constructor
      · simp only [sendSignedUri, hget, if_true, join, queryPair, lit_amp, lit_equals, lit_random,
          lit_md5, lit_amp_md5, lit_random_equals]
        simp
      · simp only [sendSignedUri, hget, if_true, join, queryPair, lit_amp, lit_equals, lit_random,
          lit_md5, lit_amp_md5, lit_random_equals, ← hq]
        simp
    · refine ⟨sendQueryUri env req, fun hn => absurd hn hget, ?_⟩
      intro _
      exact ⟨sendSignedUri_not_get env req _ _ hget,
        (sendSignedUri_not_get env' req _ _ hget).trans hq.symm⟩
  · refine ⟨req.Data.getD [], ?_, ?_⟩
    · intro hpost
      constructor
      · simp [sendBody, sendData, hpost]
      · simp [sendBody, sendData, hpost, hf]
    · intro hpost
      simp [sendBody, hpost]

/-- C10, amended, at two builds of `UserGet("admin")` at different clock readings. -/
theorem send_deterministic_witness :
    (exampleUserGet.Query.length ≤ 1 ∨
      exampleEnv.range exampleUserGet.Query = exampleEnvLater.range exampleUserGet.Query) ∧
    exampleEnv.fmtFloat = exampleEnvLater.fmtFloat ∧
    (send exampleRand exampleEnv exampleAC 0 exampleUserGet).sent = some exampleGetRequest ∧
    (send exampleRand exampleEnvLater exampleAC 7 exampleUserGet).sent =
      some exampleGetRequestLater ∧
    sendNonce exampleRand exampleEnv exampleAC 0 ≠ sendNonce exampleRand exampleEnvLater exampleAC 7 ∧
    (exampleGetRequest.method = exampleGetRequestLater.method ∧
    exampleGetRequest.header = exampleGetRequestLater.header ∧
    (∃ p : Bytes,
      (toUpper exampleUserGet.method = bytes "GET" →
        exampleGetRequest.url = p ++ bytes "random=" ++ sendNonce exampleRand exampleEnv exampleAC 0 ++
          bytes "&md5=" ++ sendDigest exampleRand exampleEnv exampleAC 0 ∧
        exampleGetRequestLater.url = p ++ bytes "random=" ++
          sendNonce exampleRand exampleEnvLater exampleAC 7 ++ bytes "&md5=" ++
          sendDigest exampleRand exampleEnvLater exampleAC 7) ∧
      (toUpper exampleUserGet.method ≠ bytes "GET" →
        exampleGetRequest.url = p ∧ exampleGetRequestLater.url = p)) ∧
    (∃ d : List (Bytes × GoVal),
      (toUpper exampleUserGet.method = bytes "POST" →
        exampleGetRequest.body = marshalVal exampleEnv.fmtFloat (.map (mapSet (mapSet d
          (bytes "random") (.str (sendNonce exampleRand exampleEnv exampleAC 0))) (bytes "md5")
          (.str (sendDigest exampleRand exampleEnv exampleAC 0)))) ∧
        exampleGetRequestLater.body = marshalVal exampleEnv.fmtFloat (.map (mapSet (mapSet d
          (bytes "random") (.str (sendNonce exampleRand exampleEnvLater exampleAC 7)))
          (bytes "md5") (.str (sendDigest exampleRand exampleEnvLater exampleAC 7))))) ∧
      (toUpper exampleUserGet.method ≠ bytes "POST" →
        exampleGetRequest.body = exampleGetRequestLater.body))) :=
  ⟨by decide, rfl, by decide!, by decide!, by decide!,
    send_deterministic exampleRand exampleRand exampleEnv exampleEnvLater exampleAC 0 7
      exampleUserGet exampleGetRequest exampleGetRequestLater (by decide) rfl (by decide!)
      (by decide!)⟩

/-! ## Decoding of the envelope -/

theorem findField_code : findField acRespFields (bytes "code") = some (bytes "code") := by decide
theorem findField_message :
    findField acRespFields (bytes "message") = some (bytes "message") := by decide
theorem findField_data : findField acRespFields (bytes "data") = some (bytes "data") := by decide
theorem lit_message_ne_code : bytes "message" ≠ bytes "code" := by decide
theorem lit_data_ne_code : bytes "data" ≠ bytes "code" := by decide
theorem lit_data_ne_message : bytes "data" ≠ bytes "message" := by decide

theorem decodeAcRespMember_code (resp : acResp) (c : Bytes) (n : Int)
    (hc : parseInt64 c = some n) :
    decodeAcRespMember resp (bytes "code") (.num c) = .ok { resp with Code := n } := by
  simp only [decodeAcRespMember, findField_code, if_true, decodeValue, GoType.indirect, hc]
  rfl

theorem decodeAcRespMember_message (resp : acResp) (m : Bytes) :
    decodeAcRespMember resp (bytes "message") (.str m) = .ok { resp with Message := m } := by
  simp only [decodeAcRespMember, findField_message, lit_message_ne_code, if_false, if_true,
    decodeValue, GoType.indirect]
  rfl

theorem decodeAcRespMember_data (resp : acResp) (d : JSON) :
    decodeAcRespMember resp (bytes "data") d = decodeData resp d := by
  simp only [decodeAcRespMember, findField_data, lit_data_ne_code, lit_data_ne_message, if_false]

theorem decodeValue_null (ctx : ErrorContext) (t : GoType) (cur : GoVal) :
    ∃ v, decodeValue ctx t cur .null = .ok v := by
  cases t <;> simp only [decodeValue] <;> exact ⟨_, rfl⟩

/-- Decoding of `null` into any holder succeeds. -/
theorem decodeIntoHolder_null (holder : Holder) : ∃ v, decodeIntoHolder holder .null = .ok v := by
  cases holder with
  | none => exact ⟨.nil, by simp [decodeIntoHolder, valueInterface]⟩
  | some t => exact decodeValue_null (acRespContext (bytes "data")) t (zeroVal t)


mutual
/-- Decoding into the empty interface fails only on a number outside the range
of `float64`. -/
theorem valueInterface_ok (ctx : ErrorContext) :
    ∀ d : JSON, floatsInRange d = true → ∃ v, valueInterface ctx d = .ok v
  | .null, _ => ⟨.nil, by simp only [valueInterface]⟩
  | .bool b, _ => ⟨.bool b, by simp only [valueInterface]⟩
  | .str s, _ => ⟨.str s, by simp only [valueInterface]⟩
  | .num lit, h => by
    simp only [floatsInRange, Bool.not_eq_true'] at h
    exact ⟨.float lit, by simp only [valueInterface, h]; rfl⟩
  | .arr xs, h => by
    simp only [floatsInRange] at h
    obtain ⟨v, hv⟩ := arrayInterface_ok ctx xs h
    exact ⟨.slice v, by simp only [valueInterface, hv]; rfl⟩
  | .obj ms, h => by
    simp only [floatsInRange] at h
    obtain ⟨v, hv⟩ := objectInterface_ok ctx ms [] h
    exact ⟨.map v, by simp only [valueInterface, hv]; rfl⟩
theorem arrayInterface_ok (ctx : ErrorContext) :
    ∀ xs : List JSON, elementsInRange xs = true → ∃ v, arrayInterface ctx xs = .ok v
  | [], _ => ⟨[], by simp only [arrayInterface]⟩
  | x :: xs, h => by
    simp only [elementsInRange, Bool.and_eq_true] at h
    obtain ⟨v, hv⟩ := valueInterface_ok ctx x h.1
    obtain ⟨w, hw⟩ := arrayInterface_ok ctx xs h.2
    exact ⟨v :: w, by simp only [arrayInterface, hv, hw]; rfl⟩
theorem objectInterface_ok (ctx : ErrorContext) :
    ∀ (ms : List (Bytes × JSON)) (acc : List (Bytes × GoVal)), membersInRange ms = true →
      ∃ v, objectInterface ctx ms acc = .ok v
  | [], acc, _ => ⟨acc, by simp only [objectInterface]⟩
  | (k, x) :: ms, acc, h => by
    simp only [membersInRange, Bool.and_eq_true] at h
    obtain ⟨v, hv⟩ := valueInterface_ok ctx x h.1
    obtain ⟨w, hw⟩ := objectInterface_ok ctx ms (mapSet acc k v) h.2
    exact ⟨w, by simp only [objectInterface, hv, hw]⟩
end

/-- The member `data` decoded after `code` and `message`: an error of the
decoder is passed on, a success leaves `Code` and `Message` as they are. -/
theorem decodeData_init (holder : Holder) (n : Int) (m : Bytes) (d : JSON) :
    (∀ err, decodeIntoHolder holder d = .error err →
      decodeData { acResp.init holder with Code := n, Message := m } d = .error err) ∧
    (∀ v, decodeIntoHolder holder d = .ok v →
      ∃ resp, decodeData { acResp.init holder with Code := n, Message := m } d = .ok resp ∧
        resp.Code = n ∧ resp.Message = m) := by
  cases holder with
  | none =>
    simp only [decodeIntoHolder, acResp.init, decodeData]
    cases h : valueInterface (acRespContext (bytes "data")) d with
    | error e => simp [Except.map]
    | ok v => simp [Except.map]
  | some t =>
    simp only [decodeIntoHolder, acResp.init]
    by_cases hnull : d = .null
    · subst hnull
      constructor
      · intro err herr
        obtain ⟨v, hv⟩ := decodeValue_null (acRespContext (bytes "data")) t (zeroVal t)
        rw [hv] at herr
        cases herr
      · intro v _
        cases t <;> simp only [decodeData] <;> exact ⟨_, rfl, rfl, rfl⟩
    · have hd : decodeData { Code := n, Message := m, Data := .addr t, r := zeroVal t } d =
          (decodeValue (acRespContext (bytes "data")) t (zeroVal t) d).map
            fun v => { Code := n, Message := m, Data := .addr t, r := v } := by
        cases d with
        | null => exact absurd rfl hnull
        | bool b => cases t <;> rfl
        | num l => cases t <;> rfl
        | str x => cases t <;> rfl
        | arr xs => cases t <;> rfl
        | obj ms => cases t <;> rfl
      rw [hd]
      cases h : decodeValue (acRespContext (bytes "data")) t (zeroVal t) d with
      | error e => simp [Except.map]
      | ok v => simp [Except.map]

theorem prepare_ne_nil (e : Endpoint) (body : Bytes) {j : JSON}
    (hp : parseJSON (e.prepare body) = some j) : body ≠ [] := by
  intro h
  subst h
  have : e.prepare [] = [] := by
    unfold Endpoint.prepare
    split <;> rfl
  have h0 : parseJSON [] = none := rfl
  rw [this, h0] at hp
  cases hp

/-- The decoding of an envelope with the members `code`, `message` and, possibly,
`data`, whose code is the integer `n`. -/
theorem unmarshalAcResp_envelope (holder : Holder) (data c m : Bytes) (n : Int)
    (dataMember : List (Bytes × JSON))
    (hp : parseJSON data =
      some (.obj ([(bytes "code", .num c), (bytes "message", .str m)] ++ dataMember)))
    (hc : parseInt64 c = some n) :
    unmarshalAcResp holder data =
      decodeAcRespMembers dataMember { acResp.init holder with Code := n, Message := m } := by
  simp only [unmarshalAcResp, hp, List.cons_append, List.nil_append, decodeAcRespMembers,
    decodeAcRespMember_code _ c n hc, decodeAcRespMember_message]

/-! ## Envelopes with their members in any order -/

theorem findField_acResp {k f : Bytes} (h : findField acRespFields k = some f) :
    f = bytes "code" ∨ f = bytes "message" ∨ f = bytes "data" := by
  have hmem : ∀ x : Bytes × Unit, x ∈ acRespFields →
      x.1 = bytes "code" ∨ x.1 = bytes "message" ∨ x.1 = bytes "data" := by
    intro x hx
    simp only [acRespFields, List.mem_cons, List.mem_singleton, List.not_mem_nil, or_false] at hx
    rcases hx with rfl | rfl | rfl
    · exact Or.inl rfl
    · exact Or.inr (Or.inl rfl)
    · exact Or.inr (Or.inr rfl)
  unfold findField at h
  split at h
  · rename_i x hx
    simp only [Option.some.injEq] at h
    rw [← h]
    exact hmem x (List.mem_of_find?_eq_some hx)
  · cases hx : acRespFields.find? (fun f => foldKey f.1 == foldKey k) with
    | none => simp [hx] at h
    | some x =>
      simp only [hx, Option.map_some', Option.some.injEq] at h
      rw [← h]
      exact hmem x (List.mem_of_find?_eq_some hx)

theorem membersFor_cons (f k : Bytes) (x : JSON) (ms : List (Bytes × JSON)) :
    membersFor f ((k, x) :: ms) =
      if findField acRespFields k = some f then (k, x) :: membersFor f ms else membersFor f ms := by
  simp only [membersFor, List.filter_cons, beq_iff_eq]

theorem decodeAcRespMember_skip (resp : acResp) (k : Bytes) (x : JSON)
    (h : findField acRespFields k = none) : decodeAcRespMember resp k x = .ok resp := by
  simp only [decodeAcRespMember, h]

theorem decodeAcRespMember_code_key (resp : acResp) (k c : Bytes) (n : Int)
    (hk : findField acRespFields k = some (bytes "code")) (hc : parseInt64 c = some n) :
    decodeAcRespMember resp k (.num c) = .ok { resp with Code := n } := by
  simp only [decodeAcRespMember, hk, if_true, decodeValue, GoType.indirect, hc]
  rfl

theorem decodeAcRespMember_message_key (resp : acResp) (k m : Bytes)
    (hk : findField acRespFields k = some (bytes "message")) :
    decodeAcRespMember resp k (.str m) = .ok { resp with Message := m } := by
  simp only [decodeAcRespMember, hk, lit_message_ne_code, if_false, if_true, decodeValue,
    GoType.indirect]
  rfl

theorem decodeAcRespMember_data_key (resp : acResp) (k : Bytes) (d : JSON)
    (hk : findField acRespFields k = some (bytes "data")) :
    decodeAcRespMember resp k d = decodeData resp d := by
  simp only [decodeAcRespMember, hk, lit_data_ne_code, lit_data_ne_message, if_false]

/-- The decoding of `data` neither reads nor writes `Code` and `Message`. -/
theorem decodeData_frame (resp : acResp) (d : JSON) (c : Int) (m : Bytes) :
    decodeData { resp with Code := c, Message := m } d =
      (decodeData resp d).map fun r => { r with Code := c, Message := m } := by
  obtain ⟨code, msg, data, r⟩ := resp
  cases data with
  | value v =>
    simp only [decodeData]
    cases valueInterface (acRespContext (bytes "data")) d <;> rfl
  | addr t =>
    cases d with
    | null => cases t <;> rfl
    | bool b =>
      cases t <;> simp only [decodeData] <;>
        cases decodeValue (acRespContext (bytes "data")) _ r (.bool b) <;> rfl
    | num l =>
      cases t <;> simp only [decodeData] <;>
        cases decodeValue (acRespContext (bytes "data")) _ r (.num l) <;> rfl
    | str x =>
      cases t <;> simp only [decodeData] <;>
        cases decodeValue (acRespContext (bytes "data")) _ r (.str x) <;> rfl
    | arr xs =>
      cases t <;> simp only [decodeData] <;>
        cases decodeValue (acRespContext (bytes "data")) _ r (.arr xs) <;> rfl
    | obj ms =>
      cases t <;> simp only [decodeData] <;>
        cases decodeValue (acRespContext (bytes "data")) _ r (.obj ms) <;> rfl

theorem decodeData_keeps {resp r : acResp} {d : JSON} (h : decodeData resp d = .ok r) :
    r.Code = resp.Code ∧ r.Message = resp.Message := by
  have hf := decodeData_frame resp d resp.Code resp.Message
  have he : ({ resp with Code := resp.Code, Message := resp.Message } : acResp) = resp := by
    cases resp; rfl
  rw [he, h] at hf
  simp only [Except.map, Except.ok.injEq] at hf
  rw [hf]
  exact ⟨rfl, rfl⟩

/-- The decoding of the members of an object in which every member stored into
`code` is a number in the range of `int`, every member stored into `message` is a
string, and at most one member is stored into `data`. -/
theorem decodeAcRespMembers_any_order : ∀ (ms : List (Bytes × JSON)) (resp : acResp),
    (∀ kv ∈ membersFor (bytes "code") ms, ∃ c n, kv.2 = .num c ∧ parseInt64 c = some n) →
    (∀ kv ∈ membersFor (bytes "message") ms, ∃ s, kv.2 = .str s) →
    (membersFor (bytes "data") ms).length ≤ 1 →
    decodeAcRespMembers ms resp =
      (decodeAcRespMembers ((membersFor (bytes "data") ms).map
        fun kv => (bytes "data", kv.2)) resp).map
        fun r => { r with Code := codeAfter (membersFor (bytes "code") ms) resp.Code,
                          Message := messageAfter (membersFor (bytes "message") ms) resp.Message }
  | [], resp, _, _, _ => by
    cases resp
    rfl
  | (k, x) :: ms, resp, hcv, hmv, hd => by
    have hcm : bytes "code" ≠ bytes "message" := by decide
    have hcd : bytes "code" ≠ bytes "data" := by decide
    have hmd : bytes "message" ≠ bytes "data" := by decide
    cases hk : findField acRespFields k with
    | none =>
      simp only [membersFor_cons, hk, reduceCtorEq, if_false] at hcv hmv hd ⊢
      rw [decodeAcRespMembers, decodeAcRespMember_skip resp k x hk]
      exact decodeAcRespMembers_any_order ms resp hcv hmv hd
    | some f =>
      rcases findField_acResp hk with rfl | rfl | rfl
      · -- a member stored into `code`
        simp only [membersFor_cons, hk, Option.some.injEq, hcm, hcd, if_true, if_false] at hcv hmv hd ⊢
        obtain ⟨c, n, hx, hc⟩ := hcv (k, x) (List.mem_cons_self _ _)
        simp only at hx
        subst hx
        have ih := decodeAcRespMembers_any_order ms { resp with Code := n }
          (fun kv hkv => hcv kv (List.mem_cons_of_mem _ hkv)) hmv hd
        rw [decodeAcRespMembers, decodeAcRespMember_code_key resp k c n hk hc]
        simp only [ih, codeAfter, hc, Option.getD_some]
        cases hdm : membersFor (bytes "data") ms with
        | nil => rfl
        | cons kv rest =>
          have hrest : rest = [] := by
            rw [hdm] at hd
            exact List.length_eq_zero.1 (by simpa using hd)
          subst hrest
          simp only [List.map_cons, List.map_nil, decodeAcRespMembers, decodeAcRespMember_data]
          have hf := decodeData_frame resp kv.2 n resp.Message
          have he : ({ resp with Code := n, Message := resp.Message } : acResp) =
              { resp with Code := n } := rfl
          rw [he] at hf
          rw [hf]
          cases decodeData resp kv.2 <;> rfl
      · -- a member stored into `message`
        simp only [membersFor_cons, hk, Option.some.injEq, hcm.symm, hmd, if_true, if_false]
          at hcv hmv hd ⊢
        obtain ⟨s, hx⟩ := hmv (k, x) (List.mem_cons_self _ _)
        simp only at hx
        subst hx
        have ih := decodeAcRespMembers_any_order ms { resp with Message := s } hcv
          (fun kv hkv => hmv kv (List.mem_cons_of_mem _ hkv)) hd
        rw [decodeAcRespMembers, decodeAcRespMember_message_key resp k s hk]
        simp only [ih, messageAfter]
        cases hdm : membersFor (bytes "data") ms with
        | nil => rfl
        | cons kv rest =>
          have hrest : rest = [] := by
            rw [hdm] at hd
            exact List.length_eq_zero.1 (by simpa using hd)
          subst hrest
          simp only [List.map_cons, List.map_nil, decodeAcRespMembers, decodeAcRespMember_data]
          have hf := decodeData_frame resp kv.2 resp.Code s
          have he : ({ resp with Code := resp.Code, Message := s } : acResp) =
              { resp with Message := s } := rfl
          rw [he] at hf
          rw [hf]
          cases decodeData resp kv.2 <;> rfl
      · -- the member stored into `data`
        simp only [membersFor_cons, hk, Option.some.injEq, hcd.symm, hmd.symm, if_true, if_false]
          at hcv hmv hd ⊢
        have hnil : membersFor (bytes "data") ms = [] :=
          List.length_eq_zero.1 (by simpa using hd)
        rw [hnil] at hd ⊢
        simp only [List.map_cons, List.map_nil, decodeAcRespMembers, decodeAcRespMember_data,
          decodeAcRespMember_data_key resp k x hk]
        cases hdd : decodeData resp x with
        | error e => rfl
        | ok r =>
          have ih := decodeAcRespMembers_any_order ms r hcv hmv (by rw [hnil]; simp)
          obtain ⟨h1, h2⟩ := decodeData_keeps hdd
          simp only [ih, hnil, List.map_nil, decodeAcRespMembers, Except.map, h1, h2]

theorem singleton_of_map_snd {l : List (Bytes × JSON)} {x : JSON}
    (h : l.map Prod.snd = [x]) : ∃ k, l = [(k, x)] := by
  rcases l with _ | ⟨⟨k, y⟩, _ | ⟨z, rest⟩⟩
  · simp at h
  · simp only [List.map_cons, List.map_nil, List.cons.injEq, and_true] at h
    exact ⟨k, by rw [h]⟩
  · simp at h

/-- The call `json.Unmarshal(dataBytes, resp)` on an envelope whose code is the
integer `n`, whatever the order of its members: `Code` and `Message` are set, and
the value of `data`, if there is one, is decoded into the holder. -/
theorem unmarshalAcResp_members (holder : Holder) (data c m : Bytes) (n : Int)
    (ms : List (Bytes × JSON)) (dvals : List JSON)
    (hp : parseJSON data = some (.obj ms)) (henv : isEnvelope ms c m dvals)
    (hc : parseInt64 c = some n) :
    unmarshalAcResp holder data =
      decodeAcRespMembers (dvals.map fun d => (bytes "data", d))
        { acResp.init holder with Code := n, Message := m } := by
  obtain ⟨h1, h2, h3, h4⟩ := henv
  obtain ⟨kc, hkc⟩ := singleton_of_map_snd h1
  obtain ⟨km, hkm⟩ := singleton_of_map_snd h2
  have hlen : (membersFor (bytes "data") ms).length ≤ 1 := by
    have := congrArg List.length h3
    simp only [List.length_map] at this
    omega
  have hg := decodeAcRespMembers_any_order ms (acResp.init holder)
    (by
      intro kv hkv
      rw [hkc, List.mem_singleton] at hkv
      subst hkv
      exact ⟨c, n, rfl, hc⟩)
    (by
      intro kv hkv
      rw [hkm, List.mem_singleton] at hkv
      subst hkv
      exact ⟨m, rfl⟩)
    hlen
  have hmap : (membersFor (bytes "data") ms).map (fun kv => (bytes "data", kv.2)) =
      dvals.map fun d => (bytes "data", d) := by
    rw [← h3, List.map_map]
    rfl
  simp only [unmarshalAcResp, hp]
  rw [hg, hmap, hkc, hkm]
  simp only [codeAfter, messageAfter, hc, Option.getD_some]
  rcases dvals with _ | ⟨d, _ | ⟨d2, rest⟩⟩
  · rfl
  · simp only [List.map_cons, List.map_nil, decodeAcRespMembers, decodeAcRespMember_data]
    have hf := decodeData_frame (acResp.init holder) d n m
    rw [hf]
    cases decodeData (acResp.init holder) d <;> rfl
  · simp at h4

/-- The envelope with the members `code`, `message` and `data`, in this order. -/
theorem isEnvelope_ordered (c m : Bytes) (dvals : List JSON) (h : dvals.length ≤ 1) :
    isEnvelope ([(bytes "code", .num c), (bytes "message", .str m)] ++
      dvals.map fun d => (bytes "data", d)) c m dvals := by
  have hcm : bytes "code" ≠ bytes "message" := by decide
  have hcd : bytes "code" ≠ bytes "data" := by decide
  have hmd : bytes "message" ≠ bytes "data" := by decide
  rcases dvals with _ | ⟨d, _ | ⟨d2, rest⟩⟩
  · simp [isEnvelope, membersFor_cons, membersFor, findField_code, findField_message, hcm,
      hcm.symm, hcd, hmd]
  · simp [isEnvelope, membersFor_cons, membersFor, findField_code, findField_message,
      findField_data, hcm, hcm.symm, hcd, hcd.symm, hmd, hmd.symm]
  · simp at h

/-- C1 as stated fails: the body `{"code":1,"message":"No data in body","data":"x"}`
is a JSON envelope with a nonzero code, and `GetUserRank`, which asks for `data` to
be decoded into `[]UserRank`, returns the error of `json.Unmarshal`, whose text
is not the message of the envelope. -/
theorem handleResponse_decode_error_first :
    parseJSON exampleErrorBodyString =
      some (envelope (bytes "1") (bytes "No data in body") (.str (bytes "x"))) ∧
    parseInt64 (bytes "1") = some 1 ∧
    handleResponse exampleEnv .GetUserRank exampleErrorBodyString =
      .error (.unmarshalType (bytes "string") (bytes "acResp") (bytes "data")
        (bytes "[]sangfor.UserRank")) ∧
    (Error.unmarshalType (bytes "string") (bytes "acResp") (bytes "data")
        (bytes "[]sangfor.UserRank")).text =
      bytes "json: cannot unmarshal string into Go struct field acResp.data of type []sangfor.UserRank" ∧
    (Error.unmarshalType (bytes "string") (bytes "acResp") (bytes "data")
        (bytes "[]sangfor.UserRank")).text ≠ bytes "No data in body" := by
  refine ⟨rfl, by decide, rfl, by decide!, by decide!⟩

/-- C1, amended: for every endpoint binding and every response body such that
the bytes the binding hands to `json.Unmarshal` (the body, after `acFixJson` in
the bindings that normalise) are a JSON object read as an envelope (one member
stored into `code`, one into `message`, at most one into `data`, in any order
and with any other members among them) whose code is a nonzero integer in the
range of the Go type `int` (64 bits): when `data` is absent, or is decoded
without error into the payload holder of the binding, the binding returns an
error whose text is the message of the envelope; `null` is decoded without error
whatever the holder, and so is, in the bindings that supply no typed holder,
every value whose numbers are within the range of `float64`; when the decoding
of `data` into the holder fails, the binding returns the error of the decoder. -/
theorem handleResponse_remote_error (env : Env) (e : Endpoint) (body c m : Bytes) (n : Int)
    (ms : List (Bytes × JSON)) (dvals : List JSON)
    (hp : parseJSON (e.prepare body) = some (.obj ms)) (henv : isEnvelope ms c m dvals)
    (hc : parseInt64 c = some n) (hn : n ≠ 0) :
    ((dvals = [] ∨ ∃ d v, dvals = [d] ∧ decodeIntoHolder e.holder d = .ok v) →
      handleResponse env e body = .error (.new m) ∧ (Error.new m).text = m) ∧
    (∃ v, decodeIntoHolder e.holder .null = .ok v) ∧
    (∀ d, e.holder = none → floatsInRange d = true → ∃ v, decodeIntoHolder e.holder d = .ok v) ∧
    (∀ d err, dvals = [d] → decodeIntoHolder e.holder d = .error err →
      handleResponse env e body = .error err) := by
  have hne : body ≠ [] := prepare_ne_nil e body hp
  have hlen : ¬ (e.checksEmpty = true ∧ body.length = 0) := by
    intro h
    exact hne (List.length_eq_zero.1 h.2)
  have hu := unmarshalAcResp_members e.holder (e.prepare body) c m n ms dvals hp henv hc
  refine ⟨?_, decodeIntoHolder_null e.holder, ?_, ?_⟩
  · intro hd
    refine ⟨?_, rfl⟩
    rcases hd with hd | ⟨d, v, hd, hv⟩
    · subst hd
      simp only [handleResponse, hlen, if_false, hu, List.map_nil, decodeAcRespMembers, ne_eq, hn,
        not_false_eq_true, if_true]
    · subst hd
      obtain ⟨resp, hr, hcode, hmsg⟩ := (decodeData_init e.holder n m d).2 v hv
      simp only [handleResponse, hlen, if_false, hu, List.map_cons, List.map_nil,
        decodeAcRespMembers, decodeAcRespMember_data, hr, hcode, hmsg, ne_eq, hn,
        not_false_eq_true, if_true]
  · intro d hnone hd
    rw [hnone]
    exact valueInterface_ok _ d hd
  · intro d err hd herr
    subst hd
    have hr := (decodeData_init e.holder n m d).1 err herr
    simp only [handleResponse, hlen, if_false, hu, List.map_cons, List.map_nil,
      decodeAcRespMembers, decodeAcRespMember_data, hr]

/-- C1, amended, at `UserGet` (a binding that normalises and decodes into
`*UserDetail`) and the body `{"code":1,"message":"No data in body","data":null}`,
and at the same envelope with its members in another order,
`{"message":"No data in body","trace":[7],"data":null,"code":1}`. -/
theorem handleResponse_remote_error_witness :
    parseJSON (Endpoint.UserGet.prepare exampleErrorBody) =
      some (.obj [(bytes "code", .num (bytes "1")), (bytes "message",
        .str (bytes "No data in body")), (bytes "data", .null)]) ∧
    isEnvelope [(bytes "code", .num (bytes "1")), (bytes "message",
        .str (bytes "No data in body")), (bytes "data", .null)]
      (bytes "1") (bytes "No data in body") [.null] ∧
    parseJSON (Endpoint.UserGet.prepare exampleErrorBodyReordered) =
      some (.obj exampleReorderedMembers) ∧
    isEnvelope exampleReorderedMembers (bytes "1") (bytes "No data in body") [.null] ∧
    parseInt64 (bytes "1") = some 1 ∧ (1 : Int) ≠ 0 ∧
    decodeIntoHolder Endpoint.UserGet.holder .null = .ok .nil ∧
    handleResponse exampleEnv .UserGet exampleErrorBody =
      .error (.new (bytes "No data in body")) ∧
    handleResponse exampleEnv .UserGet exampleErrorBodyReordered =
      .error (.new (bytes "No data in body")) ∧
    (Error.new (bytes "No data in body")).text = bytes "No data in body" :=
  ⟨rfl, ⟨rfl, rfl, rfl, by decide⟩, rfl, ⟨rfl, rfl, rfl, by decide⟩, by decide, by decide, rfl,
    ((handleResponse_remote_error exampleEnv .UserGet exampleErrorBody (bytes "1")
      (bytes "No data in body") 1 _ [.null] rfl ⟨rfl, rfl, rfl, by decide⟩ (by decide)
      (by decide)).1 (Or.inr ⟨.null, .nil, rfl, rfl⟩)).1,
    ((handleResponse_remote_error exampleEnv .UserGet exampleErrorBodyReordered (bytes "1")
      (bytes "No data in body") 1 exampleReorderedMembers [.null] rfl
      ⟨rfl, rfl, rfl, by decide⟩ (by decide) (by decide)).1
      (Or.inr ⟨.null, .nil, rfl, rfl⟩)).1,
    rfl⟩

theorem send_result_of_sent {σ : Type} (R : RandSource σ) (env : Env) (ac : AC) (g : σ)
    (req : acReq) {h : HttpRequest} (hs : (send R env ac g req).sent = some h) :
    (send R env ac g req).result =
      match env.roundTrip h with
      | .error err => .error err
      | .ok body => if body.length = 0 then .error (.new (bytes "response nil")) else .ok body := by
  have hh := send_sent R env ac g req hs
  subst hh
  cases hnew : env.newRequest req.method
      (sendSignedUri env req (sendNonce R env ac g) (sendDigest R env ac g)) with
  | some err =>
    simp [send, sendNonce, sendDigest] at hs hnew
    simp [hnew] at hs
  | none =>
    simp only [sendNonce, sendDigest] at hnew ⊢
    simp only [send, hnew]
    cases hrt : env.roundTrip
        { method := req.method,
          url := sendSignedUri env req (setRandomKey R ac g env.now).1.1
            (setRandomKey R ac g env.now).1.2,
          body := sendBody env req (setRandomKey R ac g env.now).1.1
            (setRandomKey R ac g env.now).1.2,
          header := sendHeader ac } with
    | error err => rfl
    | ok body =>
      simp only
      split <;> rfl

theorem send_ok_ne_nil {σ : Type} (R : RandSource σ) (env : Env) (ac : AC) (g : σ)
    (req : acReq) {body : Bytes} (hr : (send R env ac g req).result = .ok body) :
    body.length ≠ 0 := by
  simp only [send] at hr
  split at hr
  · cases hr
  · split at hr
    · cases hr
    · split at hr
      · cases hr
      · rename_i hlen
        cases hr
        exact hlen

theorem handleResponse_eq_decodeResponse (env : Env) (e : Endpoint) (dataBytes : Bytes)
    (h : ¬ (e.checksEmpty = true ∧ dataBytes.length = 0)) :
    handleResponse env e dataBytes = decodeResponse env e dataBytes := by
  simp only [handleResponse, decodeResponse, h, if_false]

/-- C11: when the body of the HTTP response has length zero, `send` returns the
error `response nil` and no bytes, and every endpoint binding returns that error
without decoding anything. -/
theorem send_empty_body {σ : Type} (R : RandSource σ) (env : Env) (ac : AC) (g : σ)
    (req : acReq) (h : HttpRequest) (body : Bytes)
    (hs : (send R env ac g req).sent = some h) (hrt : env.roundTrip h = .ok body)
    (hlen : body.length = 0) :
    (send R env ac g req).result = .error (.new (bytes "response nil")) ∧
    (∀ e : Endpoint, respond env e (send R env ac g req).result =
      .error (.new (bytes "response nil"))) ∧
    (∀ c : Call, c.request ac = .ok req →
      (invoke R env ac g c).outcome = .error (.new (bytes "response nil"))) := by
  have hr : (send R env ac g req).result = .error (.new (bytes "response nil")) := by
    rw [send_result_of_sent R env ac g req hs, hrt]
    simp only [hlen, if_true]
  refine ⟨hr, ?_, ?_⟩
  · intro e
    rw [hr]
    rfl
  · intro c hc
    simp only [invoke, hc, hr]
    rfl

/-- C11 at `UserGet("admin")` on the example client, answered with an empty body. -/
theorem send_empty_body_witness :
    (send exampleRand (exampleEnvAnswering []) exampleAC 0 exampleUserGet).sent =
      some exampleGetRequest ∧
    (exampleEnvAnswering []).roundTrip exampleGetRequest = .ok [] ∧
    ([] : Bytes).length = 0 ∧
    ((send exampleRand (exampleEnvAnswering []) exampleAC 0 exampleUserGet).result =
      .error (.new (bytes "response nil")) ∧
    (∀ e : Endpoint,
      respond (exampleEnvAnswering []) e
        (send exampleRand (exampleEnvAnswering []) exampleAC 0 exampleUserGet).result =
      .error (.new (bytes "response nil"))) ∧
    (∀ c : Call, c.request exampleAC = .ok exampleUserGet →
      (invoke exampleRand (exampleEnvAnswering []) exampleAC 0 c).outcome =
        .error (.new (bytes "response nil")))) :=
  ⟨by decide!, rfl, rfl,
    send_empty_body exampleRand (exampleEnvAnswering []) exampleAC 0 exampleUserGet
      exampleGetRequest [] (by decide!) rfl rfl⟩

/-- C12: `UserAdd` called with an empty `Name` returns (the empty string and) the
error `cannot add user without username` without calling `send`, whatever the
rest of the argument; with a non-empty `Name` the check passes: a conversion
error is returned as it is, and otherwise `send` is called with the converted
argument as body fields. -/
theorem UserAdd_empty_name {σ : Type} (R : RandSource σ) (env : Env) (ac : AC) (g : σ)
    (converted : Converted) :
    (UserAdd R env ac g [] converted).outcome =
      .error (.new (bytes "cannot add user without username")) ∧
    (UserAdd R env ac g [] converted).sendResult = none ∧
    ∀ name : Bytes, name ≠ [] →
      (∀ err, converted = .error err → (UserAdd R env ac g name converted).outcome = .error err) ∧
      (∀ m, converted = .ok m →
        (UserAdd R env ac g name converted).sendResult =
          some (send R env ac g (acReq.mk (ac.baseUrl ++ acUser) acPost [] (some m)))) := by
  refine ⟨rfl, rfl, ?_⟩
  intro name hname
  constructor
  · intro err he
    subst he
    simp [UserAdd, invoke, Call.request, hname, convertedReq]
  · intro m hm
    subst hm
    simp [UserAdd, invoke, Call.request, hname, convertedReq]

/-- C12 at the example client, with the name `admin`. -/
theorem UserAdd_empty_name_witness :
    (UserAdd exampleRand exampleEnv exampleAC 0 [] (.ok [])).outcome =
      .error (.new (bytes "cannot add user without username")) ∧
    (UserAdd exampleRand exampleEnv exampleAC 0 [] (.ok [])).sendResult = none ∧
    ∀ name : Bytes, name ≠ [] →
      (∀ err, (.ok [] : Converted) = .error err →
        (UserAdd exampleRand exampleEnv exampleAC 0 name (.ok [])).outcome = .error err) ∧
      (∀ m, (.ok [] : Converted) = .ok m →
        (UserAdd exampleRand exampleEnv exampleAC 0 name (.ok [])).sendResult =
          some (send exampleRand exampleEnv exampleAC 0
            (acReq.mk (exampleAC.baseUrl ++ acUser) acPost [] (some m)))) :=
  UserAdd_empty_name exampleRand exampleEnv exampleAC 0 (.ok [])

/-- C16: every request that `send` hands to the HTTP client carries the header
`Content-Type: application/json`, and carries `Accept-Language: zh-CN` if and only
if the flag `ErrLangCN` of the client is true; when it is false there is no
`Accept-Language` header at all.  `NewAC` sets the flag. -/
theorem send_headers {σ : Type} (R : RandSource σ) (env : Env) (ac : AC) (g : σ)
    (req : acReq) (h : HttpRequest) (hs : (send R env ac g req).sent = some h) :
    mapGet h.header (bytes "Content-Type") = some (bytes "application/json") ∧
    (mapGet h.header (bytes "Accept-Language") = some (bytes "zh-CN") ↔ ac.ErrLangCN = true) ∧
    (ac.ErrLangCN = false → mapGet h.header (bytes "Accept-Language") = none) ∧
    ∀ target secret, (NewAC target secret).ErrLangCN = true := by
  have hh := send_sent R env ac g req hs
  subst hh
  have h1 : (bytes "Accept-Language" == bytes "Content-Type") = false := by decide
  have h2 : (bytes "Content-Type" == bytes "Accept-Language") = false := by decide
  cases hl : ac.ErrLangCN <;>
    simp [sendHeader, hl, mapGet, h1, h2, NewAC]

/-- C16 at `UserGet("admin")` on the example client. -/
theorem send_headers_witness :
    (send exampleRand exampleEnv exampleAC 0 exampleUserGet).sent = some exampleGetRequest ∧
    (mapGet exampleGetRequest.header (bytes "Content-Type") = some (bytes "application/json") ∧
    (mapGet exampleGetRequest.header (bytes "Accept-Language") = some (bytes "zh-CN") ↔
      exampleAC.ErrLangCN = true) ∧
    (exampleAC.ErrLangCN = false →
      mapGet exampleGetRequest.header (bytes "Accept-Language") = none) ∧
    ∀ target secret, (NewAC target secret).ErrLangCN = true) :=
  ⟨by decide!,
    send_headers exampleRand exampleEnv exampleAC 0 exampleUserGet exampleGetRequest
      (by decide!)⟩

theorem convertedReq_uri {uri method : Bytes} {query : List (Bytes × Bytes)} {data : Converted}
    {req : acReq} (h : convertedReq uri method query data = .ok req) : req.uri = uri := by
  cases data with
  | error e => simp [convertedReq] at h
  | ok m =>
    simp only [convertedReq, Except.ok.injEq] at h
    rw [← h]

/-- The request of every binding has the base URL of the client followed by the
endpoint suffix as its `uri`. -/
theorem request_uri (ac : AC) (c : Call) (req : acReq) (h : c.request ac = .ok req) :
    req.uri = ac.baseUrl ++ c.endpoint.suffix := by
  cases c <;>
    first
    | (simp only [Call.request, plainReq, Except.ok.injEq] at h; rw [← h]; rfl)
    | exact convertedReq_uri h
    | (simp only [Call.request] at h
       split at h
       · cases h
       · exact convertedReq_uri h)

/-- C17: for every target and secret, `NewAC(target, secret)` yields a client
whose base URL is `"http://" ++ target ++ "/v1/"` and whose secret is the given
secret, and the `uri` of the request of every binding, before query parameters
and signature are appended, is that base URL followed by the endpoint suffix;
`GetVersion` requests `"http://" ++ target ++ "/v1/status/version"`. -/
theorem NewAC_base_url (target secret : Bytes) :
    (NewAC target secret).baseUrl = bytes "http://" ++ target ++ bytes "/v1/" ∧
    (NewAC target secret).secret = secret ∧
    (∀ (c : Call) (req : acReq), c.request (NewAC target secret) = .ok req →
      req.uri = bytes "http://" ++ target ++ bytes "/v1/" ++ c.endpoint.suffix) ∧
    Call.GetVersion.request (NewAC target secret) =
      .ok (acReq.mk (bytes "http://" ++ target ++ bytes "/v1/" ++ bytes "status/version")
        (bytes "GET") [] none) :=
  ⟨rfl, rfl, fun c req h => request_uri (NewAC target secret) c req h, rfl⟩

/-- C17 at the target `192.168.1.1:9999`. -/
theorem NewAC_base_url_witness :
    (NewAC (bytes "192.168.1.1:9999") (bytes "s")).baseUrl = bytes "http://192.168.1.1:9999/v1/" ∧
    (Call.GroupDelete (bytes "/g")).request (NewAC (bytes "192.168.1.1:9999") (bytes "s")) =
      .ok (acReq.mk (bytes "http://192.168.1.1:9999/v1/group") (bytes "POST")
        [(bytes "_method", bytes "DELETE")] (some [(bytes "path", .str (bytes "/g"))])) ∧
    (acReq.mk (bytes "http://192.168.1.1:9999/v1/group") (bytes "POST")
        [(bytes "_method", bytes "DELETE")] (some [(bytes "path", .str (bytes "/g"))])).uri =
      bytes "http://" ++ bytes "192.168.1.1:9999" ++ bytes "/v1/" ++
        (Call.GroupDelete (bytes "/g")).endpoint.suffix :=
  ⟨by decide, rfl,
    (NewAC_base_url (bytes "192.168.1.1:9999") (bytes "s")).2.2.1 (.GroupDelete (bytes "/g")) _
      rfl⟩

/-- C19: whenever `send` returns without error, the bytes it returns are not
empty; so the test `len(dataBytes) == 0` that follows `send` in the bindings is
never true, and every binding goes on to decode the response. -/
theorem send_ok_nonempty {σ : Type} (R : RandSource σ) (env : Env) (ac : AC) (g : σ)
    (req : acReq) (body : Bytes) (hr : (send R env ac g req).result = .ok body) :
    body ≠ [] ∧
    ∀ e : Endpoint, ¬ (e.checksEmpty = true ∧ body.length = 0) ∧
      respond env e (send R env ac g req).result = decodeResponse env e body := by
  have hlen := send_ok_ne_nil R env ac g req hr
  refine ⟨fun h => hlen (by rw [h]; rfl), fun e => ?_⟩
  have hg : ¬ (e.checksEmpty = true ∧ body.length = 0) := fun h => hlen h.2
  refine ⟨hg, ?_⟩
  rw [hr]
  exact handleResponse_eq_decodeResponse env e body hg

/-- C19 at `GetVersion` on the example client, answered with a version. -/
theorem send_ok_nonempty_witness :
    (send exampleRand (exampleEnvAnswering exampleVersionBody) exampleAC 0
      (acReq.mk (exampleAC.baseUrl ++ acStatusVersion) acGet [] none)).result =
        .ok exampleVersionBody ∧
    (exampleVersionBody ≠ [] ∧
    ∀ e : Endpoint, ¬ (e.checksEmpty = true ∧ exampleVersionBody.length = 0) ∧
      respond (exampleEnvAnswering exampleVersionBody) e
        (send exampleRand (exampleEnvAnswering exampleVersionBody) exampleAC 0
          (acReq.mk (exampleAC.baseUrl ++ acStatusVersion) acGet [] none)).result =
        decodeResponse (exampleEnvAnswering exampleVersionBody) e exampleVersionBody) :=
  ⟨rfl,
    send_ok_nonempty exampleRand (exampleEnvAnswering exampleVersionBody) exampleAC 0
      (acReq.mk (exampleAC.baseUrl ++ acStatusVersion) acGet [] none) exampleVersionBody rfl⟩

/-! ## The error of a nonzero code -/

/-- The outcome of a binding on an envelope with a nonzero code whose `data` is
absent or is decoded without error: the error made of the message. -/
theorem handleResponse_nonzero_code (env : Env) (e : Endpoint) (body c m : Bytes) (n : Int)
    (ms : List (Bytes × JSON)) (dvals : List JSON)
    (hp : parseJSON (e.prepare body) = some (.obj ms)) (henv : isEnvelope ms c m dvals)
    (hc : parseInt64 c = some n) (hn : n ≠ 0)
    (hd : dvals = [] ∨ ∃ d v, dvals = [d] ∧ decodeIntoHolder e.holder d = .ok v) :
    handleResponse env e body = .error (.new m) := by
  have hne : body ≠ [] := prepare_ne_nil e body hp
  have hlen : ¬ (e.checksEmpty = true ∧ body.length = 0) := by
    intro h
    exact hne (List.length_eq_zero.1 h.2)
  have hu := unmarshalAcResp_members e.holder (e.prepare body) c m n ms dvals hp henv hc
  rcases hd with hd | ⟨d, v, hd, hv⟩
  · subst hd
    simp only [handleResponse, hlen, if_false, hu, List.map_nil, decodeAcRespMembers, ne_eq, hn,
      not_false_eq_true, if_true]
  · subst hd
    obtain ⟨resp, hr, hcode, hmsg⟩ := (decodeData_init e.holder n m d).2 v hv
    simp only [handleResponse, hlen, if_false, hu, List.map_cons, List.map_nil,
      decodeAcRespMembers, decodeAcRespMember_data, hr, hcode, hmsg, ne_eq, hn,
      not_false_eq_true, if_true]

/-- C13 as stated fails: the bodies `{"code":1,"message":"No data in body","data":null}`
and `{"code":2,"message":"No data in body","data":null}` are envelopes with the same
message and different nonzero codes, and `GetVersion` returns the same error for
both: the error is made of the message alone. -/
theorem handleResponse_code_lost :
    parseJSON exampleErrorBody = some (envelope (bytes "1") (bytes "No data in body") .null) ∧
    parseJSON exampleErrorBodyTwo = some (envelope (bytes "2") (bytes "No data in body") .null) ∧
    parseInt64 (bytes "1") = some 1 ∧ parseInt64 (bytes "2") = some 2 ∧
    handleResponse exampleEnv .GetVersion exampleErrorBody =
      .error (.new (bytes "No data in body")) ∧
    handleResponse exampleEnv .GetVersion exampleErrorBodyTwo =
      .error (.new (bytes "No data in body")) ∧
    handleResponse exampleEnv .GetVersion exampleErrorBody =
      handleResponse exampleEnv .GetVersion exampleErrorBodyTwo :=
  ⟨rfl, rfl, by decide, by decide, rfl, rfl, rfl⟩

/-- C13, amended: when the code of the envelope is a nonzero integer in the range
of the Go type `int` (and `data` is absent or decodes without error), the error
returned to the caller carries the message of the envelope and nothing else: it
is `errors.New(resp.Message)`, its text is the message, and two such envelopes
with the same message produce the same error whatever their codes, the order of
their members and the members that `acResp` has no field for. -/
theorem handleResponse_error_message_only (env : Env) (e : Endpoint)
    (body body' c c' m : Bytes) (n n' : Int) (ms ms' : List (Bytes × JSON))
    (dvals dvals' : List JSON)
    (hp : parseJSON (e.prepare body) = some (.obj ms)) (henv : isEnvelope ms c m dvals)
    (hp' : parseJSON (e.prepare body') = some (.obj ms')) (henv' : isEnvelope ms' c' m dvals')
    (hc : parseInt64 c = some n) (hn : n ≠ 0)
    (hc' : parseInt64 c' = some n') (hn' : n' ≠ 0)
    (hd : dvals = [] ∨ ∃ d v, dvals = [d] ∧ decodeIntoHolder e.holder d = .ok v)
    (hd' : dvals' = [] ∨ ∃ d v, dvals' = [d] ∧ decodeIntoHolder e.holder d = .ok v) :
    handleResponse env e body = .error (.new m) ∧
    handleResponse env e body' = .error (.new m) ∧
    handleResponse env e body = handleResponse env e body' ∧
    (Error.new m).text = m := by
  have h1 := handleResponse_nonzero_code env e body c m n ms dvals hp henv hc hn hd
  have h2 := handleResponse_nonzero_code env e body' c' m n' ms' dvals' hp' henv' hc' hn' hd'
  exact ⟨h1, h2, h1.trans h2.symm, rfl⟩

/-- C13, amended, at `GetVersion` and the codes 1 and 2. -/
theorem handleResponse_error_message_only_witness :
    parseJSON (Endpoint.GetVersion.prepare exampleErrorBody) =
      some (.obj [(bytes "code", .num (bytes "1")),
        (bytes "message", .str (bytes "No data in body")), (bytes "data", .null)]) ∧
    isEnvelope [(bytes "code", .num (bytes "1")),
        (bytes "message", .str (bytes "No data in body")), (bytes "data", .null)]
      (bytes "1") (bytes "No data in body") [.null] ∧
    parseJSON (Endpoint.GetVersion.prepare exampleErrorBodyTwo) =
      some (.obj [(bytes "code", .num (bytes "2")),
        (bytes "message", .str (bytes "No data in body")), (bytes "data", .null)]) ∧
    isEnvelope [(bytes "code", .num (bytes "2")),
        (bytes "message", .str (bytes "No data in body")), (bytes "data", .null)]
      (bytes "2") (bytes "No data in body") [.null] ∧
    parseInt64 (bytes "1") = some 1 ∧ (1 : Int) ≠ 0 ∧
    parseInt64 (bytes "2") = some 2 ∧ (2 : Int) ≠ 0 ∧
    decodeIntoHolder Endpoint.GetVersion.holder .null = .ok .nil ∧
    (handleResponse exampleEnv .GetVersion exampleErrorBody =
      .error (.new (bytes "No data in body")) ∧
    handleResponse exampleEnv .GetVersion exampleErrorBodyTwo =
      .error (.new (bytes "No data in body")) ∧
    handleResponse exampleEnv .GetVersion exampleErrorBody =
      handleResponse exampleEnv .GetVersion exampleErrorBodyTwo ∧
    (Error.new (bytes "No data in body")).text = bytes "No data in body") :=
  ⟨rfl, ⟨rfl, rfl, rfl, by decide⟩, rfl, ⟨rfl, rfl, rfl, by decide⟩,
    by decide, by decide, by decide, by decide, rfl,
    handleResponse_error_message_only exampleEnv .GetVersion exampleErrorBody
      exampleErrorBodyTwo (bytes "1") (bytes "2") (bytes "No data in body") 1 2 _ _
      [.null] [.null] rfl ⟨rfl, rfl, rfl, by decide⟩ rfl ⟨rfl, rfl, rfl, by decide⟩
      (by decide) (by decide) (by decide) (by decide)
      (Or.inr ⟨.null, .nil, rfl, rfl⟩) (Or.inr ⟨.null, .nil, rfl, rfl⟩)⟩

/-! ## Method tunnelling -/

theorem range_singleton (env : Env) (kv : Bytes × Bytes) : env.range [kv] = [kv] :=
  List.perm_singleton.1 (env.range_perm [kv])

theorem lit_method_query (verb : Bytes) :
    bytes "?" ++ join (bytes "&") [queryPair (bytes "_method", verb)] =
      bytes "?_method=" ++ verb := by
  have h1 : bytes "?_method=" = [63, 95, 109, 101, 116, 104, 111, 100, 61] := by decide
  have h2 : bytes "_method" = [95, 109, 101, 116, 104, 111, 100] := by decide
  simp [join, queryPair, lit_question, lit_equals, h1, h2]

/-- The request of a POST with the single query parameter `_method`. -/
theorem send_tunnelled {σ : Type} (R : RandSource σ) (env : Env) (ac : AC) (g : σ)
    (uri verb : Bytes) (d : List (Bytes × GoVal)) (h : HttpRequest) (hq : 63 ∉ uri)
    (hs : (send R env ac g (acReq.mk uri acPost [(bytes "_method", verb)] (some d))).sent =
      some h) :
    h.method = bytes "POST" ∧ h.url = uri ++ bytes "?_method=" ++ verb ∧
    h.body = marshalVal env.fmtFloat (.map (mapSet (mapSet d (bytes "random")
      (.str (sendNonce R env ac g))) (bytes "md5") (.str (sendDigest R env ac g)))) := by
  have hh := send_sent R env ac g _ hs
  subst hh
  have hpost : toUpper acPost = bytes "POST" := toUpper_POST
  have hget : toUpper acPost ≠ bytes "GET" := by decide
  refine ⟨rfl, ?_, ?_⟩
  · show sendSignedUri env (acReq.mk uri acPost [(bytes "_method", verb)] (some d))
      (sendNonce R env ac g) (sendDigest R env ac g) = _
    rw [sendSignedUri_not_get env _ _ _ hget, sendQueryUri_cons env _ (by simp) hq]
    simp only [range_singleton, List.map]
    rw [List.append_assoc, lit_method_query, ← List.append_assoc]
  · simp [sendBody, sendData, hpost]

theorem tunnelled_call_request (ac : AC) (c : Call) (hc : c.endpoint ∈ tunnelledEndpoints) :
    ∃ d : List (Bytes × GoVal),
      c.request ac = .ok (acReq.mk (ac.baseUrl ++ c.endpoint.suffix) acPost
        [(bytes "_method", tunnelledVerb c.endpoint)] (some d)) ∧
      ∀ path, c = .GroupDelete path → d = [(bytes "path", .str path)] := by
  cases c <;> simp only [tunnelledEndpoints, Call.endpoint, List.mem_cons, List.mem_singleton,
    List.not_mem_nil, or_false, reduceCtorEq, or_self, or_true, true_or] at hc
  · exact ⟨_, rfl, fun path hp => by cases hp⟩
  · exact ⟨_, rfl, fun path hp => by cases hp; rfl⟩
  · exact ⟨_, rfl, fun path hp => by cases hp⟩
  · exact ⟨_, rfl, fun path hp => by cases hp⟩
  · exact ⟨_, rfl, fun path hp => by cases hp⟩
  · exact ⟨_, rfl, fun path hp => by cases hp⟩

theorem question_not_mem_suffix (e : Endpoint) : 63 ∉ e.suffix := by
  cases e <;> decide

theorem encodeString_path_body (f : Bytes → Bytes) (path nonce digest : Bytes)
    (hn : ∀ b ∈ nonce, htmlSafe b = true) (hd : ∀ b ∈ digest, htmlSafe b = true) :
    marshalVal f (.map (mapSet (mapSet [(bytes "path", .str path)] (bytes "random")
      (.str nonce)) (bytes "md5") (.str digest))) =
    bytes "\x7b\"md5\":\"" ++ digest ++ bytes "\",\"path\":" ++ encodeString path ++
      bytes ",\"random\":\"" ++ nonce ++ bytes "\"\x7d" := by
  have e1 := encodeString_safe nonce hn
  have e2 := encodeString_safe digest hd
  have e3 : encodeString (bytes "md5") = bytes "\"md5\"" := by decide
  have e4 : encodeString (bytes "random") = bytes "\"random\"" := by decide
  have e5 : encodeString (bytes "path") = bytes "\"path\"" := by decide
  have o1 : bytesLt (bytes "path") (bytes "random") = true := by decide
  have o2 : bytesLt (bytes "path") (bytes "md5") = false := by decide
  have f1 : (bytes "path" != bytes "random") = true := by decide
  have f2 : (bytes "path" != bytes "md5") = true := by decide
  have f3 : (bytes "random" != bytes "md5") = true := by decide
  have l1 : bytes "\x7b\"md5\":\"" = [123, 34, 109, 100, 53, 34, 58, 34] := by decide
  have l2 : bytes "\",\"path\":" = [34, 44, 34, 112, 97, 116, 104, 34, 58] := by decide
  have l3 : bytes ",\"random\":\"" = [44, 34, 114, 97, 110, 100, 111, 109, 34, 58, 34] := by
    decide
  have l4 : bytes "\"\x7d" = [34, 125] := by decide
  have l5 : bytes "\"md5\"" = [34, 109, 100, 53, 34] := by decide
  have l6 : bytes "\"random\"" = [34, 114, 97, 110, 100, 111, 109, 34] := by decide
  have l7 : bytes "\"path\"" = [34, 112, 97, 116, 104, 34] := by decide
  simp only [marshalVal, marshalFields, mapSet, List.filter_nil, List.filter_cons, f1, f2, f3,
    if_true, sortByKey, List.foldr, insertByKey, o1, o2, List.map, encodeMember, join, e1,
    e2, e3, e4, e5]
  simp [l1, l2, l3, l4, l5, l6, l7]

/-- On the client `NewAC("h?x", "s")`, whose target is not of the documented form
`ip:port` and whose base URL contains a `?`, `GroupDelete("/g")` is posted to the
base URL and suffix followed by `&_method=DELETE`, not by `?_method=DELETE`. -/
theorem tunnelled_ampersand :
    (GroupDelete exampleRand exampleEnv (NewAC (bytes "h?x") (bytes "s")) 0
      (bytes "/g")).sent.map (fun h => h.url) =
      some ((NewAC (bytes "h?x") (bytes "s")).baseUrl ++ acGroup ++ bytes "&_method=DELETE") ∧
    (NewAC (bytes "h?x") (bytes "s")).baseUrl ++ acGroup ++ bytes "&_method=DELETE" ≠
      (NewAC (bytes "h?x") (bytes "s")).baseUrl ++ acGroup ++ bytes "?_method=DELETE" := by
  decide!

theorem querySep_suffix (ac : AC) (e : Endpoint) :
    querySep (ac.baseUrl ++ e.suffix) = querySep ac.baseUrl := by
  have hs := question_not_mem_suffix e
  simp only [querySep, List.mem_append, hs, or_false]

/-- The URI of a POST with the single query parameter `_method`, whatever the `uri`. -/
theorem send_tunnelled_uri {σ : Type} (R : RandSource σ) (env : Env) (ac : AC) (g : σ)
    (uri verb : Bytes) (d : List (Bytes × GoVal)) (h : HttpRequest)
    (hs : (send R env ac g (acReq.mk uri acPost [(bytes "_method", verb)] (some d))).sent =
      some h) :
    h.method = bytes "POST" ∧ h.url = uri ++ querySep uri ++ bytes "_method=" ++ verb ∧
    h.body = marshalVal env.fmtFloat (.map (mapSet (mapSet d (bytes "random")
      (.str (sendNonce R env ac g))) (bytes "md5") (.str (sendDigest R env ac g)))) := by
  have hh := send_sent R env ac g _ hs
  subst hh
  have hpost : toUpper acPost = bytes "POST" := toUpper_POST
  have hget : toUpper acPost ≠ bytes "GET" := by decide
  have h1 : bytes "_method" ++ bytes "=" = bytes "_method=" := by decide
  refine ⟨rfl, ?_, ?_⟩
  · dsimp only
    rw [sendSignedUri_not_get env _ _ _ hget]
    simp only [sendQueryUri, List.length_singleton, gt_iff_lt, Nat.lt_one_iff, if_true,
      range_singleton, List.map_cons, List.map_nil, join, queryPair, ← h1, List.append_assoc,
      Nat.zero_lt_one]
  · simp [sendBody, sendData, hpost]

/-- C15: every binding whose logical verb is DELETE or PUT (`UserDel`,
`GroupDelete`, `GroupPut`, `BindUserDel`, `BindIpmacDel`, `OnlineUserKick`) is sent
with HTTP method POST to the base URL, the suffix, the separator of `send`,
`_method=` and the verb, copied unmodified; the separator is `?`, so that the URI
is `<base><suffix>?_method=<VERB>`, on every client whose base URL contains no `?`,
which is the case of every client that `NewAC` makes from a target without
`?`, such as an `ip:port`; the signature is in the JSON body, which serialises
the body fields of the binding with `random` and `md5` set, and not in the URI;
`GroupDelete(path)` posts to `<base>group?_method=DELETE` the body
`{"md5":"<digest>","path":<path>,"random":"<nonce>"}`. -/
theorem tunnelled_request {σ : Type} (R : RandSource σ) (env : Env) (ac : AC) (g : σ)
    (c : Call) (h : HttpRequest) (hc : c.endpoint ∈ tunnelledEndpoints)
    (hs : (invoke R env ac g c).sent = some h) :
    h.method = bytes "POST" ∧
    h.url = ac.baseUrl ++ c.endpoint.suffix ++ querySep ac.baseUrl ++ bytes "_method=" ++
      tunnelledVerb c.endpoint ∧
    (63 ∉ ac.baseUrl →
      h.url = ac.baseUrl ++ c.endpoint.suffix ++ bytes "?_method=" ++ tunnelledVerb c.endpoint) ∧
    (∀ target secret : Bytes, 63 ∉ target → 63 ∉ (NewAC target secret).baseUrl) ∧
    (∃ d : List (Bytes × GoVal),
      (∃ req, c.request ac = .ok req ∧ req.Data = some d) ∧
      h.body = marshalVal env.fmtFloat (.map (mapSet (mapSet d (bytes "random")
        (.str (sendNonce R env ac g))) (bytes "md5") (.str (sendDigest R env ac g))))) ∧
    (∀ path, c = .GroupDelete path →
      (63 ∉ ac.baseUrl → h.url = ac.baseUrl ++ bytes "group?_method=DELETE") ∧
      h.body = bytes "\x7b\"md5\":\"" ++ sendDigest R env ac g ++ bytes "\",\"path\":" ++
        encodeString path ++ bytes ",\"random\":\"" ++ sendNonce R env ac g ++
        bytes "\"\x7d") := by
  have hsafeN : ∀ b ∈ sendNonce R env ac g, htmlSafe b = true :=
    fun b hb => htmlSafe_of_isDigit (sendNonce_isDigit R env ac g b hb)
  have hsafeD : ∀ b ∈ sendDigest R env ac g, htmlSafe b = true :=
    fun b hb => htmlSafe_of_isLowerHex (sendDigest_isLowerHex R env ac g b hb)
  have hgd : bytes "group?_method=DELETE" = acGroup ++ bytes "?_method=" ++ bytes "DELETE" := by
    decide
  have hqm : bytes "?" ++ bytes "_method=" = bytes "?_method=" := by decide
  obtain ⟨d, hreq, hpath⟩ := tunnelled_call_request ac c hc
  simp only [CallResult.sent, invoke, hreq, Option.bind] at hs
  obtain ⟨h1, h2, h3⟩ := send_tunnelled_uri R env ac g _ _ _ h hs
  rw [querySep_suffix] at h2
  have h2q : 63 ∉ ac.baseUrl →
      h.url = ac.baseUrl ++ c.endpoint.suffix ++ bytes "?_method=" ++ tunnelledVerb c.endpoint := by
    intro hq
    rw [h2, querySep_of_not_mem hq, ← hqm]
    simp only [List.append_assoc]
  have hnew : ∀ target secret : Bytes, 63 ∉ target → 63 ∉ (NewAC target secret).baseUrl := by
    intro target secret ht
    have ha : 63 ∉ bytes "http://" := by decide
    have hb : 63 ∉ bytes "/v1/" := by decide
    simp only [NewAC, List.mem_append, not_or]
    exact ⟨⟨ha, ht⟩, hb⟩
  refine ⟨h1, h2, h2q, hnew, ⟨d, ⟨_, hreq, rfl⟩, h3⟩, ?_⟩
  intro path hp
  have hd := hpath path hp
  subst hp
  subst hd
  refine ⟨?_, ?_⟩
  · intro hq
    rw [h2q hq, hgd]
    simp [Call.endpoint, Endpoint.suffix, tunnelledVerb, List.append_assoc]
  · rw [h3]
    exact encodeString_path_body env.fmtFloat _ _ _ hsafeN hsafeD

/-- C15 at `GroupDelete("/g")` on the example client, whose target is
`192.168.1.1:9999`. -/
theorem tunnelled_request_witness :
    exampleAC.baseUrl = (NewAC (bytes "192.168.1.1:9999") exampleAC.secret).baseUrl ∧
    63 ∉ bytes "192.168.1.1:9999" ∧
    63 ∉ exampleAC.baseUrl ∧ (Call.GroupDelete (bytes "/g")).endpoint ∈ tunnelledEndpoints ∧
    (invoke exampleRand exampleEnv exampleAC 0 (.GroupDelete (bytes "/g"))).sent =
      some exampleGroupDeleteRequest ∧
    exampleGroupDeleteRequest.method = bytes "POST" ∧
    exampleGroupDeleteRequest.url = exampleAC.baseUrl ++
      (Call.GroupDelete (bytes "/g")).endpoint.suffix ++ bytes "?_method=" ++
      tunnelledVerb (Call.GroupDelete (bytes "/g")).endpoint ∧
    exampleGroupDeleteRequest.url = exampleAC.baseUrl ++ bytes "group?_method=DELETE" :=
  ⟨by decide, by decide, by decide, by decide, by decide!,
    (tunnelled_request exampleRand exampleEnv exampleAC 0 (.GroupDelete (bytes "/g"))
      exampleGroupDeleteRequest (by decide) (by decide!)).1,
    (tunnelled_request exampleRand exampleEnv exampleAC 0 (.GroupDelete (bytes "/g"))
      exampleGroupDeleteRequest (by decide) (by decide!)).2.2.1 (by decide),
    ((tunnelled_request exampleRand exampleEnv exampleAC 0 (.GroupDelete (bytes "/g"))
      exampleGroupDeleteRequest (by decide) (by decide!)).2.2.2.2.2 (bytes "/g") rfl).1
      (by decide)⟩

/-! ## The type assertions of the scalar bindings -/

theorem scalar_endpoint (e : Endpoint)
    (h : e.resultKind = .assertString ∨ e.resultKind = .assertFloat) :
    e.holder = none ∧ e.normalises = false := by
  cases e <;> simp [Endpoint.resultKind] at h <;> exact ⟨rfl, rfl⟩

theorem valueInterface_str (ctx : ErrorContext) (d : JSON) (s : Bytes)
    (h : valueInterface ctx d = .ok (.str s)) : d = .str s := by
  cases d with
  | null => simp [valueInterface] at h
  | bool b => simp [valueInterface] at h
  | num lit =>
    simp only [valueInterface] at h
    split at h <;> simp at h
  | str x =>
    simp only [valueInterface, Except.ok.injEq, GoVal.str.injEq] at h
    rw [h]
  | arr xs =>
    simp only [valueInterface] at h
    cases h2 : arrayInterface ctx xs <;> simp [h2, Except.map] at h
  | obj ms =>
    simp only [valueInterface] at h
    cases h2 : objectInterface ctx ms [] <;> simp [h2, Except.map] at h

theorem valueInterface_float (ctx : ErrorContext) (d : JSON) (lit : Bytes)
    (h : valueInterface ctx d = .ok (.float lit)) : d = .num lit := by
  cases d with
  | null => simp [valueInterface] at h
  | bool b => simp [valueInterface] at h
  | num x =>
    simp only [valueInterface] at h
    split at h
    · simp at h
    · simp only [Except.ok.injEq, GoVal.float.injEq] at h
      rw [h]
  | str x => simp [valueInterface] at h
  | arr xs =>
    simp only [valueInterface] at h
    cases h2 : arrayInterface ctx xs <;> simp [h2, Except.map] at h
  | obj ms =>
    simp only [valueInterface] at h
    cases h2 : objectInterface ctx ms [] <;> simp [h2, Except.map] at h

mutual
/-- Decoding into the empty interface fails on a value that holds a number
outside the range of `float64`. -/
theorem valueInterface_fails (ctx : ErrorContext) :
    ∀ d : JSON, floatsInRange d = false → ∃ err, valueInterface ctx d = .error err
  | .null, h => by simp [floatsInRange] at h
  | .bool _, h => by simp [floatsInRange] at h
  | .str _, h => by simp [floatsInRange] at h
  | .num lit, h => by
    simp only [floatsInRange, Bool.not_eq_false'] at h
    exact ⟨_, by simp only [valueInterface, h]; rfl⟩
  | .arr xs, h => by
    simp only [floatsInRange] at h
    obtain ⟨err, he⟩ := arrayInterface_fails ctx xs h
    exact ⟨err, by simp only [valueInterface, he]; rfl⟩
  | .obj ms, h => by
    simp only [floatsInRange] at h
    obtain ⟨err, he⟩ := objectInterface_fails ctx ms [] h
    exact ⟨err, by simp only [valueInterface, he]; rfl⟩
theorem arrayInterface_fails (ctx : ErrorContext) :
    ∀ xs : List JSON, elementsInRange xs = false → ∃ err, arrayInterface ctx xs = .error err
  | [], h => by simp [elementsInRange] at h
  | x :: xs, h => by
    cases hx : floatsInRange x with
    | false =>
      obtain ⟨err, he⟩ := valueInterface_fails ctx x hx
      exact ⟨err, by simp only [arrayInterface, he]⟩
    | true =>
      simp only [elementsInRange, hx, Bool.true_and] at h
      obtain ⟨v, hv⟩ := valueInterface_ok ctx x hx
      obtain ⟨err, he⟩ := arrayInterface_fails ctx xs h
      exact ⟨err, by simp only [arrayInterface, hv, he]; rfl⟩
theorem objectInterface_fails (ctx : ErrorContext) :
    ∀ (ms : List (Bytes × JSON)) (acc : List (Bytes × GoVal)), membersInRange ms = false →
      ∃ err, objectInterface ctx ms acc = .error err
  | [], _, h => by simp [membersInRange] at h
  | (k, x) :: ms, acc, h => by
    cases hx : floatsInRange x with
    | false =>
      obtain ⟨err, he⟩ := valueInterface_fails ctx x hx
      exact ⟨err, by simp only [objectInterface, he]⟩
    | true =>
      simp only [membersInRange, hx, Bool.true_and] at h
      obtain ⟨v, hv⟩ := valueInterface_ok ctx x hx
      obtain ⟨err, he⟩ := objectInterface_fails ctx ms (mapSet acc k v) h
      exact ⟨err, by simp only [objectInterface, hv, he]⟩
end

/-- The outcome of a binding without typed holder on an envelope with code 0,
by the result of decoding `data` into the empty interface. -/
theorem handleResponse_untyped (env : Env) (e : Endpoint) (body c m : Bytes)
    (ms : List (Bytes × JSON)) (dvals : List JSON)
    (hh : e.holder = none) (hnorm : e.normalises = false)
    (hp : parseJSON body = some (.obj ms)) (henv : isEnvelope ms c m dvals)
    (hc : parseInt64 c = some 0) :
    (dvals = [] →
      handleResponse env e body = match e.resultKind with
        | .assertString => .panic
        | .assertFloat => .panic
        | .payload => .ok .nil
        | .nothing => .ok .nil) ∧
    (∀ d v, dvals = [d] →
      valueInterface (acRespContext (bytes "data")) d = .ok v →
      handleResponse env e body = match e.resultKind with
        | .assertString => (match v with
          | .str s => .ok (.str s)
          | _ => .panic)
        | .assertFloat => (match v with
          | .float lit => .ok (.int (env.floatToInt lit))
          | _ => .panic)
        | .payload => .ok .nil
        | .nothing => .ok .nil) ∧
    (∀ d err, dvals = [d] →
      valueInterface (acRespContext (bytes "data")) d = .error err →
      handleResponse env e body = .error err) := by
  have hprep : e.prepare body = body := by simp [Endpoint.prepare, hnorm]
  have hne : body ≠ [] := prepare_ne_nil e body (by rw [hprep]; exact hp)
  have hlen : ¬ (e.checksEmpty = true ∧ body.length = 0) :=
    fun h => hne (List.length_eq_zero.1 h.2)
  have hu := unmarshalAcResp_members none body c m 0 ms dvals hp henv hc
  refine ⟨?_, ?_, ?_⟩
  · intro hd
    subst hd
    simp only [handleResponse, hlen, if_false, hprep, hh, hu, List.map_nil, decodeAcRespMembers,
      acResp.init]
    cases e.resultKind <;> simp
  · intro d v hd hv
    subst hd
    simp only [handleResponse, hlen, if_false, hprep, hh, hu, List.map_cons, List.map_nil,
      decodeAcRespMembers, decodeAcRespMember_data, acResp.init, decodeData, hv, Except.map]
    cases e.resultKind <;> cases v <;> simp
  · intro d err hd herr
    subst hd
    simp only [handleResponse, hlen, if_false, hprep, hh, hu, List.map_cons, List.map_nil,
      decodeAcRespMembers, decodeAcRespMember_data, acResp.init, decodeData, herr, Except.map]

/-- C20 as stated fails: the body `{"code":0,"message":"","data":1e999}` is an
envelope with code 0 whose data is not a string, and `GetVersion` does not panic
on it: `json.Unmarshal` fails on the number, which is outside the range of
`float64`, and the binding returns that error. -/
theorem GetVersion_huge_number_no_panic :
    parseJSON exampleHugeNumberBody = some (envelope (bytes "0") [] (.num (bytes "1e999"))) ∧
    parseInt64 (bytes "0") = some 0 ∧
    handleResponse exampleEnv .GetVersion exampleHugeNumberBody =
      .error (.unmarshalType (bytes "number 1e999") (bytes "acResp") (bytes "data")
        (bytes "float64")) := by
  refine ⟨rfl, by decide, ?_⟩
  have hf : floatOverflows (bytes "1e999") = true := by decide!
  have h := (handleResponse_untyped exampleEnv .GetVersion exampleHugeNumberBody (bytes "0") []
    _ [.num (bytes "1e999")] rfl rfl rfl ⟨rfl, rfl, rfl, by decide⟩ (by decide)).2.2
    (.num (bytes "1e999")) _ rfl (by simp only [valueInterface, hf]; rfl)
  exact h

/-- C20, amended: in the scalar-returning bindings (those that assert a string,
such as `GetVersion`, `GetSysTime`, `UserAdd`, `GroupAdd`, and those that assert
a number, such as `GetOnlineUserCount`, `GetCpuUsage`), on an envelope with code 0
(its members in any order, with any members that `acResp` has no field for):
when `data` is a JSON string, respectively a JSON number within the range of
`float64`, the assertion succeeds and the value is returned; when `data` is
absent, `null` or of another kind, the assertion fails and the binding panics
instead of returning an error, provided every number in `data` is within the
range of `float64`; when `data` is or holds a number outside that range,
`json.Unmarshal` fails before the assertion and the binding returns its error
without panicking, for a number that is `data` itself the `UnmarshalTypeError`
of that number. -/
theorem scalar_assertion (env : Env) (e : Endpoint) (body c m : Bytes)
    (ms : List (Bytes × JSON)) (dvals : List JSON)
    (hp : parseJSON body = some (.obj ms)) (henv : isEnvelope ms c m dvals)
    (hc : parseInt64 c = some 0) :
    (e.resultKind = .assertString →
      (∀ s, dvals = [.str s] → handleResponse env e body = .ok (.str s)) ∧
      (dvals = [] → handleResponse env e body = .panic) ∧
      (dvals = [.null] → handleResponse env e body = .panic) ∧
      (∀ d, dvals = [d] → (∀ s, d ≠ .str s) → floatsInRange d = true →
        handleResponse env e body = .panic)) ∧
    (e.resultKind = .assertFloat →
      (∀ lit, dvals = [.num lit] → floatOverflows lit = false →
        handleResponse env e body = .ok (.int (env.floatToInt lit))) ∧
      (dvals = [] → handleResponse env e body = .panic) ∧
      (dvals = [.null] → handleResponse env e body = .panic) ∧
      (∀ d, dvals = [d] → (∀ lit, d ≠ .num lit) → floatsInRange d = true →
        handleResponse env e body = .panic)) ∧
    (e.resultKind = .assertString ∨ e.resultKind = .assertFloat →
      (∀ d err, dvals = [d] →
        valueInterface (acRespContext (bytes "data")) d = .error err →
        handleResponse env e body = .error err) ∧
      (∀ d, dvals = [d] → floatsInRange d = false →
        ∃ err, handleResponse env e body = .error err) ∧
      (∀ lit, dvals = [.num lit] → floatOverflows lit = true →
        handleResponse env e body =
          .error (.unmarshalType (bytes "number " ++ lit) (bytes "acResp") (bytes "data")
            (bytes "float64")))) := by
  have key : ∀ hk : e.resultKind = .assertString ∨ e.resultKind = .assertFloat, _ :=
    fun hk => handleResponse_untyped env e body c m ms dvals (scalar_endpoint e hk).1
      (scalar_endpoint e hk).2 hp henv hc
  refine ⟨?_, ?_, ?_⟩
  · intro hk
    obtain ⟨k1, k2, -⟩ := key (Or.inl hk)
    rw [hk] at k1 k2
    have hother : ∀ d, dvals = [d] → (∀ s, d ≠ .str s) →
        floatsInRange d = true → handleResponse env e body = .panic := by
      intro d hd hns hr
      obtain ⟨v, hv⟩ := valueInterface_ok (acRespContext (bytes "data")) d hr
      rw [k2 d v hd hv]
      cases v with
      | str s => exact absurd (valueInterface_str _ d s hv) (hns s)
      | _ => rfl
    refine ⟨?_, k1, ?_, hother⟩
    · intro s hd
      exact k2 (.str s) (.str s) hd rfl
    · intro hd
      exact hother .null hd (fun s hs => by cases hs) rfl
  · intro hk
    obtain ⟨k1, k2, -⟩ := key (Or.inr hk)
    rw [hk] at k1 k2
    have hother : ∀ d, dvals = [d] → (∀ lit, d ≠ .num lit) →
        floatsInRange d = true → handleResponse env e body = .panic := by
      intro d hd hns hr
      obtain ⟨v, hv⟩ := valueInterface_ok (acRespContext (bytes "data")) d hr
      rw [k2 d v hd hv]
      cases v with
      | float lit => exact absurd (valueInterface_float _ d lit hv) (hns lit)
      | _ => rfl
    refine ⟨?_, k1, ?_, hother⟩
    · intro lit hd hf
      exact k2 (.num lit) (.float lit) hd (by simp only [valueInterface, hf]; rfl)
    · intro hd
      exact hother .null hd (fun s hs => by cases hs) rfl
  · intro hk
    have k3 := (key hk).2.2
    refine ⟨k3, ?_, ?_⟩
    · intro d hd hr
      obtain ⟨err, he⟩ := valueInterface_fails (acRespContext (bytes "data")) d hr
      exact ⟨err, k3 d err hd he⟩
    · intro lit hd hf
      exact k3 (.num lit) _ hd (by simp only [valueInterface, hf]; rfl)

/-- C20, amended, at `GetVersion`: the body `{"code":0,"message":"","data":null}`
panics, the body `{"code":0,"message":"","data":1e999}` returns the error of the
decoder. -/
theorem scalar_assertion_witness :
    parseJSON exampleNullBody =
      some (.obj [(bytes "code", .num (bytes "0")), (bytes "message", .str []),
        (bytes "data", .null)]) ∧
    isEnvelope [(bytes "code", .num (bytes "0")), (bytes "message", .str []),
        (bytes "data", .null)] (bytes "0") [] [.null] ∧
    parseJSON exampleHugeNumberBody =
      some (.obj [(bytes "code", .num (bytes "0")), (bytes "message", .str []),
        (bytes "data", .num (bytes "1e999"))]) ∧
    isEnvelope [(bytes "code", .num (bytes "0")), (bytes "message", .str []),
        (bytes "data", .num (bytes "1e999"))] (bytes "0") [] [.num (bytes "1e999")] ∧
    parseInt64 (bytes "0") = some 0 ∧
    Endpoint.GetVersion.resultKind = .assertString ∧
    floatOverflows (bytes "1e999") = true ∧
    handleResponse exampleEnv .GetVersion exampleNullBody = .panic ∧
    handleResponse exampleEnv .GetVersion exampleHugeNumberBody =
      .error (.unmarshalType (bytes "number " ++ bytes "1e999") (bytes "acResp") (bytes "data")
        (bytes "float64")) :=
  ⟨rfl, ⟨rfl, rfl, rfl, by decide⟩, rfl, ⟨rfl, rfl, rfl, by decide⟩, by decide, rfl, by decide!,
    ((scalar_assertion exampleEnv .GetVersion exampleNullBody (bytes "0") [] _
      [.null] rfl ⟨rfl, rfl, rfl, by decide⟩ (by decide)).1 rfl).2.2.1 rfl,
    ((scalar_assertion exampleEnv .GetVersion exampleHugeNumberBody (bytes "0") [] _
      [.num (bytes "1e999")] rfl ⟨rfl, rfl, rfl, by decide⟩ (by decide)).2.2
      (Or.inl rfl)).2.2 (bytes "1e999") rfl (by decide!)⟩

/-! ## The rewrite of `acFixJson`, position by position -/

set_option maxRecDepth 100000 in
theorem table_brackets :
    (acFixPairs.all fun p => decide (2 ≤ p.1.length) &&
      (List.range p.1.length).all fun i =>
        p.2[i]? == (if i + 1 = p.1.length then some 93
          else if i + 2 = p.1.length then some 91 else p.1[i]?)) = true := by
  decide

theorem pair_brackets {p : Bytes × Bytes} (hp : p ∈ acFixPairs) :
    2 ≤ p.1.length ∧ ∀ i, i < p.1.length →
      p.2[i]? = (if i + 1 = p.1.length then some 93
        else if i + 2 = p.1.length then some 91 else p.1[i]?) := by
  have h := table_brackets
  simp only [List.all_eq_true, Bool.and_eq_true, decide_eq_true_eq, List.mem_range,
    beq_iff_eq] at h
  exact h p hp

theorem occurrenceEndsAt_iff (x : Bytes) (j : Nat) :
    occurrenceEndsAt x j = true ↔
      ∃ p ∈ acFixPairs, p.1.length ≤ j ∧ p.1 <+: x.drop (j - p.1.length) := by
  unfold occurrenceEndsAt
  rw [acFixPairs_eq_map]
  simp only [List.any_eq_true, Bool.and_eq_true, decide_eq_true_eq, List.isPrefixOf_iff_prefix,
    List.mem_map]
  constructor
  · rintro ⟨k, hk, h1, h2⟩
    exact ⟨_, ⟨k, hk, rfl⟩, h1, h2⟩
  · rintro ⟨p, ⟨k, hk, rfl⟩, h1, h2⟩
    exact ⟨k, hk, h1, h2⟩

theorem occurrenceEndsAt_lt_two (x : Bytes) {j : Nat} (hj : j < 2) :
    occurrenceEndsAt x j = false := by
  cases h : occurrenceEndsAt x j with
  | false => rfl
  | true =>
    obtain ⟨p, hp, h1, -⟩ := (occurrenceEndsAt_iff x j).1 h
    have := (pair_brackets hp).1
    omega

/-- An old string that starts inside an occurrence of an old string is that occurrence. -/
theorem starts_in_pair {p q : Bytes × Bytes} (hp : p ∈ acFixPairs) (hq : q ∈ acFixPairs)
    (rest : Bytes) (m : Nat) (h : q.1 <+: (p.1 ++ rest).drop m) :
    (m = 0 ∧ q = p) ∨ p.1.length ≤ m := by
  by_cases hm : p.1.length ≤ m
  · exact Or.inr hm
  · left
    have hm2 : m < p.1.length := not_le.1 hm
    rcases Nat.eq_zero_or_pos m with h0 | h0
    · subst h0
      exact ⟨rfl, pair_unique hq hp h (List.prefix_append _ _)⟩
    · exfalso
      rw [List.drop_append_of_le_length (le_of_lt hm2)] at h
      obtain ⟨t, ht⟩ := h
      exact clash_ne _ _ _ _ (pair_overlap_clash hp hq h0 hm2) ht.symm

theorem occurrenceEndsAt_cons {c : Nat} {cs : Bytes}
    (h : genericLookup acFixPairs (c :: cs) = none) (j : Nat) :
    occurrenceEndsAt (c :: cs) (j + 1) = occurrenceEndsAt cs j := by
  rw [Bool.eq_iff_iff, occurrenceEndsAt_iff, occurrenceEndsAt_iff]
  constructor
  · rintro ⟨p, hp, h1, h2⟩
    have hne : p.1.length ≠ j + 1 := by
      intro he
      rw [he, Nat.sub_self, List.drop_zero] at h2
      exact lookup_none h p hp h2
    refine ⟨p, hp, by omega, ?_⟩
    have : j + 1 - p.1.length = (j - p.1.length) + 1 := by omega
    rwa [this, List.drop_succ_cons] at h2
  · rintro ⟨p, hp, h1, h2⟩
    refine ⟨p, hp, by omega, ?_⟩
    have : j + 1 - p.1.length = (j - p.1.length) + 1 := by omega
    rwa [this, List.drop_succ_cons]

theorem occurrenceEndsAt_pair_le {p : Bytes × Bytes} (hp : p ∈ acFixPairs) (rest : Bytes)
    {j : Nat} (hj : j ≤ p.1.length) :
    occurrenceEndsAt (p.1 ++ rest) j = decide (j = p.1.length) := by
  rw [Bool.eq_iff_iff, occurrenceEndsAt_iff, decide_eq_true_eq]
  constructor
  · rintro ⟨q, hq, h1, h2⟩
    have hpos := (pair_shape hq).2.1
    rcases starts_in_pair hp hq rest _ h2 with ⟨h0, hqp⟩ | h3
    · subst hqp
      omega
    · omega
  · intro he
    refine ⟨p, hp, by omega, ?_⟩
    rw [he, Nat.sub_self, List.drop_zero]
    exact List.prefix_append _ _

theorem occurrenceEndsAt_pair_gt {p : Bytes × Bytes} (hp : p ∈ acFixPairs) (rest : Bytes)
    {j : Nat} (hj : 0 < j) :
    occurrenceEndsAt (p.1 ++ rest) (p.1.length + j) = occurrenceEndsAt rest j := by
  rw [Bool.eq_iff_iff, occurrenceEndsAt_iff, occurrenceEndsAt_iff]
  constructor
  · rintro ⟨q, hq, h1, h2⟩
    rcases starts_in_pair hp hq rest _ h2 with ⟨h0, hqp⟩ | h3
    · subst hqp
      omega
    · refine ⟨q, hq, by omega, ?_⟩
      rw [List.drop_append_eq_append_drop, List.drop_eq_nil_of_le h3, List.nil_append] at h2
      have : p.1.length + j - q.1.length - p.1.length = j - q.1.length := by omega
      rwa [this] at h2
  · rintro ⟨q, hq, h1, h2⟩
    refine ⟨q, hq, by omega, ?_⟩
    rw [List.drop_append_eq_append_drop, List.drop_eq_nil_of_le (by omega), List.nil_append]
    have : p.1.length + j - q.1.length - p.1.length = j - q.1.length := by omega
    rwa [this]

theorem acFixJson_length (x : Bytes) : (acFixJson x).length = x.length :=
  (List.Forall₂.length_eq (acFixJson_forall₂ x)).symm

/-- The output byte at every position of the input. -/
theorem acFixJson_byte_at :
    ∀ (s : Bytes) (i : Nat), i < s.length → (acFixJson s)[i]? = rewrittenByte s i := by
  apply acFixJson_induction
  · intro i hi
    exact absurd hi (by simp)
  · intro c cs h ih i hi
    rw [acFixJson_cons_none h]
    cases i with
    | zero =>
      have h1 : occurrenceEndsAt (c :: cs) (0 + 1) = false := by
        rw [occurrenceEndsAt_cons h]; exact occurrenceEndsAt_lt_two cs (by omega)
      have h2 : occurrenceEndsAt (c :: cs) (0 + 2) = false := by
        rw [show 0 + 2 = 1 + 1 from rfl, occurrenceEndsAt_cons h]
        exact occurrenceEndsAt_lt_two cs (by omega)
      simp [rewrittenByte, h1, h2]
    | succ i =>
      have h1 : occurrenceEndsAt (c :: cs) (i + 1 + 1) = occurrenceEndsAt cs (i + 1) :=
        occurrenceEndsAt_cons h _
      have h2 : occurrenceEndsAt (c :: cs) (i + 1 + 2) = occurrenceEndsAt cs (i + 2) :=
        occurrenceEndsAt_cons h _
      have := ih i (by simpa using hi)
      simp only [rewrittenByte, h1, h2, List.getElem?_cons_succ] at this ⊢
      exact this
  · intro p rest hp h ih i hi
    rw [acFixJson_append_of_lookup h]
    rw [List.length_append] at hi
    obtain ⟨hlen, -, -, -⟩ := pair_shape hp
    obtain ⟨htwo, hb⟩ := pair_brackets hp
    by_cases hin : i < p.1.length
    · rw [List.getElem?_append_left (by omega), hb i hin]
      have h1 := occurrenceEndsAt_pair_le hp rest (show i + 1 ≤ p.1.length by omega)
      by_cases he : i + 1 = p.1.length
      · have h1' : occurrenceEndsAt (p.1 ++ rest) (i + 1) = true := by rw [h1]; simp [he]
        rw [if_pos he]
        simp only [rewrittenByte, h1', ↓reduceIte]
      · have h2 := occurrenceEndsAt_pair_le hp rest (show i + 2 ≤ p.1.length by omega)
        simp only [rewrittenByte, h1, h2, he, decide_False, decide_eq_true_eq, if_false,
          Bool.false_eq_true, List.getElem?_append_left hin]
    · obtain ⟨k, hk⟩ : ∃ k, i = p.1.length + k := ⟨i - p.1.length, by omega⟩
      subst hk
      have h1 : occurrenceEndsAt (p.1 ++ rest) (p.1.length + k + 1) =
          occurrenceEndsAt rest (k + 1) := by
        rw [Nat.add_assoc]
        exact occurrenceEndsAt_pair_gt hp rest (Nat.succ_pos k)
      have h2 : occurrenceEndsAt (p.1 ++ rest) (p.1.length + k + 2) =
          occurrenceEndsAt rest (k + 2) := by
        rw [Nat.add_assoc]
        exact occurrenceEndsAt_pair_gt hp rest (Nat.succ_pos (k + 1))
      have := ih k (by omega)
      rw [List.getElem?_append_right (by omega)]
      simp only [rewrittenByte, h1, h2, List.getElem?_append_right (Nat.le_add_right _ _),
        ← hlen, Nat.add_sub_cancel_left] at this ⊢
      exact this

/-- C18: `acFixJson` is a purely textual, length-preserving rewrite restricted to
the allow-list: for every input the output has the same length; at every position
the output byte is `]` on the last byte of an occurrence of `"k":{}` with `k`
allow-listed, `[` on the byte before it, and the input byte everywhere else; an
input with no such occurrence is returned unchanged, e.g. `"custom_cfg":{}`
(a name that is not listed) and `"bind_cfg": {}` (a space after the colon). -/
theorem acFixJson_textual (x : Bytes) :
    (acFixJson x).length = x.length ∧
    (∀ i, i < x.length →
      (acFixJson x)[i]? =
        if occurrenceEndsAt x (i + 1) then some 93
        else if occurrenceEndsAt x (i + 2) then some 91
        else x[i]?) ∧
    ((∀ j, occurrenceEndsAt x j = false) → acFixJson x = x) ∧
    (∀ j, occurrenceEndsAt (bytes "\"custom_cfg\":\x7b\x7d") j = false) ∧
    acFixJson (bytes "\"custom_cfg\":\x7b\x7d") = bytes "\"custom_cfg\":\x7b\x7d" ∧
    (∀ j, occurrenceEndsAt (bytes "\"bind_cfg\": \x7b\x7d") j = false) ∧
    acFixJson (bytes "\"bind_cfg\": \x7b\x7d") = bytes "\"bind_cfg\": \x7b\x7d" := by
  have hsame : ∀ s : Bytes, (∀ j, occurrenceEndsAt s j = false) → acFixJson s = s := by
    intro s hs
    apply List.ext_getElem?
    intro i
    by_cases hi : i < s.length
    · rw [acFixJson_byte_at s i hi]
      simp [rewrittenByte, hs]
    · rw [List.getElem?_eq_none (by rw [acFixJson_length]; omega),
        List.getElem?_eq_none (by omega)]
  have hbeyond : ∀ (s : Bytes) (j : Nat), s.length < j → occurrenceEndsAt s j = false := by
    intro s j hj
    cases h : occurrenceEndsAt s j with
    | false => rfl
    | true =>
      exfalso
      obtain ⟨p, hp, h1, h2⟩ := (occurrenceEndsAt_iff s j).1 h
      have := h2.length_le
      rw [List.length_drop] at this
      have := (pair_shape hp).2.1
      omega
  have hfinite : ∀ s : Bytes, ((List.range (s.length + 1)).all fun j =>
      !occurrenceEndsAt s j) = true → ∀ j, occurrenceEndsAt s j = false := by
    intro s hs j
    by_cases hj : j < s.length + 1
    · simp only [List.all_eq_true, List.mem_range, Bool.not_eq_true'] at hs
      exact hs j hj
    · exact hbeyond s j (by omega)
  have hc : ∀ j, occurrenceEndsAt (bytes "\"custom_cfg\":\x7b\x7d") j = false :=
    hfinite _ (by decide)
  have hb : ∀ j, occurrenceEndsAt (bytes "\"bind_cfg\": \x7b\x7d") j = false :=
    hfinite _ (by decide)
  exact ⟨acFixJson_length x, acFixJson_byte_at x, hsame x, hc, hsame _ hc, hb, hsame _ hb⟩

/-! ## Plain strings and the scanner -/

theorem decodeRune_some {s : Bytes} {r size : Nat} (h : decodeRune s = some (r, size)) :
    0 < size ∧ size ≤ s.length ∧ (∀ b ∈ s.take size, 0x80 ≤ b) ∧
      ∀ t, decodeRune (s ++ t) = some (r, size) := by
  rcases s with _ | ⟨b0, _ | ⟨b1, _ | ⟨b2, _ | ⟨b3, rest⟩⟩⟩⟩
  · simp [decodeRune] at h
  · simp [decodeRune] at h
  all_goals
    simp only [decodeRune] at h
    split_ifs at h
    all_goals
      simp only [Option.some.injEq, Prod.mk.injEq] at h
      obtain ⟨rfl, rfl⟩ := h
      simp only [isCont, Bool.and_eq_true, decide_eq_true_eq] at *
      refine ⟨by omega, by simp, ?_, ?_⟩
      · intro b hb
        simp only [List.take, List.mem_cons, List.mem_nil_iff, or_false] at hb
        omega
      · intro t
        first
          | omega
          | simp [decodeRune, isCont, *]

theorem isPlainText_no_quote : ∀ (fuel : Nat) (s : Bytes), isPlainText fuel s = true → 34 ∉ s
  | _, [], _ => by simp
  | 0, _ :: _, h => by simp [isPlainText] at h
  | fuel + 1, c :: rest, h => by
    simp only [isPlainText] at h
    split_ifs at h with hc
    · simp only [Bool.and_eq_true, decide_eq_true_eq] at h
      have ih := isPlainText_no_quote fuel rest h.2
      simp only [List.mem_cons, not_or]
      exact ⟨fun he => h.1.2.1 he.symm, ih⟩
    · cases hd : decodeRune (c :: rest) with
      | none => simp [hd] at h
      | some p =>
        obtain ⟨r, size⟩ := p
        simp only [hd] at h
        obtain ⟨-, -, hhigh, -⟩ := decodeRune_some hd
        have ih := isPlainText_no_quote fuel _ h
        intro hm
        rw [← List.take_append_drop size (c :: rest), List.mem_append] at hm
        rcases hm with hm | hm
        · have := hhigh 34 hm
          omega
        · exact ih hm

/-- The scanner reads a plain text up to the closing quote and returns it as it is. -/
theorem parseString_plain : ∀ (fuel : Nat) (s tail : Bytes), isPlainText fuel s = true →
    ∀ f, s.length < f → parseString f (s ++ 34 :: tail) = some (s, tail)
  | _, [], tail, _, f, hf => by
    obtain ⟨f, rfl⟩ : ∃ k, f = k + 1 := ⟨f - 1, by simp at hf; omega⟩
    simp [parseString]
  | 0, _ :: _, _, h, _, _ => by simp [isPlainText] at h
  | fuel + 1, c :: rest, tail, h, f, hf => by
    obtain ⟨f, rfl⟩ : ∃ k, f = k + 1 := ⟨f - 1, by omega⟩
    simp only [List.length_cons, Nat.add_lt_add_iff_right] at hf
    simp only [isPlainText] at h
    split_ifs at h with hc
    · simp only [Bool.and_eq_true, decide_eq_true_eq] at h
      have ih := parseString_plain fuel rest tail h.2 f hf
      have h34 : c ≠ 34 := h.1.2.1
      have h92 : c ≠ 92 := h.1.2.2
      have h20 : ¬ c < 0x20 := by omega
      simp only [List.cons_append, parseString, List.append_eq, h34, h92, h20, hc, if_false, if_true, ih,
        Option.map_some']
    · cases hd : decodeRune (c :: rest) with
      | none => simp [hd] at h
      | some p =>
        obtain ⟨r, size⟩ := p
        simp only [hd] at h
        obtain ⟨hpos, hle, -, happ⟩ := decodeRune_some hd
        have hlen : ((c :: rest).drop size).length < f := by
          rw [List.length_drop]
          simp only [List.length_cons] at hle ⊢
          omega
        have ih := parseString_plain fuel _ tail h f hlen
        have h34 : c ≠ 34 := by omega
        have h92 : c ≠ 92 := by omega
        have h20 : ¬ c < 0x20 := by omega
        have hd2 : decodeRune (c :: (rest ++ 34 :: tail)) = some (r, size) := happ (34 :: tail)
        have hdrop : (c :: (rest ++ 34 :: tail)).drop size =
            (c :: rest).drop size ++ 34 :: tail := by
          rw [← List.cons_append, List.drop_append_of_le_length hle]
        have htake : (c :: (rest ++ 34 :: tail)).take size = (c :: rest).take size := by
          rw [← List.cons_append, List.take_append_of_le_length hle]
        simp only [List.cons_append, parseString, List.append_eq, h34, h92, h20, hc, if_false, hd2, hdrop, ih,
          Option.map_some', htake, List.take_append_drop]

theorem plainString_no_quote {s : Bytes} (h : plainString s = true) : 34 ∉ s :=
  isPlainText_no_quote _ s h

theorem parseValue_string (fuel depth : Nat) (s tail : Bytes) (hs : plainString s = true) :
    parseValue (fuel + 1) depth (34 :: (s ++ 34 :: tail)) = some (.str s, tail) := by
  have h := parseString_plain _ s tail hs ((s ++ 34 :: tail).length + 1) (by simp; omega)
  simp only [parseValue, h, Option.map_some']
  simp

theorem parseValue_object (fuel depth : Nat) (mtext : Bytes) (hd : depth < maxNestingDepth) :
    parseValue (fuel + 1) depth (123 :: 34 :: mtext) =
      (parseMembers fuel (depth + 1) (34 :: mtext)).map fun p => (.obj p.1, p.2) := by
  have hd2 : ¬ depth ≥ maxNestingDepth := not_le.2 hd
  simp only [parseValue, hd2, if_true, if_false, skipSpace, isSpace]
  simp

theorem parseValue_empty_array (fuel depth : Nat) (rest : Bytes) (hd : depth < maxNestingDepth) :
    parseValue (fuel + 1) depth (91 :: 93 :: rest) = some (.arr [], rest) := by
  have hd2 : ¬ depth ≥ maxNestingDepth := not_le.2 hd
  simp only [parseValue, hd2, if_true, if_false, skipSpace, isSpace]
  simp

theorem parseValue_zero (fuel depth : Nat) (rest : Bytes) :
    parseValue (fuel + 1) depth (48 :: 44 :: rest) = some (.num [48], 44 :: rest) := by
  simp [parseValue, parseNumber, takeDigits, isDigit]

theorem parseMembers_last (fuel depth : Nat) (key vtext rest : Bytes) (v : JSON)
    (hk : plainString key = true) (hv : skipSpace vtext = vtext)
    (hval : parseValue fuel depth vtext = some (v, 125 :: rest)) :
    parseMembers (fuel + 1) depth (34 :: (key ++ 34 :: 58 :: vtext)) = some ([(key, v)], rest) := by
  have h := parseString_plain _ key (58 :: vtext) hk ((key ++ 34 :: 58 :: vtext).length + 1)
    (by simp; omega)
  simp only [parseMembers, h, skipSpace, isSpace]
  simp [hv, hval, skipSpace, isSpace]

theorem parseMembers_more (fuel depth : Nat) (key vtext rest : Bytes) (v : JSON)
    (hk : plainString key = true) (hv : skipSpace vtext = vtext)
    (hval : parseValue fuel depth vtext = some (v, 44 :: 34 :: rest)) :
    parseMembers (fuel + 1) depth (34 :: (key ++ 34 :: 58 :: vtext)) =
      (parseMembers fuel depth (34 :: rest)).map fun p => ((key, v) :: p.1, p.2) := by
  have h := parseString_plain _ key (58 :: vtext) hk ((key ++ 34 :: 58 :: vtext).length + 1)
    (by simp; omega)
  simp only [parseMembers, h, skipSpace, isSpace]
  simp [hv, hval, skipSpace, isSpace]

/-- The scanner on the payload `{"bind_cfg":[],"name":"<s>"}`. -/
theorem parseValue_userData (fuel depth : Nat) (s rest : Bytes) (hs : plainString s = true)
    (hd : depth + 1 < maxNestingDepth) :
    parseValue (fuel + 1 + 1 + 1 + 1) depth
      (123 :: 34 :: (bytes "bind_cfg" ++ 34 :: 58 :: 91 :: 93 :: 44 :: 34 :: (bytes "name" ++
        34 :: 58 :: 34 :: (s ++ 34 :: 125 :: rest)))) =
      some (.obj [(bytes "bind_cfg", .arr []), (bytes "name", .str s)], rest) := by
  rw [parseValue_object _ _ _ (by omega)]
  rw [parseMembers_more _ _ (bytes "bind_cfg") _ _ _ (by decide) ?_
    (parseValue_empty_array _ _ _ hd)]
  rw [parseMembers_last _ _ (bytes "name") _ _ _ (by decide) ?_ (parseValue_string _ _ s _ hs)]
  · rfl
  · simp [skipSpace, isSpace]
  · simp [skipSpace, isSpace]

/-- The scanner on the envelope `{"code":0,"message":"","data":<payload>}`. -/
theorem parseValue_envelope (fuel : Nat) (dtext : Bytes) (d : JSON)
    (hv : skipSpace dtext = dtext)
    (hval : parseValue (fuel + 1) (0 + 1) dtext = some (d, [125])) :
    parseValue (fuel + 1 + 1 + 1 + 1 + 1) 0
      (123 :: 34 :: (bytes "code" ++ 34 :: 58 :: 48 :: 44 :: 34 :: (bytes "message" ++
        34 :: 58 :: 34 :: ([] ++ 34 :: 44 :: 34 :: (bytes "data" ++ 34 :: 58 :: dtext))))) =
      some (envelope (bytes "0") [] d, []) := by
  have hzero : bytes "0" = [48] := by decide
  rw [parseValue_object _ _ _ (by decide)]
  rw [parseMembers_more _ _ (bytes "code") _ _ _ (by decide) ?_ (parseValue_zero _ _ _)]
  rw [parseMembers_more _ _ (bytes "message") _ _ _ (by decide) ?_
    (parseValue_string _ _ [] _ (by decide))]
  rw [parseMembers_last _ _ (bytes "data") _ _ _ (by decide) hv hval]
  · simp only [Option.map_some', envelope, hzero]
  · simp [skipSpace, isSpace]
  · simp [skipSpace, isSpace]

set_option maxRecDepth 100000 in
theorem userGetBodyFixed_eq (s : Bytes) :
    userGetBodyFixed s =
      123 :: 34 :: (bytes "code" ++ 34 :: 58 :: 48 :: 44 :: 34 :: (bytes "message" ++
        34 :: 58 :: 34 :: ([] ++ 34 :: 44 :: 34 :: (bytes "data" ++ 34 :: 58 :: 123 :: 34 ::
          (bytes "bind_cfg" ++ 34 :: 58 :: 91 :: 93 :: 44 :: 34 :: (bytes "name" ++
            34 :: 58 :: 34 :: (s ++ 34 :: 125 :: [125]))))))) := by
  have h1 : bytes "\x7b\"code\":0,\"message\":\"\",\"data\":\x7b\"bind_cfg\":[],\"name\":\"" =
      123 :: 34 :: (bytes "code" ++ 34 :: 58 :: 48 :: 44 :: 34 :: (bytes "message" ++
        34 :: 58 :: 34 :: ([] ++ 34 :: 44 :: 34 :: (bytes "data" ++ 34 :: 58 :: 123 :: 34 ::
          (bytes "bind_cfg" ++ 34 :: 58 :: 91 :: 93 :: 44 :: 34 :: (bytes "name" ++
            34 :: 58 :: [34])))))) := by decide
  have h2 : bytes "\"\x7d\x7d" = [34, 125, 125] := by decide
  rw [userGetBodyFixed, h1, h2]
  simp only [List.append_assoc, List.cons_append, List.nil_append]

/-- The scanner on the rewritten body of `UserGet`. -/
theorem parseJSON_userGetBodyFixed (s : Bytes) (hs : plainString s = true) :
    parseJSON (userGetBodyFixed s) = some (userGetDocument s) := by
  have hlen : 3 ≤ (userGetBodyFixed s).length := by
    rw [userGetBodyFixed_eq]
    simp only [List.length_cons]
    exact Nat.le_add_left _ _
  obtain ⟨k, hk⟩ : ∃ k, 2 * (userGetBodyFixed s).length + 2 = k + 1 + 1 + 1 + 1 + 1 + 1 + 1 + 1 :=
    ⟨2 * (userGetBodyFixed s).length + 2 - 8, by omega⟩
  have hsk : ∀ t : Bytes, skipSpace (123 :: t) = 123 :: t := fun t => by simp [skipSpace, isSpace]
  rw [parseJSON, hk, userGetBodyFixed_eq, hsk]
  rw [parseValue_envelope _ _ _ (hsk _) (parseValue_userData k (0 + 1) s [125] hs (by decide))]
  rfl

/-! ## The rewrite of the body of `UserGet` -/

/-- Where every old string clashes with the text at each of its positions, the
text is copied. -/
theorem acFixJson_append_clash : ∀ (a rest : Bytes),
    (∀ m, m < a.length → ∀ p ∈ acFixPairs, clash (a.drop m) p.1 = true) →
    acFixJson (a ++ rest) = a ++ acFixJson rest
  | [], rest, _ => rfl
  | c :: cs, rest, h => by
    have hl : genericLookup acFixPairs (c :: cs ++ rest) = none := by
      cases hl : genericLookup acFixPairs (c :: cs ++ rest) with
      | none => rfl
      | some q =>
        exfalso
        obtain ⟨hq, hs⟩ := lookup_some hl
        exact clash_ne _ _ _ _ (h 0 (by simp) q hq) hs
    rw [List.cons_append] at hl ⊢
    have h2 : ∀ m, m < cs.length → ∀ p ∈ acFixPairs, clash (cs.drop m) p.1 = true := by
      intro m hm p hp
      have := h (m + 1) (by simpa using hm) p hp
      simpa using this
    rw [acFixJson_cons_none hl, acFixJson_append_clash cs rest h2]
    rfl

theorem names_no_quote : (acFixNames.all fun k => !(bytes k).contains 34) = true := by decide

/-- Every old string is a quoted name without quote inside, followed by `:{}`. -/
theorem pair_quoted {p : Bytes × Bytes} (hp : p ∈ acFixPairs) :
    ∃ nm : Bytes, 34 ∉ nm ∧ p.1 = 34 :: (nm ++ 34 :: 58 :: [123, 125]) := by
  rw [acFixPairs_eq_map, List.mem_map] at hp
  obtain ⟨k, hk, rfl⟩ := hp
  have h := names_no_quote
  simp only [List.all_eq_true, Bool.not_eq_true', List.contains_eq_any_beq, List.any_eq_false,
    beq_iff_eq] at h
  refine ⟨bytes k, fun hm => h k hk 34 hm rfl, ?_⟩
  have h1 : bytes "\"" = [34] := by decide
  have h2 : bytes "\":\x7b\x7d" = [34, 58, 123, 125] := by decide
  simp only [emptyObjectField, h1, h2, List.append_assoc, List.cons_append, List.nil_append]

theorem no_quote_starts : ∀ (nm s t1 t2 : Bytes), 34 ∉ nm → 34 ∉ s →
    ¬ (nm ++ 34 :: 58 :: t1 <+: s ++ 34 :: 125 :: t2)
  | [], [], _, _, _, _, h => by
    simp only [List.nil_append, List.cons_prefix_cons] at h
    exact absurd h.2.1 (by decide)
  | [], c :: s, _, _, _, hs, h => by
    simp only [List.nil_append, List.cons_append, List.cons_prefix_cons] at h
    exact hs (by rw [h.1]; exact List.mem_cons_self _ _)
  | a :: nm, [], _, _, hn, _, h => by
    simp only [List.nil_append, List.cons_append, List.cons_prefix_cons] at h
    exact hn (by rw [h.1]; exact List.mem_cons_self _ _)
  | a :: nm, c :: s, t1, t2, hn, hs, h => by
    simp only [List.cons_append, List.cons_prefix_cons] at h
    exact no_quote_starts nm s t1 t2 (fun hm => hn (List.mem_cons_of_mem _ hm))
      (fun hm => hs (List.mem_cons_of_mem _ hm)) h.2

theorem acFixJson_no_quote : ∀ (s : Bytes), 34 ∉ s →
    acFixJson (s ++ [34, 125, 125]) = s ++ [34, 125, 125]
  | [], _ => by decide
  | c :: s, hs => by
    have hl : genericLookup acFixPairs (c :: (s ++ [34, 125, 125])) = none := by
      cases hl : genericLookup acFixPairs (c :: (s ++ [34, 125, 125])) with
      | none => rfl
      | some q =>
        exfalso
        obtain ⟨hq, hs2⟩ := lookup_some hl
        obtain ⟨nm, -, hnm⟩ := pair_quoted hq
        rw [hnm, List.cons_append, List.cons.injEq] at hs2
        exact hs (by rw [hs2.1]; exact List.mem_cons_self _ _)
    rw [List.cons_append, acFixJson_cons_none hl,
      acFixJson_no_quote s (fun hm => hs (List.mem_cons_of_mem _ hm))]

/-- A quoted text without quote inside, followed by `}}`, is copied. -/
theorem acFixJson_quoted (s : Bytes) (hs : 34 ∉ s) :
    acFixJson (34 :: (s ++ [34, 125, 125])) = 34 :: (s ++ [34, 125, 125]) := by
  have hl : genericLookup acFixPairs (34 :: (s ++ [34, 125, 125])) = none := by
    cases hl : genericLookup acFixPairs (34 :: (s ++ [34, 125, 125])) with
    | none => rfl
    | some q =>
      exfalso
      obtain ⟨hq, hs2⟩ := lookup_some hl
      obtain ⟨nm, hn, hnm⟩ := pair_quoted hq
      have hpre : q.1 <+: 34 :: (s ++ [34, 125, 125]) := ⟨_, hs2.symm⟩
      rw [hnm, List.cons_prefix_cons] at hpre
      exact no_quote_starts nm s _ _ hn hs hpre.2
  rw [acFixJson_cons_none hl, acFixJson_no_quote s hs]

set_option maxRecDepth 100000 in
/-- The rewrite of the body of `UserGet`: `"bind_cfg":{}` becomes `"bind_cfg":[]` and
everything else is copied. -/
theorem acFixJson_userGetBody (s : Bytes) (hs : 34 ∉ s) :
    acFixJson (userGetBody s) = userGetBodyFixed s := by
  have hp : (bytes "\"bind_cfg\":\x7b\x7d", bytes "\"bind_cfg\":[]") ∈ acFixPairs := by decide
  have h1 : userGetBody s =
      bytes "\x7b\"code\":0,\"message\":\"\",\"data\":\x7b" ++ (bytes "\"bind_cfg\":\x7b\x7d" ++
        (bytes ",\"name\":" ++ 34 :: (s ++ [34, 125, 125]))) := by
    have e1 : bytes "\x7b\"code\":0,\"message\":\"\",\"data\":\x7b\"bind_cfg\":\x7b\x7d,\"name\":\"" =
        bytes "\x7b\"code\":0,\"message\":\"\",\"data\":\x7b" ++ (bytes "\"bind_cfg\":\x7b\x7d" ++
          (bytes ",\"name\":" ++ [34])) := by decide
    have e2 : bytes "\"\x7d\x7d" = [34, 125, 125] := by decide
    rw [userGetBody, e1, e2]
    simp only [List.append_assoc, List.cons_append, List.nil_append]
  have h2 : userGetBodyFixed s =
      bytes "\x7b\"code\":0,\"message\":\"\",\"data\":\x7b" ++ (bytes "\"bind_cfg\":[]" ++
        (bytes ",\"name\":" ++ 34 :: (s ++ [34, 125, 125]))) := by
    have e1 : bytes "\x7b\"code\":0,\"message\":\"\",\"data\":\x7b\"bind_cfg\":[],\"name\":\"" =
        bytes "\x7b\"code\":0,\"message\":\"\",\"data\":\x7b" ++ (bytes "\"bind_cfg\":[]" ++
          (bytes ",\"name\":" ++ [34])) := by decide
    have e2 : bytes "\"\x7d\x7d" = [34, 125, 125] := by decide
    rw [userGetBodyFixed, e1, e2]
    simp only [List.append_assoc, List.cons_append, List.nil_append]
  have h3 : acFixJson (bytes "\x7b\"code\":0,\"message\":\"\",\"data\":\x7b") =
      bytes "\x7b\"code\":0,\"message\":\"\",\"data\":\x7b" := by decide
  have h4 : ∀ m, m < (bytes ",\"name\":").length → ∀ p ∈ acFixPairs,
      clash ((bytes ",\"name\":").drop m) p.1 = true := by decide
  rw [h1, h2, acFixJson_append_pair hp _ _ _ (le_refl _), h3,
    acFixJson_append_clash _ _ h4, acFixJson_quoted s hs]

/-! ## The pipeline of `UserGet` -/

/-- The decoding of the rewritten body of `UserGet` into `&acResp{Data: &r}`. -/
theorem unmarshalAcResp_userGetBodyFixed (s : Bytes) (hs : plainString s = true) :
    unmarshalAcResp (some (.ptr UserDetail)) (userGetBodyFixed s) =
      .ok { Code := 0, Message := [], Data := .addr (.ptr UserDetail), r := userDetailNamed s } := by
  rw [unmarshalAcResp_envelope (some (.ptr UserDetail)) (userGetBodyFixed s) (bytes "0") [] 0
    [(bytes "data", .obj [(bytes "bind_cfg", .arr []), (bytes "name", .str s)])]
    (parseJSON_userGetBodyFixed s hs) (by decide)]
  simp only [decodeAcRespMembers, decodeAcRespMember_data]
  rfl

/-- C14: in the pipeline of `UserGet` (`acFixJson`, then the decoding of the
envelope into `UserDetail`), the body
`{"code":0,"message":"","data":{"bind_cfg":{},"name":"<s>"}}`, for every plain
JSON string `s` (no escapes, no control characters, well-formed UTF-8; `x` is
one), is first rewritten to the same document with `"bind_cfg":[]` and then
decodes without error into a record whose `BindCfg` is an empty sequence and
whose `Name` is `s`; `UserGet` returns that record when `send` returns that body. -/
theorem UserGet_bind_cfg (env : Env) (s : Bytes) (hs : plainString s = true) :
    acFixJson (userGetBody s) = userGetBodyFixed s ∧
    parseJSON (userGetBodyFixed s) = some (userGetDocument s) ∧
    unmarshalAcResp Endpoint.UserGet.holder (acFixJson (userGetBody s)) =
      .ok { Code := 0, Message := [], Data := .addr (.ptr UserDetail), r := userDetailNamed s } ∧
    handleResponse env .UserGet (userGetBody s) = .ok (userDetailNamed s) ∧
    (∀ {σ : Type} (R : RandSource σ) (ac : AC) (g : σ) (name : Bytes),
      (send R env ac g (acReq.mk (ac.baseUrl ++ acUser) acGet [(bytes "name", name)] none)).result =
        .ok (userGetBody s) →
      (UserGet R env ac g name).outcome = .ok (userDetailNamed s)) ∧
    fieldGet ((userDetailNamed s).fieldsOr []) (bytes "bind_cfg") = some (.slice []) ∧
    fieldGet ((userDetailNamed s).fieldsOr []) (bytes "name") = some (.str s) := by
  have hfix := acFixJson_userGetBody s (plainString_no_quote hs)
  have hu := unmarshalAcResp_userGetBodyFixed s hs
  have hne : ¬ (Endpoint.UserGet.checksEmpty = true ∧ (userGetBody s).length = 0) := by
    intro h
    have h2 := h.2
    simp only [userGetBody, List.length_append] at h2
    have h3 : (bytes "\"\x7d\x7d").length = 3 := by decide
    omega
  have hh : handleResponse env .UserGet (userGetBody s) = .ok (userDetailNamed s) := by
    simp only [handleResponse, hne, if_false, Endpoint.prepare, Endpoint.normalises, if_true,
      hfix, Endpoint.holder, hu, Endpoint.resultKind]
    simp
  refine ⟨hfix, parseJSON_userGetBodyFixed s hs, ?_, hh, ?_, rfl, rfl⟩
  · rw [hfix]
    exact hu
  · intro σ R ac g name hsend
    simp only [UserGet, invoke, Call.request, Call.endpoint, hsend, respond]
    exact hh

/-- C14 at the name `x`. -/
theorem UserGet_bind_cfg_witness :
    plainString (bytes "x") = true ∧
    userGetBody (bytes "x") = exampleUserBody ∧
    userGetBodyFixed (bytes "x") = exampleUserBodyFixed ∧
    acFixJson exampleUserBody = exampleUserBodyFixed ∧
    handleResponse exampleEnv .UserGet exampleUserBody = .ok (userDetailNamed (bytes "x")) ∧
    fieldGet ((userDetailNamed (bytes "x")).fieldsOr []) (bytes "bind_cfg") = some (.slice []) ∧
    fieldGet ((userDetailNamed (bytes "x")).fieldsOr []) (bytes "name") =
      some (.str (bytes "x")) := by
  have h := UserGet_bind_cfg exampleEnv (bytes "x") (by decide)
  have e1 : userGetBody (bytes "x") = exampleUserBody := by decide
  have e2 : userGetBodyFixed (bytes "x") = exampleUserBodyFixed := by decide
  refine ⟨by decide, e1, e2, ?_, ?_, h.2.2.2.2.2.1, h.2.2.2.2.2.2⟩
  · rw [← e1, ← e2]
    exact h.1
  · rw [← e1]
    exact h.2.2.2.1

/-- C18 at the input `{"ou":{}}`: position 6 holds `[`, position 7 holds `]`,
position 0 keeps its `{`. -/
theorem acFixJson_textual_witness :
    (acFixJson (bytes "\x7b\"ou\":\x7b\x7d\x7d")).length = (bytes "\x7b\"ou\":\x7b\x7d\x7d").length ∧
    (acFixJson (bytes "\x7b\"ou\":\x7b\x7d\x7d"))[6]? = some 91 ∧
    (acFixJson (bytes "\x7b\"ou\":\x7b\x7d\x7d"))[7]? = some 93 ∧
    (acFixJson (bytes "\x7b\"ou\":\x7b\x7d\x7d"))[0]? = some 123 := by
  have h := acFixJson_textual (bytes "\x7b\"ou\":\x7b\x7d\x7d")
  refine ⟨h.1, ?_, ?_, ?_⟩
  · rw [h.2.1 6 (by decide)]
    decide
  · rw [h.2.1 7 (by decide)]
    decide
  · rw [h.2.1 0 (by decide)]
    decide

/-! ## Splitting the query string -/

theorem cutAt_not_mem (sep : Nat) : ∀ s : Bytes, sep ∉ s → cutAt sep s = (s, [])
  | [], _ => rfl
  | c :: rest, h => by
    have hc : c ≠ sep := fun he => h (by rw [he]; exact List.mem_cons_self _ _)
    have ih := cutAt_not_mem sep rest (fun hm => h (List.mem_cons_of_mem _ hm))
    simp [cutAt, hc, ih]

theorem cutAt_append (sep : Nat) (v : Bytes) : ∀ k : Bytes, sep ∉ k →
    cutAt sep (k ++ sep :: v) = (k, v)
  | [], _ => by simp [cutAt]
  | c :: rest, h => by
    have hc : c ≠ sep := fun he => h (by rw [he]; exact List.mem_cons_self _ _)
    have ih := cutAt_append sep v rest (fun hm => h (List.mem_cons_of_mem _ hm))
    simp [cutAt, hc, ih]

theorem splitOn_not_mem (sep : Nat) : ∀ s : Bytes, sep ∉ s → splitOn sep s = [s]
  | [], _ => rfl
  | c :: rest, h => by
    have hc : c ≠ sep := fun he => h (by rw [he]; exact List.mem_cons_self _ _)
    have ih := splitOn_not_mem sep rest (fun hm => h (List.mem_cons_of_mem _ hm))
    simp [splitOn, hc, ih]

theorem splitOn_append (sep : Nat) (rest : Bytes) : ∀ a : Bytes, sep ∉ a →
    splitOn sep (a ++ sep :: rest) = a :: splitOn sep rest
  | [], _ => by simp [splitOn]
  | c :: cs, h => by
    have hc : c ≠ sep := fun he => h (by rw [he]; exact List.mem_cons_self _ _)
    have ih := splitOn_append sep rest cs (fun hm => h (List.mem_cons_of_mem _ hm))
    simp [splitOn, hc, ih]

theorem splitOn_join (sep : Nat) : ∀ xs : List Bytes, xs ≠ [] → (∀ x ∈ xs, sep ∉ x) →
    splitOn sep (join [sep] xs) = xs
  | [], h, _ => absurd rfl h
  | [a], _, h => by
    simp only [join]
    exact splitOn_not_mem sep a (h a (List.mem_cons_self _ _))
  | a :: b :: rest, _, h => by
    have ih := splitOn_join sep (b :: rest) (by simp)
      (fun x hx => h x (List.mem_cons_of_mem _ hx))
    simp only [join, List.append_assoc, List.singleton_append]
    rw [splitOn_append sep _ a (h a (List.mem_cons_self _ _)), ih]

theorem join_append (sep : Bytes) : ∀ xs ys : List Bytes, xs ≠ [] → ys ≠ [] →
    join sep (xs ++ ys) = join sep xs ++ sep ++ join sep ys
  | [], _, h, _ => absurd rfl h
  | [a], [], _, h => absurd rfl h
  | [a], y :: ys, _, _ => by simp [join]
  | a :: b :: rest, ys, _, hy => by
    have ih := join_append sep (b :: rest) ys (by simp) hy
    simp only [List.cons_append] at ih ⊢
    simp only [join, ih, List.append_assoc]

theorem querySep_cases (uri : Bytes) :
    (63 ∉ uri ∧ querySep uri = [63]) ∨ (63 ∈ uri ∧ querySep uri = [38]) := by
  by_cases h : 63 ∈ uri
  · exact Or.inr ⟨h, by rw [querySep_of_mem h, lit_amp]⟩
  · exact Or.inl ⟨h, by rw [querySep_of_not_mem h, lit_question]⟩

theorem question_mem_sep (uri rest : Bytes) : 63 ∈ uri ++ querySep uri ++ rest := by
  rcases querySep_cases uri with ⟨-, h⟩ | ⟨h, -⟩
  · rw [h]; simp
  · simp [h]

theorem drop_sep (uri q : Bytes) : (uri ++ querySep uri ++ q).drop (uri.length + 1) = q := by
  have hl : (uri ++ querySep uri).length = uri.length + 1 := by
    rcases querySep_cases uri with ⟨-, h⟩ | ⟨-, h⟩ <;> simp [h]
  rw [← hl, List.drop_left]

/-- The URI of a GET, whatever the `uri` of the request: the separator and the
query pairs with the signature after them, joined by `&`. -/
theorem sendSignedUri_get (env : Env) (req : acReq) (n d : Bytes)
    (hget : toUpper req.method = bytes "GET") :
    sendSignedUri env req n d =
      req.uri ++ querySep req.uri ++ join (bytes "&") ((env.range req.Query).map queryPair ++
        [queryPair (bytes "random", n), queryPair (bytes "md5", d)]) := by
  by_cases h0 : req.Query = []
  · have hr : env.range req.Query = [] := by
      rw [h0]; exact List.perm_nil.1 (env.range_perm [])
    simp only [sendSignedUri, hget, if_true, sendQueryUri_nil env req h0, hr, List.map_nil,
      List.nil_append]
  · have hlen : req.Query.length > 0 := List.length_pos.2 h0
    have hq : sendQueryUri env req =
        req.uri ++ querySep req.uri ++ join (bytes "&") ((env.range req.Query).map queryPair) := by
      simp [sendQueryUri, hlen]
    have hmem : 63 ∈ sendQueryUri env req := by
      rw [hq]; exact question_mem_sep _ _
    have hne : (env.range req.Query).map queryPair ≠ [] := by
      simpa using range_ne_nil env h0
    simp only [sendSignedUri, hget, if_true, querySep_of_mem hmem]
    rw [hq, join_append _ _ _ hne (by simp)]
    simp only [List.append_assoc]

/-- The URI of a request of another method with a non-empty `Query`. -/
theorem sendSignedUri_other (env : Env) (req : acReq) (n d : Bytes)
    (hget : toUpper req.method ≠ bytes "GET") (h0 : req.Query ≠ []) :
    sendSignedUri env req n d =
      req.uri ++ querySep req.uri ++ join (bytes "&") ((env.range req.Query).map queryPair) := by
  have hlen : req.Query.length > 0 := List.length_pos.2 h0
  rw [sendSignedUri_not_get env req n d hget]
  simp [sendQueryUri, hlen]

theorem cleanText_not_mem {s : Bytes} (h : cleanText s = true) :
    38 ∉ s ∧ 61 ∉ s ∧ 63 ∉ s ∧ 35 ∉ s := by
  simp only [cleanText, List.all_eq_true, Bool.and_eq_true, bne_iff_ne, ne_eq] at h
  exact ⟨fun hm => (h 38 hm).1.1.1 rfl, fun hm => (h 61 hm).1.1.2 rfl,
    fun hm => (h 63 hm).1.2 rfl, fun hm => (h 35 hm).2 rfl⟩

theorem cleanText_of_forall {s : Bytes} (h : ∀ c ∈ s, c ≠ 38 ∧ c ≠ 61 ∧ c ≠ 63 ∧ c ≠ 35) :
    cleanText s = true := by
  simp only [cleanText, List.all_eq_true, Bool.and_eq_true, bne_iff_ne, ne_eq]
  intro c hc
  obtain ⟨h1, h2, h3, h4⟩ := h c hc
  exact ⟨⟨⟨h1, h2⟩, h3⟩, h4⟩

theorem cleanText_nonce {σ : Type} (R : RandSource σ) (env : Env) (ac : AC) (g : σ) :
    cleanText (sendNonce R env ac g) = true :=
  cleanText_of_forall fun c hc => by
    have := sendNonce_isDigit R env ac g c hc
    omega

theorem cleanText_digest {σ : Type} (R : RandSource σ) (env : Env) (ac : AC) (g : σ) :
    cleanText (sendDigest R env ac g) = true :=
  cleanText_of_forall fun c hc => by
    have := sendDigest_isLowerHex R env ac g c hc
    unfold isLowerHex at this
    omega

theorem not_mem_queryPair {c : Nat} {kv : Bytes × Bytes} (hc : c ≠ 61) (h1 : c ∉ kv.1)
    (h2 : c ∉ kv.2) : c ∉ queryPair kv := by
  simp only [queryPair, lit_equals, List.mem_append, List.mem_singleton, not_or]
  exact ⟨⟨h1, hc⟩, h2⟩

/-- Splitting the joined pairs gives the pairs back when no key holds `&` or `=`
and no value holds `&`. -/
theorem splitQuery_join (ps : List (Bytes × Bytes)) (hne : ps ≠ [])
    (h : ∀ kv ∈ ps, 38 ∉ kv.1 ∧ 61 ∉ kv.1 ∧ 38 ∉ kv.2) :
    splitQuery (join (bytes "&") (ps.map queryPair)) = ps := by
  have h1 : splitOn 38 (join [38] (ps.map queryPair)) = ps.map queryPair := by
    apply splitOn_join
    · simpa using hne
    · intro x hx
      obtain ⟨kv, hkv, rfl⟩ := List.mem_map.1 hx
      exact not_mem_queryPair (by decide) (h kv hkv).1 (h kv hkv).2.2
  rw [splitQuery, lit_amp, h1, List.map_map]
  conv_rhs => rw [← List.map_id ps]
  apply List.map_congr_left
  intro kv hkv
  simp only [Function.comp, queryPair, lit_equals, List.append_assoc, List.singleton_append, id]
  exact cutAt_append 61 kv.2 kv.1 (h kv hkv).2.1

theorem urlQuery_sep (uri q : Bytes) (h1 : 63 ∉ uri) (h2 : 35 ∉ uri) (h3 : 35 ∉ q) :
    urlQuery (uri ++ querySep uri ++ q) = q := by
  have hs : querySep uri = [63] := by rw [querySep_of_not_mem h1, lit_question]
  have hno : 35 ∉ uri ++ querySep uri ++ q := by
    rw [hs]
    simp only [List.mem_append, List.mem_singleton, not_or]
    exact ⟨⟨h2, by decide⟩, h3⟩
  rw [urlQuery, cutAt_not_mem 35 _ hno, hs, List.append_assoc, List.singleton_append,
    cutAt_append 63 q uri h1]

theorem not_mem_join_pairs {c : Nat} (hc : c ≠ 38 ∧ c ≠ 61) (ps : List (Bytes × Bytes))
    (h : ∀ kv ∈ ps, c ∉ kv.1 ∧ c ∉ kv.2) : c ∉ join (bytes "&") (ps.map queryPair) := by
  intro hm
  rcases mem_join hm with hm | ⟨x, hx, hm⟩
  · rw [lit_amp] at hm
    exact hc.1 (List.mem_singleton.1 hm)
  · obtain ⟨kv, hkv, rfl⟩ := List.mem_map.1 hx
    exact not_mem_queryPair hc.2 (h kv hkv).1 (h kv hkv).2 hm

/-- The pairs of a GET: the entries of `Query` in the order of the iteration, then
the signature. -/
theorem get_pairs_eq {σ : Type} (R : RandSource σ) (env : Env) (ac : AC) (g : σ) (req : acReq) :
    (env.range req.Query).map queryPair ++
      [queryPair (bytes "random", sendNonce R env ac g),
       queryPair (bytes "md5", sendDigest R env ac g)] =
    (env.range req.Query ++ [(bytes "random", sendNonce R env ac g),
      (bytes "md5", sendDigest R env ac g)]).map queryPair := by
  simp

theorem get_pairs_clean {σ : Type} (R : RandSource σ) (env : Env) (ac : AC) (g : σ)
    (req : acReq) (hclean : ∀ kv ∈ req.Query, cleanText kv.1 = true ∧ cleanText kv.2 = true) :
    ∀ kv ∈ env.range req.Query ++ [(bytes "random", sendNonce R env ac g),
      (bytes "md5", sendDigest R env ac g)], cleanText kv.1 = true ∧ cleanText kv.2 = true := by
  intro kv hkv
  rcases List.mem_append.1 hkv with hkv | hkv
  · exact hclean kv ((env.range_perm req.Query).mem_iff.1 hkv)
  · simp only [List.mem_cons, List.mem_singleton, List.not_mem_nil, or_false] at hkv
    rcases hkv with rfl | rfl
    · exact ⟨show cleanText (bytes "random") = true by decide, cleanText_nonce R env ac g⟩
    · exact ⟨show cleanText (bytes "md5") = true by decide, cleanText_digest R env ac g⟩

theorem splitQuery_clean (ps : List (Bytes × Bytes)) (hne : ps ≠ [])
    (h : ∀ kv ∈ ps, cleanText kv.1 = true ∧ cleanText kv.2 = true) :
    splitQuery (join (bytes "&") (ps.map queryPair)) = ps ∧
    35 ∉ join (bytes "&") (ps.map queryPair) :=
  ⟨splitQuery_join ps hne fun kv hkv =>
      ⟨(cleanText_not_mem (h kv hkv).1).1, (cleanText_not_mem (h kv hkv).1).2.1,
        (cleanText_not_mem (h kv hkv).2).1⟩,
    not_mem_join_pairs (by decide) ps fun kv hkv =>
      ⟨(cleanText_not_mem (h kv hkv).1).2.2.2, (cleanText_not_mem (h kv hkv).2).2.2.2⟩⟩

/-! ## The query string of a transmitted request -/

/-- C21 as stated fails: `GroupDelete("/g")` is sent by `send` with the query
`_method=DELETE`, whose key and value contain none of `&`, `=`, `?`, `#`, and
splitting the transmitted query string gives the one entry of `Query` and neither
`random` nor `md5`: with a POST the signature is in the body. -/
theorem GroupDelete_query_unsigned :
    (Call.GroupDelete (bytes "/g")).request exampleAC =
      .ok (acReq.mk (exampleAC.baseUrl ++ acGroup) acPost [(bytes "_method", bytes "DELETE")]
        (some [(bytes "path", .str (bytes "/g"))])) ∧
    cleanText (bytes "_method") = true ∧ cleanText (bytes "DELETE") = true ∧
    (GroupDelete exampleRand exampleEnv exampleAC 0 (bytes "/g")).sent =
      some exampleGroupDeleteRequest ∧
    urlQuery exampleGroupDeleteRequest.url = bytes "_method=DELETE" ∧
    appendedQuery (acReq.mk (exampleAC.baseUrl ++ acGroup) acPost
      [(bytes "_method", bytes "DELETE")] (some [(bytes "path", .str (bytes "/g"))]))
      exampleGroupDeleteRequest = bytes "_method=DELETE" ∧
    splitQuery (bytes "_method=DELETE") = [(bytes "_method", bytes "DELETE")] ∧
    (∀ v, (bytes "random", v) ∉ splitQuery (bytes "_method=DELETE")) ∧
    (∀ v, (bytes "md5", v) ∉ splitQuery (bytes "_method=DELETE")) := by
  have hsplit : splitQuery (bytes "_method=DELETE") = [(bytes "_method", bytes "DELETE")] := by
    decide
  have h1 : bytes "random" ≠ bytes "_method" := by decide
  have h2 : bytes "md5" ≠ bytes "_method" := by decide
  refine ⟨rfl, by decide, by decide, by decide!, by decide, by decide, hsplit, ?_, ?_⟩
  · intro v hv
    rw [hsplit, List.mem_singleton, Prod.mk.injEq] at hv
    exact h1 hv.1
  · intro v hv
    rw [hsplit, List.mem_singleton, Prod.mk.injEq] at hv
    exact h2 hv.1

/-- C21, amended: `send` copies the keys and values of `Query` into the URI as
they are, without percent-encoding, so the query string does not always
parse back to the `Query` map: for `UserGet("a&b=c")` the transmitted query string
is `name=a&b=c&random=<nonce>&md5=<digest>`, and splitting it on `&` and `=`
yields the pair `(b, c)`, which is not an entry of `Query`.  When no key or value
of `Query` contains `&`, `=`, `?` or `#`: for a GET, splitting the query string
that `send` appended recovers exactly the entries of `Query`, in the order of the
iteration, followed by `random` and `md5`; for any other method (the POST bindings)
it recovers the entries of `Query` only, when there are any, and nothing is
appended to the `uri` when there are none.  The appended text is the query string
of the URL (after the first `?`, before a `#`) when the `uri` has no `?` and
no `#`. -/
theorem send_query_split {σ : Type} (R : RandSource σ) (env : Env) (ac : AC) (g : σ) :
    (∀ h : HttpRequest, (UserGet R env ac g (bytes "a&b=c")).sent = some h →
      h.url = ac.baseUrl ++ acUser ++ querySep (ac.baseUrl ++ acUser) ++
        bytes "name=a&b=c&random=" ++ sendNonce R env ac g ++ bytes "&md5=" ++
        sendDigest R env ac g ∧
      splitQuery (appendedQuery
          (acReq.mk (ac.baseUrl ++ acUser) acGet [(bytes "name", bytes "a&b=c")] none) h) =
        [(bytes "name", bytes "a"), (bytes "b", bytes "c"),
         (bytes "random", sendNonce R env ac g), (bytes "md5", sendDigest R env ac g)] ∧
      (bytes "b", bytes "c") ∉ [(bytes "name", bytes "a&b=c")] ∧
      (63 ∉ ac.baseUrl → 35 ∉ ac.baseUrl →
        urlQuery h.url = appendedQuery
          (acReq.mk (ac.baseUrl ++ acUser) acGet [(bytes "name", bytes "a&b=c")] none) h)) ∧
    (∀ (req : acReq) (h : HttpRequest), (send R env ac g req).sent = some h →
      (∀ kv ∈ req.Query, cleanText kv.1 = true ∧ cleanText kv.2 = true) →
      (toUpper req.method = bytes "GET" →
        h.url = req.uri ++ querySep req.uri ++ appendedQuery req h ∧
        splitQuery (appendedQuery req h) =
          env.range req.Query ++ [(bytes "random", sendNonce R env ac g),
            (bytes "md5", sendDigest R env ac g)] ∧
        (splitQuery (appendedQuery req h)).Perm
          (req.Query ++ [(bytes "random", sendNonce R env ac g),
            (bytes "md5", sendDigest R env ac g)]) ∧
        (63 ∉ req.uri → 35 ∉ req.uri → urlQuery h.url = appendedQuery req h)) ∧
      (toUpper req.method ≠ bytes "GET" → req.Query ≠ [] →
        h.url = req.uri ++ querySep req.uri ++ appendedQuery req h ∧
        splitQuery (appendedQuery req h) = env.range req.Query ∧
        (splitQuery (appendedQuery req h)).Perm req.Query ∧
        (63 ∉ req.uri → 35 ∉ req.uri → urlQuery h.url = appendedQuery req h)) ∧
      (toUpper req.method ≠ bytes "GET" → req.Query = [] → h.url = req.uri)) := by
  constructor
  · intro h hs
    simp only [UserGet, invoke, Call.request, CallResult.sent, Option.bind] at hs
    have hh := send_sent R env ac g _ hs
    subst hh
    have hget : toUpper acGet = bytes "GET" := toUpper_GET
    have hurl := sendSignedUri_get env
      (acReq.mk (ac.baseUrl ++ acUser) acGet [(bytes "name", bytes "a&b=c")] none)
      (sendNonce R env ac g) (sendDigest R env ac g) hget
    simp only [range_singleton, List.map_cons, List.map_nil, List.singleton_append] at hurl
    have hjoin : join (bytes "&") [queryPair (bytes "name", bytes "a&b=c"),
        queryPair (bytes "random", sendNonce R env ac g),
        queryPair (bytes "md5", sendDigest R env ac g)] =
        join (bytes "&") ([(bytes "name", bytes "a"), (bytes "b", bytes "c"),
          (bytes "random", sendNonce R env ac g),
          (bytes "md5", sendDigest R env ac g)].map queryPair) := by
      have e1 : bytes "name" ++ bytes "=" ++ bytes "a&b=c" =
          bytes "name" ++ bytes "=" ++ bytes "a" ++ bytes "&" ++
            (bytes "b" ++ bytes "=" ++ bytes "c") := by decide
      simp only [List.map_cons, List.map_nil, join, queryPair, e1, List.append_assoc]
    have htext : join (bytes "&") [queryPair (bytes "name", bytes "a&b=c"),
        queryPair (bytes "random", sendNonce R env ac g),
        queryPair (bytes "md5", sendDigest R env ac g)] =
        bytes "name=a&b=c&random=" ++ sendNonce R env ac g ++ bytes "&md5=" ++
          sendDigest R env ac g := by
      have e2 : bytes "name" ++ bytes "=" ++ bytes "a&b=c" ++ bytes "&" ++
          (bytes "random" ++ bytes "=") = bytes "name=a&b=c&random=" := by decide
      have e3 : bytes "&" ++ (bytes "md5" ++ bytes "=") = bytes "&md5=" := by decide
      simp only [join, queryPair, ← e2, ← e3, List.append_assoc]
    have hclean4 : ∀ kv ∈ [(bytes "name", bytes "a"), (bytes "b", bytes "c"),
        (bytes "random", sendNonce R env ac g), (bytes "md5", sendDigest R env ac g)],
        cleanText kv.1 = true ∧ cleanText kv.2 = true := by
      intro kv hkv
      simp only [List.mem_cons, List.mem_singleton, List.not_mem_nil, or_false] at hkv
      rcases hkv with rfl | rfl | rfl | rfl
      · exact ⟨show cleanText (bytes "name") = true by decide,
          show cleanText (bytes "a") = true by decide⟩
      · exact ⟨show cleanText (bytes "b") = true by decide,
          show cleanText (bytes "c") = true by decide⟩
      · exact ⟨show cleanText (bytes "random") = true by decide, cleanText_nonce R env ac g⟩
      · exact ⟨show cleanText (bytes "md5") = true by decide, cleanText_digest R env ac g⟩
    have hsplit := splitQuery_clean _ (by simp) hclean4
    have happ : appendedQuery
        (acReq.mk (ac.baseUrl ++ acUser) acGet [(bytes "name", bytes "a&b=c")] none)
        { method := acGet,
          url := sendSignedUri env
            (acReq.mk (ac.baseUrl ++ acUser) acGet [(bytes "name", bytes "a&b=c")] none)
            (sendNonce R env ac g) (sendDigest R env ac g),
          body := sendBody env
            (acReq.mk (ac.baseUrl ++ acUser) acGet [(bytes "name", bytes "a&b=c")] none)
            (sendNonce R env ac g) (sendDigest R env ac g),
          header := sendHeader ac } =
        join (bytes "&") ([(bytes "name", bytes "a"), (bytes "b", bytes "c"),
          (bytes "random", sendNonce R env ac g),
          (bytes "md5", sendDigest R env ac g)].map queryPair) := by
      simp only [appendedQuery]
      rw [hurl, hjoin, drop_sep]
    refine ⟨?_, ?_, by decide, ?_⟩
    · dsimp only
      rw [hurl, htext]
      simp only [List.append_assoc]
    · rw [happ]
      exact hsplit.1
    · intro h1 h2
      have hacUser : 63 ∉ acUser ∧ 35 ∉ acUser := by decide
      rw [happ]
      dsimp only
      rw [hurl, hjoin]
      exact urlQuery_sep _ _
        (fun hm => (List.mem_append.1 hm).elim h1 hacUser.1)
        (fun hm => (List.mem_append.1 hm).elim h2 hacUser.2) hsplit.2
  · intro req h hs hclean
    have hh := send_sent R env ac g req hs
    subst hh
    refine ⟨?_, ?_, ?_⟩
    · intro hget
      have hurl := sendSignedUri_get env req (sendNonce R env ac g) (sendDigest R env ac g) hget
      rw [get_pairs_eq] at hurl
      have hsplit := splitQuery_clean _ (by simp) (get_pairs_clean R env ac g req hclean)
      have happ : appendedQuery req
          { method := req.method,
            url := sendSignedUri env req (sendNonce R env ac g) (sendDigest R env ac g),
            body := sendBody env req (sendNonce R env ac g) (sendDigest R env ac g),
            header := sendHeader ac } =
          join (bytes "&") ((env.range req.Query ++ [(bytes "random", sendNonce R env ac g),
            (bytes "md5", sendDigest R env ac g)]).map queryPair) := by
        simp only [appendedQuery]
        rw [hurl, drop_sep]
      rw [happ]
      refine ⟨hurl, hsplit.1, ?_, ?_⟩
      · rw [hsplit.1]
        exact (env.range_perm req.Query).append_right _
      · intro h1 h2
        show urlQuery (sendSignedUri env _ _ _) = _
        rw [hurl]
        exact urlQuery_sep _ _ h1 h2 hsplit.2
    · intro hget h0
      have hurl := sendSignedUri_other env req (sendNonce R env ac g) (sendDigest R env ac g)
        hget h0
      have hsplit := splitQuery_clean _ (range_ne_nil env h0)
        (fun kv hkv => hclean kv ((env.range_perm req.Query).mem_iff.1 hkv))
      have happ : appendedQuery req
          { method := req.method,
            url := sendSignedUri env req (sendNonce R env ac g) (sendDigest R env ac g),
            body := sendBody env req (sendNonce R env ac g) (sendDigest R env ac g),
            header := sendHeader ac } =
          join (bytes "&") ((env.range req.Query).map queryPair) := by
        simp only [appendedQuery]
        rw [hurl, drop_sep]
      rw [happ]
      refine ⟨hurl, hsplit.1, ?_, ?_⟩
      · rw [hsplit.1]
        exact env.range_perm req.Query
      · intro h1 h2
        show urlQuery (sendSignedUri env _ _ _) = _
        rw [hurl]
        exact urlQuery_sep _ _ h1 h2 hsplit.2
    · intro hget h0
      show sendSignedUri env _ _ _ = _
      rw [sendSignedUri_not_get env req _ _ hget, sendQueryUri_nil env req h0]

/-- C21, amended, at `UserGet("a&b=c")` and `UserGet("admin")` on the example client. -/
theorem send_query_split_witness :
    (UserGet exampleRand exampleEnv exampleAC 0 (bytes "a&b=c")).sent = some exampleAmpRequest ∧
    splitQuery (appendedQuery
        (acReq.mk (exampleAC.baseUrl ++ acUser) acGet [(bytes "name", bytes "a&b=c")] none)
        exampleAmpRequest) =
      [(bytes "name", bytes "a"), (bytes "b", bytes "c"),
       (bytes "random", sendNonce exampleRand exampleEnv exampleAC 0),
       (bytes "md5", sendDigest exampleRand exampleEnv exampleAC 0)] ∧
    (send exampleRand exampleEnv exampleAC 0 exampleUserGet).sent = some exampleGetRequest ∧
    (∀ kv ∈ exampleUserGet.Query, cleanText kv.1 = true ∧ cleanText kv.2 = true) ∧
    toUpper exampleUserGet.method = bytes "GET" ∧
    splitQuery (appendedQuery exampleUserGet exampleGetRequest) =
      exampleEnv.range exampleUserGet.Query ++
        [(bytes "random", sendNonce exampleRand exampleEnv exampleAC 0),
         (bytes "md5", sendDigest exampleRand exampleEnv exampleAC 0)] :=
  ⟨by decide!,
    ((send_query_split exampleRand exampleEnv exampleAC 0).1 exampleAmpRequest (by decide!)).2.1,
    by decide!, by decide, by decide,
    (((send_query_split exampleRand exampleEnv exampleAC 0).2 exampleUserGet exampleGetRequest
      (by decide!) (by decide)).1 (by decide)).2.1⟩

end Sangfor
